import Mathlib

/-!
# SimpleRedisClient: the command encoder, the extractor and the processing paths

A shallow embedding of
* `include/Consumer/RedisConsumerUtils/redis_consumer_utils.hpp` (command encoders),
* `src/Consumer/JsonMessageProcessorImpl.cpp` (identifier extractor),
* `src/Consumer/RedisConsumer.cpp` and `src/Consumer/ConsumerGroups/RedisBrokerConsumer.cpp`
  (processing of one payload, the publish path, the receive loops, the queue and the pool),
* `include/Parsing/config_parser.hpp` (`ValidateConfiguration`).

A `std::string` is a list of characters, one `Char` for each C++ `char`, so `List.length` is the
byte length that `std::string::length` returns.  Every statement below quantifies over all such
lists, hence over all byte strings.
-/

namespace SimpleRedisClient

/-- A `std::string`: one `Char` for each byte. -/
abbrev Str := List Char

/-! ## `std::to_string` -/

/-- The decimal digits of a natural number, most significant first (`std::to_string` on an
unsigned value): `0` is `"0"`, and there is no leading zero otherwise. -/
def to_string (n : Nat) : Str :=
  if n < 10 then [Nat.digitChar n] else to_string (n / 10) ++ [Nat.digitChar (n % 10)]
termination_by n
decreasing_by omega

/-- The text `std::to_string` gives for a signed `int`: a minus sign before the digits of a
negative value. -/
def to_string_int (i : Int) : Str :=
  if i < 0 then '-' :: to_string i.natAbs else to_string i.toNat

/-! ## `redis_consumer_utils.hpp` -/

/-- The C++ `StringToRespProtocolFormat`: `"$" + to_string(length) + "\r\n" + s + "\r\n"`. -/
def StringToRespProtocolFormat (string_to_format : Str) : Str :=
  "$".toList ++ to_string string_to_format.length ++ "\r\n".toList ++
    string_to_format ++ "\r\n".toList

/-- The C++ `CreateSubscriptionCommand`. -/
def CreateSubscriptionCommand (channel_name : Str) : Str :=
  let resp_formatted_subscription_command : Str := "*2\r\n$9\r\nSUBSCRIBE\r\n".toList
  let resp_formatted_channel_name := StringToRespProtocolFormat channel_name
  resp_formatted_subscription_command ++ resp_formatted_channel_name

/-- The body of the `for` loop of `CreateWriteMessageToStreamCommand(stream_name, values)`,
started at index `i` with the stream contents `out`: while `i < values.size()` it appends the
bulk string `"value" + to_string(i + 1)` and then the bulk string `values[i]`.  The index is an
`int` and the count `3 + 2 * values.size()` a `size_t`; both are natural numbers here, as they
are for every vector of fewer than `2 ^ 31 - 1` values. -/
def CreateWriteMessageToStreamCommand.loop (values : List Str) (i : Nat) (out : Str) : Str :=
  if h : i < values.length then
    CreateWriteMessageToStreamCommand.loop values (i + 1)
      (out ++ StringToRespProtocolFormat ("value".toList ++ to_string (i + 1))
           ++ StringToRespProtocolFormat (values.get ⟨i, h⟩))
  else out
termination_by values.length - i

/-- The C++ `CreateWriteMessageToStreamCommand(stream_name, values)`: the empty string when the
stream name or the list of values is empty, else the array header followed by `XADD`, the stream
name, `*`, and one generated field name and the value for every value. -/
def CreateWriteMessageToStreamCommand (stream_name : Str) (values : List Str) : Str :=
  if stream_name.isEmpty || values.isEmpty then []
  else
    let out : Str := "*".toList ++ to_string (3 + 2 * values.length) ++ "\r\n".toList
    let out := out ++ StringToRespProtocolFormat "XADD".toList
    let out := out ++ StringToRespProtocolFormat stream_name
    let out := out ++ StringToRespProtocolFormat "*".toList
    CreateWriteMessageToStreamCommand.loop values 0 out

/-- Modelled from the spec: `include/Consumer/Message.hpp` is not among the sources; the fields
are those the code reads and writes (`message_id`, `processor_id`, `processing_date_time`,
`source_channel_name`), the identifier being an `int` and the rest strings. -/
structure Message where
  message_id : Str := []
  processor_id : Int := 0
  processing_date_time : Str := []
  source_channel_name : Str := []
deriving DecidableEq, Repr

/-- The C++ `CreateWriteMessageToStreamCommand(stream_name, message)`.  The `assert` on the
stream name aborts the call, which is `none` here. -/
def CreateWriteMessageToStreamCommand_Message (stream_name : Str) (message : Message) :
    Option Str :=
  if stream_name.isEmpty then none
  else
    let out : Str := "*11\r\n".toList
    let out := out ++ StringToRespProtocolFormat "XADD".toList
    let out := out ++ StringToRespProtocolFormat stream_name
    let out := out ++ StringToRespProtocolFormat "*".toList
    let out := out ++ StringToRespProtocolFormat "Processor_id".toList
                   ++ StringToRespProtocolFormat (to_string_int message.processor_id)
    let out := out ++ StringToRespProtocolFormat "Processing_date_time".toList
                   ++ StringToRespProtocolFormat message.processing_date_time
    let out := out ++ StringToRespProtocolFormat "Source_channel_name".toList
                   ++ StringToRespProtocolFormat message.source_channel_name
    let out := out ++ StringToRespProtocolFormat "Message_id".toList
                   ++ StringToRespProtocolFormat message.message_id
    some out

/-! ## `std::string` searching, on `size_t` (64 bits) -/

/-- The value of `std::string::npos`: the largest `size_t`. -/
def npos : Nat := 2 ^ 64 - 1

/-- Subtraction of two `size_t` values, wrapping modulo `2 ^ 64`. -/
def size_t_sub (a b : Nat) : Nat := (a + 2 ^ 64 - b % 2 ^ 64) % 2 ^ 64

/-- Addition of two `size_t` values, wrapping modulo `2 ^ 64`. -/
def size_t_add (a b : Nat) : Nat := (a + b) % 2 ^ 64

/-- Whether `s` begins with the characters of `pat` (the comparison `find` makes at a position). -/
def starts_with : Str → Str → Bool
  | _, [] => true
  | [], _ :: _ => false
  | c :: s, p :: pat => c == p && starts_with s pat

/-- The scan of `std::string::find`: `s` is what is left of the string from index `i` on;
the first index at which `pat` starts, or `npos`. -/
def find.loop (pat : Str) : Str → Nat → Nat
  | [], i => if pat.isEmpty then i else npos
  | c :: s, i => if starts_with (c :: s) pat then i else find.loop pat s (i + 1)

/-- The C++ `std::string::find(pat)`: the index of the first occurrence of `pat`, or `npos`. -/
def find (s pat : Str) : Nat := find.loop pat s 0

/-- The backward scan of `std::string::find_last_of(c, pos)`: the indices `k - 1`, ..., `0` are
compared with `c` in this order (`for (++size; size-- > 0;)`). -/
def find_last_of.loop (s : Str) (c : Char) : Nat → Nat
  | 0 => npos
  | k + 1 => if s.get? k = some c then k else find_last_of.loop s c k

/-- The C++ `std::string::find_last_of(c, pos)` for one character: the largest index `i ≤ pos`
with `s[i] == c`, or `npos`; a `pos` beyond the last index means the last index. -/
def find_last_of (s : Str) (c : Char) (pos : Nat := npos) : Nat :=
  if s.length = 0 then npos
  else find_last_of.loop s c (min (s.length - 1) pos + 1)

/-- The C++ `std::string::substr(pos, n)`: `none` stands for the `std::out_of_range` it throws
when `pos > size()`; else the characters from `pos` on, at most `n` of them. -/
def substr (s : Str) (pos n : Nat) : Option Str :=
  if pos > s.length then none else some ((s.drop pos).take n)

/-! ## `JsonMessageProcessorImpl.cpp` -/

/-- The C++ `JsonMessageProcessorImpl::ProcessMessage`.  The outer `Option` is `none` when an
exception leaves the function; the inner one is the `std::optional<Message>` it returns. -/
def JsonMessageProcessorImpl.ProcessMessage (json : Str) : Option (Option Message) :=
  if find json "message_id".toList = npos then some none
  else
    let end_ := find_last_of json '"'
    if end_ ≠ npos then
      let start := find_last_of json '"' (size_t_sub end_ 1)
      if start ≠ npos then
        (substr json (size_t_add start 1) (size_t_sub (size_t_sub end_ start) 1)).map
          fun id => some { message_id := id }
      else some none
    else some none

/-! ## The reply object of the hiredis reader -/

/-- The `redisReply` of hiredis, by kind: bulk string, array, integer, nil (also the nil bulk
`$-1`), status line and error line. -/
inductive redisReply where
  | string (str : Str)
  | array (element : List redisReply)
  | integer (integer : Int)
  | nil
  | status (str : Str)
  | error (str : Str)

/-- The hiredis constant `REDIS_REPLY_STRING`. -/
def REDIS_REPLY_STRING : Nat := 1
/-- The hiredis constant `REDIS_REPLY_ARRAY`. -/
def REDIS_REPLY_ARRAY : Nat := 2
/-- The hiredis constant `REDIS_REPLY_INTEGER`. -/
def REDIS_REPLY_INTEGER : Nat := 3
/-- The hiredis constant `REDIS_REPLY_NIL`. -/
def REDIS_REPLY_NIL : Nat := 4
/-- The hiredis constant `REDIS_REPLY_STATUS`. -/
def REDIS_REPLY_STATUS : Nat := 5
/-- The hiredis constant `REDIS_REPLY_ERROR`. -/
def REDIS_REPLY_ERROR : Nat := 6

/-- The field `type` of a `redisReply`. -/
def redisReply.type : redisReply → Nat
  | .string _ => REDIS_REPLY_STRING
  | .array _ => REDIS_REPLY_ARRAY
  | .integer _ => REDIS_REPLY_INTEGER
  | .nil => REDIS_REPLY_NIL
  | .status _ => REDIS_REPLY_STATUS
  | .error _ => REDIS_REPLY_ERROR

/-- What the operating system and the hiredis reader answer during one call of
`AddDataToStream` in which `send` returns: the results of `connect` (`EstablishConnection`),
`send`, `redisReaderCreate`, `recv`, `redisReaderFeed` and `redisReaderGetReply`, and the reply
object the reader hands back (`none` for a null pointer: no complete reply yet).  The `send`
that does not return, because it raises SIGPIPE, is the case `sigpipe` of `Sending`. -/
structure Transport where
  connect_ok : Bool
  bytes_sent : Int
  reader_created : Bool
  bytes_read : Int
  feed_ok : Bool
  get_reply_ok : Bool
  reply : Option redisReply

/-! ## `RedisConsumer.cpp`: the single-path consumer -/

/-- The state of a `RedisConsumer` that the processing path reads and writes.  The two counters
are `std::atomic<long long>`; they start at `0` and only ever grow by one, and are kept as
natural numbers. -/
structure RedisConsumer where
  id_ : Int
  verbose_outputs_ : Bool
  write_connection_established_ : Bool
  subsciption_channel_ : Str
  processing_stream_ : Str
  number_of_processed_messages_ : Nat
  number_of_processing_errors_ : Nat

/-- The C++ `RedisConsumer::AddDataToStream(resp_formatted_command, is_internal_call)`.
The result is `none` when the process stops (the failed `assert`, or `exit` in
`EstablishConnection`); else the value returned and the buffers handed to `send`. -/
def RedisConsumer.AddDataToStream (self : RedisConsumer) (net : Transport)
    (resp_formatted_command : Str) (is_internal_call : Bool) : Option (Bool × List Str) :=
  if is_internal_call && !self.write_connection_established_ then none
  else if !is_internal_call && !net.connect_ok then none
  else
    let sent := [resp_formatted_command]
    if net.bytes_sent < 0 then some (false, sent)
    else if !net.reader_created then some (false, sent)
    else if net.bytes_read < 0 then some (false, sent)
    else if !net.feed_ok then some (false, sent)
    else if !net.get_reply_ok then some (false, sent)
    else
      match net.reply with
      | some r =>
        if r.type = REDIS_REPLY_STRING then some (true, sent)
        else some (false, sent)
      | none => some (false, sent)

/-- The C++ `RedisConsumer::AddDataToStream(stream_name, values)`, the public entry. -/
def RedisConsumer.AddDataToStream_values (self : RedisConsumer) (net : Transport)
    (stream_name : Str) (values : List Str) : Option (Bool × List Str) :=
  if stream_name.isEmpty || values.isEmpty then some (false, [])
  else
    let redis_xadd_command := CreateWriteMessageToStreamCommand stream_name values
    if redis_xadd_command.isEmpty then none
    else self.AddDataToStream net redis_xadd_command false

/-- The C++ `RedisConsumer::ProcessMessage`; `now` is what `GetCurrentTime()` returns.  The
result is `none` when the process stops; else the new state and the buffers handed to `send`. -/
def RedisConsumer.ProcessMessage (self : RedisConsumer) (now : Str) (net : Transport)
    (message : Str) : Option (RedisConsumer × List Str) :=
  match JsonMessageProcessorImpl.ProcessMessage message with
  | none => none
  | some (some processed_message) =>
    let processed_message := { processed_message with
      processor_id := self.id_
      processing_date_time := now
      source_channel_name := self.subsciption_channel_ }
    if !self.processing_stream_.isEmpty then
      match CreateWriteMessageToStreamCommand_Message self.processing_stream_
          processed_message with
      | none => none
      | some command =>
        match self.AddDataToStream net command true with
        | none => none
        | some (true, sent) =>
          some ({ self with
            number_of_processed_messages_ := self.number_of_processed_messages_ + 1 }, sent)
        | some (false, sent) =>
          some ({ self with
            number_of_processing_errors_ := self.number_of_processing_errors_ + 1 }, sent)
    else
      some ({ self with
        number_of_processed_messages_ := self.number_of_processed_messages_ + 1 }, [])
  | some none =>
    some ({ self with
      number_of_processing_errors_ := self.number_of_processing_errors_ + 1 }, [])

/-- The assignments `RedisConsumer::SubscribeToChannel` makes to the consumer before it enters
the receive loop, when the subscribe command is sent and the connections open: the channel is
recorded, and a non-empty processing stream is recorded together with its write connection. -/
def RedisConsumer.SubscribeToChannel.setup (self : RedisConsumer) (channel_name : Str)
    (processing_stream : Str) : RedisConsumer :=
  let self := { self with subsciption_channel_ := channel_name }
  if !processing_stream.isEmpty then
    { self with
      write_connection_established_ := true
      processing_stream_ := processing_stream }
  else self

/-! ## `RedisBrokerConsumer.cpp`: a worker of the pool -/

/-- The state of a `BrokerWorker` that its loop reads and writes; the counters as in
`RedisConsumer`. -/
structure BrokerWorker where
  id_ : Int
  source_channel_name_ : Str
  processing_stream_name_ : Str
  writing_socket_file_descriptor_ : Int
  verbose_outputs_ : Bool
  stop_ : Bool
  number_of_processed_messages_ : Nat
  number_of_processing_errors_ : Nat

/-- The C++ `BrokerWorker::AddDataToStream`: the value returned and the buffers handed to
`send`. -/
def BrokerWorker.AddDataToStream (_self : BrokerWorker) (net : Transport)
    (resp_formatted_command : Str) : Bool × List Str :=
  let sent := [resp_formatted_command]
  if net.bytes_sent < 0 then (false, sent)
  else if !net.reader_created then (false, sent)
  else if net.bytes_read < 0 then (false, sent)
  else if !net.feed_ok then (false, sent)
  else if !net.get_reply_ok then (false, sent)
  else
    match net.reply with
    | some r =>
      if r.type = REDIS_REPLY_STRING then (true, sent)
      else (false, sent)
    | none => (false, sent)

/-- The body of the loop of `BrokerWorker::ProcessMessages` once `message` has been taken off
the queue (from the call of the extractor to the end of the iteration).  The result is `none`
when the process stops; else the new state and the buffers handed to `send`. -/
def BrokerWorker.ProcessMessages.body (self : BrokerWorker) (now : Str) (net : Transport)
    (message : Str) : Option (BrokerWorker × List Str) :=
  match JsonMessageProcessorImpl.ProcessMessage message with
  | none => none
  | some (some processed_message) =>
    let processed_message := { processed_message with
      processor_id := self.id_
      processing_date_time := now
      source_channel_name := self.source_channel_name_ }
    if !self.processing_stream_name_.isEmpty then
      match CreateWriteMessageToStreamCommand_Message self.processing_stream_name_
          processed_message with
      | none => none
      | some command =>
        match self.AddDataToStream net command with
        | (true, sent) =>
          some ({ self with
            number_of_processed_messages_ := self.number_of_processed_messages_ + 1 }, sent)
        | (false, sent) =>
          some ({ self with
            number_of_processing_errors_ := self.number_of_processing_errors_ + 1 }, sent)
    else
      some ({ self with
        number_of_processed_messages_ := self.number_of_processed_messages_ + 1 }, [])
  | some none =>
    some ({ self with
      number_of_processing_errors_ := self.number_of_processing_errors_ + 1 }, [])

/-- What one pass through the loop of `BrokerWorker::ProcessMessages` does. -/
inductive Iteration where
  /-- The loop is left (`while (!stop_)` is false, or `break`). -/
  | exited
  /-- The worker waits on the condition variable: the queue is empty and `stop_` is not set. -/
  | waiting
  /-- The process stops inside the iteration. -/
  | aborted
  /-- One payload was taken and handled: the new state, the queue left, the buffers sent. -/
  | handled (worker : BrokerWorker) (message_queue_ : List Str) (sent : List Str)

/-- One pass through the loop of `BrokerWorker::ProcessMessages`, on the shared queue
`message_queue_` (front first), with `stop_` as the worker's state holds it. -/
def BrokerWorker.ProcessMessages.iteration (self : BrokerWorker) (now : Str) (net : Transport)
    (message_queue_ : List Str) : Iteration :=
  if self.stop_ then .exited
  else
    match message_queue_ with
    | [] => if self.stop_ then .exited else .waiting
    | message :: rest =>
      match BrokerWorker.ProcessMessages.body self now net message with
      | none => .aborted
      | some (worker, sent) => .handled worker rest sent

/-! ## The RESP encoding of a command, in the words of the specification -/

/-- A RESP array of bulk strings: the header `*<count>\r\n` and then every element as a
length-prefixed bulk string. -/
def respArray (elems : List Str) : Str :=
  "*".toList ++ to_string elems.length ++ "\r\n".toList ++
    (elems.map StringToRespProtocolFormat).flatten

/-- The field names and values the specification lists after `XADD <stream> *` for the values
`vs`, the first of them being value number `i + 1`: `value<i+1>`, `v`, `value<i+2>`, ... -/
def xaddFields : Nat → List Str → List Str
  | _, [] => []
  | i, v :: vs => ("value".toList ++ to_string (i + 1)) :: v :: xaddFields (i + 1) vs

/-- The elements of the append command for a stream and its values: `XADD`, the stream, `*`,
and the generated field name and the value for each value, in the order given. -/
def xaddElements (stream_name : Str) (values : List Str) : List Str :=
  "XADD".toList :: stream_name :: "*".toList :: xaddFields 0 values

/-! ## A reference RESP decoder for an array of bulk strings -/

/-- The value of a decimal digit, `none` for any other character. -/
def refDigit (c : Char) : Option Nat :=
  if 48 ≤ c.toNat ∧ c.toNat ≤ 57 then some (c.toNat - 48) else none

/-- Reads the decimal digits at the head of the input into `acc`; returns the number and the
input from the first character that is not a digit. -/
def refDigits (acc : Nat) : Str → Nat × Str
  | [] => (acc, [])
  | c :: r =>
    match refDigit c with
    | some d => refDigits (acc * 10 + d) r
    | none => (acc, c :: r)

/-- A decimal number of at least one digit at the head of the input. -/
def refNat (s : Str) : Option (Nat × Str) :=
  match s with
  | [] => none
  | c :: _ => if (refDigit c).isSome then some (refDigits 0 s) else none

/-- Whether the text starts with a `0` that another digit follows. -/
def refLeadingZero : Str → Bool
  | '0' :: c :: _ => (refDigit c).isSome
  | _ => false

/-- The decimal text of an integer, in the words of the specification (`decimal(x)`): a minus
sign when the number is negative, then its digits, without a leading zero, without `-0` and
without any other sign.  Reads such a text at the head of the input; returns the number and the
rest of the input. -/
def refInt (s : Str) : Option (Int × Str) :=
  match s with
  | '-' :: t =>
    if refLeadingZero t then none
    else
      match refNat t with
      | some (n, rest) => if n = 0 then none else some (-(n : Int), rest)
      | none => none
  | _ =>
    if refLeadingZero s then none
    else
      match refNat s with
      | some (n, rest) => some ((n : Int), rest)
      | none => none

/-- The line end `\r\n` at the head of the input. -/
def refCRLF : Str → Option Str
  | '\r' :: '\n' :: r => some r
  | _ => none

/-- One bulk string `$<len>\r\n<len bytes>\r\n`: the bytes are taken by count, whatever they
are; returns them and the input left. -/
def refDecodeBulk : Str → Option (Str × Str)
  | '$' :: r =>
    match refNat r with
    | none => none
    | some (n, r) =>
      match refCRLF r with
      | none => none
      | some r =>
        if r.length < n then none
        else
          match refCRLF (r.drop n) with
          | none => none
          | some rest => some (r.take n, rest)
  | _ => none

/-- Decodes `k` bulk strings one after the other. -/
def refDecodeBulks : Nat → Str → Option (List Str × Str)
  | 0, s => some ([], s)
  | k + 1, s =>
    match refDecodeBulk s with
    | none => none
    | some (x, r) =>
      match refDecodeBulks k r with
      | none => none
      | some (xs, rest) => some (x :: xs, rest)

/-- An array `*<count>\r\n` of `count` bulk strings: the elements and the input left. -/
def refDecodeArray : Str → Option (List Str × Str)
  | '*' :: r =>
    match refNat r with
    | none => none
    | some (n, r) =>
      match refCRLF r with
      | none => none
      | some r => refDecodeBulks n r
  | _ => none

/-! ## Sample states and the success of a round trip -/

/-- A message as the consumer with id `1` enriches it. -/
def sampleMessage : Message :=
  { message_id := "abc123".toList
    processor_id := 1
    processing_date_time := "2024-01-01 10:00:00.000".toList
    source_channel_name := "messages:published".toList }

/-- A consumer with id `1` that has connected but not subscribed. -/
def sampleConsumer : RedisConsumer :=
  { id_ := 1
    verbose_outputs_ := false
    write_connection_established_ := false
    subsciption_channel_ := []
    processing_stream_ := []
    number_of_processed_messages_ := 0
    number_of_processing_errors_ := 0 }

/-- A round trip in which every call succeeds and the server answers with the bulk string
`reply_id` (the id of the new entry). -/
def okTransport (reply_id : Str) : Transport :=
  { connect_ok := true
    bytes_sent := 10
    reader_created := true
    bytes_read := 10
    feed_ok := true
    get_reply_ok := true
    reply := some (.string reply_id) }

/-- A worker with id `1` for the channel `messages:published` and the stream
`messages:processed`. -/
def sampleWorker : BrokerWorker :=
  { id_ := 1
    source_channel_name_ := "messages:published".toList
    processing_stream_name_ := "messages:processed".toList
    writing_socket_file_descriptor_ := 4
    verbose_outputs_ := false
    stop_ := false
    number_of_processed_messages_ := 0
    number_of_processing_errors_ := 0 }

/-- Whether the reply object is a bulk string. -/
def isBulkString : Option redisReply → Bool
  | some (.string _) => true
  | _ => false

/-- Whether every call of the round trip succeeded and the reply decoded is a bulk string. -/
def Transport.published (net : Transport) : Bool :=
  decide (0 ≤ net.bytes_sent) && net.reader_created && decide (0 ≤ net.bytes_read)
    && net.feed_ok && net.get_reply_ok && isBulkString net.reply

/-- A round trip in which every call succeeds and the server answers with `reply`. -/
def replyTransport (reply : redisReply) : Transport :=
  { connect_ok := true
    bytes_sent := 1
    reader_created := true
    bytes_read := 1
    feed_ok := true
    get_reply_ok := true
    reply := some reply }

/-! ## The hiredis reader: decoding replies from the bytes received

hiredis is a library the program links; its reader is modelled on the RESP subset of the
specification (status, error, integer, bulk string with the nil bulk, array of replies). -/

/-- What decoding the head of a buffer gives: a value and the bytes after it, or the answer that
the buffer does not hold a whole value yet, or that its bytes fit no reply shape. -/
inductive Decode (α : Type) where
  | done (value : α) (rest : Str)
  | needMoreData
  | protocolError

/-- The line at the head of the input and the input after its `\r\n`; `none` when the input
holds no `\r\n`. -/
def readLine : Str → Option (Str × Str)
  | [] => none
  | c :: t =>
    if c = '\r' ∧ t.head? = some '\n' then some ([], t.tail)
    else
      match readLine t with
      | none => none
      | some (line, rest) => some (c :: line, rest)

/-- Whether the text is one or more decimal digits. -/
def allDigits (s : Str) : Bool :=
  !s.isEmpty && s.all fun c => (refDigit c).isSome

/-- The integer a line spells: digits, with an optional minus sign before them. -/
def decodeInteger : Str → Option Int
  | '-' :: ds => if allDigits ds then some (-((refDigits 0 ds).1 : Int)) else none
  | ds => if allDigits ds then some ((refDigits 0 ds).1 : Int) else none

/-- Decodes `count` replies one after the other with the decoder `dec`. -/
def decodeElements (dec : Str → Decode redisReply) : Nat → Str → Decode (List redisReply)
  | 0, s => .done [] s
  | count + 1, s =>
    match dec s with
    | .done r rest =>
      match decodeElements dec count rest with
      | .done rs rest => .done (r :: rs) rest
      | .needMoreData => .needMoreData
      | .protocolError => .protocolError
    | .needMoreData => .needMoreData
    | .protocolError => .protocolError

/-- Decodes one reply at the head of the buffer; `depth` bounds the nesting of arrays.
A bulk string is taken by its length and the two bytes after it are skipped, as hiredis does. -/
def decodeReply : Nat → Str → Decode redisReply
  | _, [] => .needMoreData
  | 0, _ :: _ => .protocolError
  | depth + 1, c :: t =>
    if c = '+' then
      match readLine t with
      | none => .needMoreData
      | some (line, rest) => .done (.status line) rest
    else if c = '-' then
      match readLine t with
      | none => .needMoreData
      | some (line, rest) => .done (.error line) rest
    else if c = ':' then
      match readLine t with
      | none => .needMoreData
      | some (line, rest) =>
        match decodeInteger line with
        | none => .protocolError
        | some i => .done (.integer i) rest
    else if c = '$' then
      match readLine t with
      | none => .needMoreData
      | some (line, rest) =>
        match decodeInteger line with
        | none => .protocolError
        | some len =>
          if len = -1 then .done .nil rest
          else if len < 0 then .protocolError
          else if rest.length < len.toNat + 2 then .needMoreData
          else .done (.string (rest.take len.toNat)) (rest.drop (len.toNat + 2))
    else if c = '*' then
      match readLine t with
      | none => .needMoreData
      | some (line, rest) =>
        match decodeInteger line with
        | none => .protocolError
        | some count =>
          if count = -1 then .done .nil rest
          else if count < 0 then .protocolError
          else
            match decodeElements (decodeReply depth) count.toNat rest with
            | .done rs rest => .done (.array rs) rest
            | .needMoreData => .needMoreData
            | .protocolError => .protocolError
    else .protocolError

/-- The `redisReader` of hiredis: the bytes fed and not yet decoded, whether the reader is in
its error state, and the nesting of arrays it accepts. -/
structure redisReader where
  buf : Str
  err : Bool
  nesting : Nat

/-- The reader `redisReaderCreate` returns. -/
def redisReaderCreate (nesting : Nat) : redisReader :=
  { buf := [], err := false, nesting := nesting }

/-- The hiredis `redisReaderFeed`: whether it returns `REDIS_OK`, and the reader after the
bytes were appended to its buffer. -/
def redisReaderFeed (reader : redisReader) (bytes : Str) : Bool × redisReader :=
  if reader.err then (false, reader)
  else (true, { reader with buf := reader.buf ++ bytes })

/-- The hiredis `redisReaderGetReply`: whether it returns `REDIS_OK`, the reply object (`none`
for the null pointer: the buffer holds no complete reply), and the reader after the decoded
bytes left its buffer. -/
def redisReaderGetReply (reader : redisReader) : Bool × Option redisReply × redisReader :=
  if reader.err then (false, none, reader)
  else
    match decodeReply reader.nesting reader.buf with
    | .done r rest => (true, some r, { reader with buf := rest })
    | .needMoreData => (true, none, reader)
    | .protocolError => (false, none, { reader with err := true })

/-- The field `str` of a `redisReply`: the bytes of a bulk string, status or error, and the
null pointer (`none`) for the other kinds. -/
def redisReply.str : redisReply → Option Str
  | .string str => some str
  | .status str => some str
  | .error str => some str
  | _ => none

/-- The field `elements` of a `redisReply`. -/
def redisReply.elements : redisReply → Nat
  | .array element => element.length
  | _ => 0

/-- The field `element` of a `redisReply`. -/
def redisReply.element : redisReply → List redisReply
  | .array element => element
  | _ => []

/-- The C string a `char *` to the bytes denotes: the bytes before the first NUL. -/
def c_str (s : Str) : Str := s.takeWhile fun c => c != Char.ofNat 0

/-- Whether `strcmp(a, b)` is `0`: the two C strings are equal. -/
def strcmp_zero (a b : Str) : Bool := c_str a == c_str b

/-- What `recv` returns: a negative count, or the bytes read (their number is the count). -/
inductive Recv where
  | error
  | data (bytes : Str)

/-- What one pass through a receive loop does: the loop is left and the connection closed
(`closed`), the process stops on a null pointer or a failed assertion (`aborted`), or the loop
goes on to the next `recv` with a new state and reader, having handed `sent` to `send`. -/
inductive Receive (σ : Type) where
  | closed
  | aborted
  | running (state : σ) (reader : redisReader) (sent : List Str)

/-- The part of the loop of `RedisConsumer::SubscribeToChannel` that looks at the reply object
(`if (redisReply *r = (redisReply *)reply)` and what it guards).  `none` when the process
stops: `strcmp` or the `std::string` constructor is given a null `str`. -/
def RedisConsumer.SubscribeToChannel.dispatch (self : RedisConsumer) (channel_name : Str)
    (now : Str) (net : Transport) (reply : Option redisReply) :
    Option (RedisConsumer × List Str) :=
  match reply with
  | none => some (self, [])
  | some r =>
    if r.type = REDIS_REPLY_ARRAY ∧ r.elements = 3 then
      match (r.element.get? 0).bind redisReply.str with
      | none => none
      | some kind =>
        if strcmp_zero kind "subscribe".toList then some (self, [])
        else if strcmp_zero kind "message".toList then
          match (r.element.get? 1).bind redisReply.str with
          | none => none
          | some channel =>
            if strcmp_zero channel channel_name then
              match (r.element.get? 2).bind redisReply.str with
              | none => none
              | some payload => self.ProcessMessage now net (c_str payload)
            else some (self, [])
        else some (self, [])
    else some (self, [])

/-- One pass through the loop of `RedisConsumer::SubscribeToChannel`: `recv`, feed, get a
reply, look at it. -/
def RedisConsumer.SubscribeToChannel.iteration (self : RedisConsumer) (channel_name : Str)
    (reader : redisReader) (recv : Recv) (now : Str) (net : Transport) :
    Receive RedisConsumer :=
  match recv with
  | .error => .closed
  | .data bytes =>
    let fed := redisReaderFeed reader bytes
    if !fed.1 then .closed
    else
      let got := redisReaderGetReply fed.2
      if !got.1 then .closed
      else
        match RedisConsumer.SubscribeToChannel.dispatch self channel_name now net got.2.1 with
        | none => .aborted
        | some (state, sent) => .running state got.2.2 sent

/-! ## `RedisBrokerConsumer.cpp`: the pool -/

/-- The C++ `BrokerWorker::GetNumberOfProcessedMessages`. -/
def BrokerWorker.GetNumberOfProcessedMessages (self : BrokerWorker) : Nat :=
  self.number_of_processed_messages_

/-- The state of a `RedisBrokerConsumer` that the receive loop and the queries read and write;
the queue holds its front first. -/
structure RedisBrokerConsumer where
  verbose_outputs_ : Bool
  number_of_workers_ : Int
  subsciption_channel_ : Str
  message_queue_ : List Str
  workers_ : List BrokerWorker

/-- The C++ `RedisBrokerConsumer::ProcessMessage`: the payload is pushed at the back of the
queue under the mutex (the wake-up of one waiting worker changes no data). -/
def RedisBrokerConsumer.ProcessMessage (self : RedisBrokerConsumer) (message : Str) :
    RedisBrokerConsumer :=
  { self with message_queue_ := self.message_queue_ ++ [message] }

/-- The C++ `RedisBrokerConsumer::GetNumberOfProcessedMessages`: the loop over `workers_` that
adds each worker's answer to `current_number_of_messages`, which starts at `0`. -/
def RedisBrokerConsumer.GetNumberOfProcessedMessages (self : RedisBrokerConsumer) : Nat :=
  self.workers_.foldl
    (fun current_number_of_messages worker =>
      current_number_of_messages + worker.GetNumberOfProcessedMessages) 0

/-- The part of the loop of `RedisBrokerConsumer::SubscribeToChannel` that looks at the reply
object; as in `RedisConsumer`, with `ProcessMessage` pushing to the queue. -/
def RedisBrokerConsumer.SubscribeToChannel.dispatch (self : RedisBrokerConsumer)
    (channel_name : Str) (reply : Option redisReply) : Option RedisBrokerConsumer :=
  match reply with
  | none => some self
  | some r =>
    if r.type = REDIS_REPLY_ARRAY ∧ r.elements = 3 then
      match (r.element.get? 0).bind redisReply.str with
      | none => none
      | some kind =>
        if strcmp_zero kind "subscribe".toList then some self
        else if strcmp_zero kind "message".toList then
          match (r.element.get? 1).bind redisReply.str with
          | none => none
          | some channel =>
            if strcmp_zero channel channel_name then
              match (r.element.get? 2).bind redisReply.str with
              | none => none
              | some payload => some (self.ProcessMessage (c_str payload))
            else some self
        else some self
    else some self

/-- One pass through the loop of `RedisBrokerConsumer::SubscribeToChannel`. -/
def RedisBrokerConsumer.SubscribeToChannel.iteration (self : RedisBrokerConsumer)
    (channel_name : Str) (reader : redisReader) (recv : Recv) : Receive RedisBrokerConsumer :=
  match recv with
  | .error => .closed
  | .data bytes =>
    let fed := redisReaderFeed reader bytes
    if !fed.1 then .closed
    else
      let got := redisReaderGetReply fed.2
      if !got.1 then .closed
      else
        match RedisBrokerConsumer.SubscribeToChannel.dispatch self channel_name got.2.1 with
        | none => .aborted
        | some state => .running state got.2.2 []

/-- What the critical section of `BrokerWorker::ProcessMessages` does. -/
inductive Dequeue where
  /-- `stop_` is set and the queue is empty: `break`. -/
  | exited
  /-- The queue is empty and `stop_` is not set: the worker stays in `cv_.wait`. -/
  | waiting
  /-- The front of the queue is copied to `message` and popped. -/
  | took (message : Str) (message_queue_ : List Str)

/-- The critical section of `BrokerWorker::ProcessMessages` (the block that holds the lock):
the wait on the condition variable, the `break`, `front()` and `pop()`. -/
def BrokerWorker.ProcessMessages.dequeue (self : BrokerWorker) (message_queue_ : List Str) :
    Dequeue :=
  match message_queue_ with
  | [] => if self.stop_ then .exited else .waiting
  | message :: rest => .took message rest

/-- What a worker thread holds besides the fields of its `BrokerWorker`: the local `message` of
the iteration in progress (`none` between iterations), and, as a history, the payloads it has
taken off the queue so far. -/
structure WorkerThread where
  message : Option Str
  taken : List Str

/-- The pool at a moment between atomic steps: the consumer with its queue and workers, the
threads of the workers (in the order of `workers_`), and, as histories, the payloads pushed so
far and the payloads taken off the queue so far, both in the order of the events. -/
structure Pool where
  consumer : RedisBrokerConsumer
  threads : List WorkerThread
  pushed : List Str
  dequeued : List Str

/-- The atomic steps of the pool: the subscription thread pushes a payload
(`RedisBrokerConsumer::ProcessMessage`); worker `i`, between iterations, passes the loop test
and its critical section takes the front of the queue; worker `i` runs the rest of the
iteration on the payload it holds, with the time and the transport outcomes it meets. -/
inductive PoolEvent where
  | push (message : Str)
  | dequeue (i : Nat)
  | handle (i : Nat) (now : Str) (net : Transport)

/-- One atomic step of the pool; `none` when the step cannot be taken in this state (no such
worker, the worker is not at that point of its loop, the queue is empty, the loop is left) or
the process stops in it. -/
def Pool.step (p : Pool) : PoolEvent → Option Pool
  | .push message =>
    some { p with
      consumer := p.consumer.ProcessMessage message
      pushed := p.pushed ++ [message] }
  | .dequeue i =>
    match p.consumer.workers_.get? i, p.threads.get? i with
    | some worker, some thread =>
      if worker.stop_ || thread.message.isSome then none
      else
        match BrokerWorker.ProcessMessages.dequeue worker p.consumer.message_queue_ with
        | .took message rest =>
          some { p with
            consumer := { p.consumer with message_queue_ := rest }
            threads := p.threads.set i
              { message := some message, taken := thread.taken ++ [message] }
            dequeued := p.dequeued ++ [message] }
        | _ => none
    | _, _ => none
  | .handle i now net =>
    match p.consumer.workers_.get? i, p.threads.get? i with
    | some worker, some thread =>
      match thread.message with
      | none => none
      | some message =>
        match BrokerWorker.ProcessMessages.body worker now net message with
        | none => none
        | some (worker, _) =>
          some { p with
            consumer := { p.consumer with workers_ := p.consumer.workers_.set i worker }
            threads := p.threads.set i { thread with message := none } }
    | _, _ => none

/-- The pool after a sequence of atomic steps, `none` when one of them cannot be taken. -/
def Pool.run (p : Pool) : List PoolEvent → Option Pool
  | [] => some p
  | e :: es =>
    match p.step e with
    | none => none
    | some q => q.run es

/-- The pool when the workers have been created and started: nothing queued, nothing pushed or
taken, every thread between iterations. -/
def Pool.start (consumer : RedisBrokerConsumer) : Pool :=
  { consumer := { consumer with message_queue_ := [] }
    threads := consumer.workers_.map fun _ => { message := none, taken := [] }
    pushed := []
    dequeued := [] }

/-- The payloads pushed by a sequence of steps, in order. -/
def pushesOf : List PoolEvent → List Str
  | [] => []
  | .push message :: es => message :: pushesOf es
  | _ :: es => pushesOf es

/-! ## `config_parser.hpp`: `ValidateConfiguration` -/

/-- The macro `CFG_KEY_HOST` of `common.hpp`. -/
def CFG_KEY_HOST : Str := "host".toList
/-- The macro `CFG_KEY_PORT` of `common.hpp`. -/
def CFG_KEY_PORT : Str := "port".toList
/-- The macro `CFG_KEY_GROUP_SIZE` of `common.hpp`. -/
def CFG_KEY_GROUP_SIZE : Str := "group_size".toList
/-- The macro `CFG_KEY_SUB_CHANNEL` of `common.hpp`. -/
def CFG_KEY_SUB_CHANNEL : Str := "default_subscription_channel".toList
/-- The macro `CFG_KEY_PROC_STREAM` of `common.hpp`. -/
def CFG_KEY_PROC_STREAM : Str := "default_processing_stream".toList
/-- The macro `CFG_KEY_MONITORING_INTERVAL` of `common.hpp`. -/
def CFG_KEY_MONITORING_INTERVAL : Str := "monitoring_interval".toList

/-- A `std::unordered_map<std::string, std::string>`, as the list of its entries. -/
abbrev Config := List (Str × Str)

/-- The value `config.find(key)` points to, `none` for `config.end()`. -/
def Config.find (config : Config) (key : Str) : Option Str := config.lookup key

/-- The C `isspace` in the default locale. -/
def isspace (c : Char) : Bool :=
  c.toNat = 32 || (9 ≤ c.toNat && c.toNat ≤ 13)

/-- The extraction `ss >> buffer` into an `unsigned short` that holds `0`, from a stream on the
text `s`: white space is skipped, a sign is accepted, the decimal digits that follow are read.
Returns `ss.fail()` and `buffer`: without a digit the stream fails and the value is `0`; a
number above `65535` fails with the value `65535`; a minus sign negates modulo `2 ^ 16`. -/
def extract_unsigned_short (s : Str) : Bool × Nat :=
  let s := s.dropWhile isspace
  let signed : Bool × Str :=
    match s with
    | '-' :: t => (true, t)
    | '+' :: t => (false, t)
    | _ => (false, s)
  let digits := signed.2.takeWhile fun c => (refDigit c).isSome
  if digits.isEmpty then (true, 0)
  else
    let value := (refDigits 0 digits).1
    if value > 65535 then (true, 65535)
    else (false, if signed.1 then (65536 - value) % 65536 else value)

/-- The loop of `ValidateConfiguration` over the three numeric parameters, `ok` being
`all_numeric_values_are_valid`; `none` when `config.at` throws. -/
def ValidateConfiguration.loop (config : Config) : List Str → Bool → Option Bool
  | [], ok => some ok
  | parameter :: rest, ok =>
    match config.find parameter with
    | none => none
    | some value =>
      let ss := extract_unsigned_short value
      if ss.1 || value != to_string ss.2 then ValidateConfiguration.loop config rest false
      else ValidateConfiguration.loop config rest ok

/-- The C++ `ValidateConfiguration`. -/
def ValidateConfiguration (config : Config) : Bool :=
  let required_keys := [CFG_KEY_HOST, CFG_KEY_PORT, CFG_KEY_GROUP_SIZE, CFG_KEY_SUB_CHANNEL,
    CFG_KEY_PROC_STREAM, CFG_KEY_MONITORING_INTERVAL]
  let missing_keys := required_keys.filter fun key => (config.find key).isNone
  if !missing_keys.isEmpty then false
  else
    match ValidateConfiguration.loop config
        [CFG_KEY_PORT, CFG_KEY_GROUP_SIZE, CFG_KEY_MONITORING_INTERVAL] true with
    | some all_numeric_values_are_valid => all_numeric_values_are_valid
    | none => false

/-- The default configuration of `CreateDefaultConfiguration` with the group size `0`. -/
def zeroGroupConfig : Config :=
  [(CFG_KEY_HOST, "127.0.0.1".toList), (CFG_KEY_PORT, "6379".toList),
   (CFG_KEY_GROUP_SIZE, "0".toList), (CFG_KEY_SUB_CHANNEL, "messages:published".toList),
   (CFG_KEY_PROC_STREAM, "messages:processed".toList),
   (CFG_KEY_MONITORING_INTERVAL, "3".toList)]

/-- A pool consumer for the channel `news` with the one worker `sampleWorker` and an empty
queue. -/
def sampleBroker : RedisBrokerConsumer :=
  { verbose_outputs_ := false
    number_of_workers_ := 1
    subsciption_channel_ := "news".toList
    message_queue_ := []
    workers_ := [sampleWorker] }

/-- A pool consumer with three workers without a processing stream. -/
def threeWorkers : RedisBrokerConsumer :=
  { verbose_outputs_ := false
    number_of_workers_ := 3
    subsciption_channel_ := "news".toList
    message_queue_ := []
    workers_ :=
      [{ sampleWorker with id_ := 1, processing_stream_name_ := [] },
       { sampleWorker with id_ := 2, processing_stream_name_ := [] },
       { sampleWorker with id_ := 3, processing_stream_name_ := [] }] }

/-- Nine pushes of the payload `\x7b"message_id": "abc123"\x7d` to a pool of three workers,
interleaved with the nine dequeues and the nine handling steps of the workers. -/
def nineEvents : List PoolEvent :=
  [.push "\x7b\"message_id\": \"abc123\"\x7d".toList,
   .push "\x7b\"message_id\": \"abc123\"\x7d".toList,
   .push "\x7b\"message_id\": \"abc123\"\x7d".toList,
   .dequeue 0, .dequeue 1, .dequeue 2,
   .push "\x7b\"message_id\": \"abc123\"\x7d".toList,
   .push "\x7b\"message_id\": \"abc123\"\x7d".toList,
   .push "\x7b\"message_id\": \"abc123\"\x7d".toList,
   .handle 2 [] (okTransport []), .handle 0 [] (okTransport []), .dequeue 0,
   .push "\x7b\"message_id\": \"abc123\"\x7d".toList,
   .push "\x7b\"message_id\": \"abc123\"\x7d".toList,
   .push "\x7b\"message_id\": \"abc123\"\x7d".toList,
   .handle 1 [] (okTransport []), .dequeue 2, .dequeue 1,
   .handle 1 [] (okTransport []), .handle 0 [] (okTransport []),
   .handle 2 [] (okTransport []),
   .dequeue 0, .dequeue 1, .dequeue 2,
   .handle 0 [] (okTransport []), .handle 1 [] (okTransport []),
   .handle 2 [] (okTransport [])]

/-- The single consumer handling payloads one after the other, each with the time and the
transport outcomes it meets; `none` when the process stops on one of them. -/
def RedisConsumer.handleAll (self : RedisConsumer) :
    List (Str × Str × Transport) → Option RedisConsumer
  | [] => some self
  | (payload, now, net) :: rest =>
    match self.ProcessMessage now net payload with
    | none => none
    | some (state, _) => state.handleAll rest

/-- A worker handling payloads one after the other, as `RedisConsumer.handleAll`. -/
def BrokerWorker.handleAll (self : BrokerWorker) :
    List (Str × Str × Transport) → Option BrokerWorker
  | [] => some self
  | (payload, now, net) :: rest =>
    match BrokerWorker.ProcessMessages.body self now net payload with
    | none => none
    | some (state, _) => state.handleAll rest

/-- A pool consumer whose three workers have processed `4`, `5` and `0` payloads and met `7`,
`0` and `2` errors. -/
def countedWorkers : RedisBrokerConsumer :=
  { verbose_outputs_ := false
    number_of_workers_ := 3
    subsciption_channel_ := "news".toList
    message_queue_ := []
    workers_ :=
      [{ sampleWorker with number_of_processed_messages_ := 4,
                           number_of_processing_errors_ := 7 },
       { sampleWorker with number_of_processed_messages_ := 5 },
       { sampleWorker with number_of_processing_errors_ := 2 }] }

/-- The configuration `CreateDefaultConfiguration` returns. -/
def defaultConfig : Config :=
  [(CFG_KEY_HOST, "127.0.0.1".toList), (CFG_KEY_PORT, "6379".toList),
   (CFG_KEY_GROUP_SIZE, "1".toList), (CFG_KEY_SUB_CHANNEL, "messages:published".toList),
   (CFG_KEY_PROC_STREAM, "messages:processed".toList),
   (CFG_KEY_MONITORING_INTERVAL, "3".toList)]

/-! ## The loop of a worker, point by point, and `Stop` -/

/-- Where a worker thread stands in `BrokerWorker::ProcessMessages`: at the loop test
`while (!stop_)`; past the test, holding the lock, at the evaluation of the predicate of
`cv_.wait`; past a predicate that was false, about to enter the wait; in the wait, the lock
released, until a notification; holding the `message` it took, with the rest of the iteration
to run; or out of the loop. -/
inductive LoopPoint where
  | test
  | critical
  | blocking
  | blocked
  | holding (message : Str)
  | exited
deriving DecidableEq

/-- A worker thread: the fields of its `BrokerWorker`, the point of the loop it stands at and,
as a history, the payloads it has handled to the end of an iteration. -/
structure WorkerLoop where
  worker : BrokerWorker
  point : LoopPoint
  handled : List Str

/-- The assignment `stop_ = true` of `BrokerWorker::Stop`; it is made without the lock.  The
call then closes the writing socket, calls `cv_.notify_all()` and joins the thread. -/
def BrokerWorker.Stop (self : BrokerWorker) : BrokerWorker :=
  { self with stop_ := true }

/-- One atomic action of a worker thread on the shared queue as it is at that moment: the loop
test; the predicate of the wait with what follows it under the lock (`break`, or `front()` and
`pop()`) when it is true; the entry into the wait when it was false; the rest of the iteration
on the payload held.  Returns the thread and the queue after it; a worker in the wait stays
there, only a notification takes it out; `none` when the process stops in the action. -/
def BrokerWorker.ProcessMessages.advance (t : WorkerLoop) (message_queue_ : List Str)
    (now : Str) (net : Transport) : Option (WorkerLoop × List Str) :=
  match t.point with
  | .test =>
    if t.worker.stop_ then some ({ t with point := .exited }, message_queue_)
    else some ({ t with point := .critical }, message_queue_)
  | .critical =>
    match BrokerWorker.ProcessMessages.dequeue t.worker message_queue_ with
    | .exited => some ({ t with point := .exited }, message_queue_)
    | .waiting => some ({ t with point := .blocking }, message_queue_)
    | .took message rest => some ({ t with point := .holding message }, rest)
  | .blocking => some ({ t with point := .blocked }, message_queue_)
  | .blocked => some (t, message_queue_)
  | .holding message =>
    match BrokerWorker.ProcessMessages.body t.worker now net message with
    | none => none
    | some (worker, _) =>
      some ({ worker := worker, point := .test, handled := t.handled ++ [message] },
        message_queue_)
  | .exited => some (t, message_queue_)

/-- What a notification on `cv_` does to a worker thread: one in the wait leaves it and takes
the lock again to evaluate the predicate; any other is not touched. -/
def WorkerLoop.notified (t : WorkerLoop) : WorkerLoop :=
  match t.point with
  | .blocked => { t with point := .critical }
  | _ => t

/-- The actions of one worker thread one after the other; before each of them the other
threads may have changed the queue, so every action comes with the queue it meets. -/
def BrokerWorker.ProcessMessages.advanceAll (t : WorkerLoop) :
    List (List Str × Str × Transport) → Option WorkerLoop
  | [] => some t
  | (message_queue_, now, net) :: rest =>
    match BrokerWorker.ProcessMessages.advance t message_queue_ now net with
    | none => none
    | some (t, _) => BrokerWorker.ProcessMessages.advanceAll t rest

/-- The pool while it is being stopped: the shared queue and the worker threads. -/
structure StoppingPool where
  message_queue_ : List Str
  threads : List WorkerLoop

/-- The atomic steps while the pool is being stopped: the assignment `stop_ = true` of the
`Stop` of worker `i`; the `cv_.notify_all()` of a `Stop`; worker `i` takes its next action. -/
inductive StopEvent where
  | stop (i : Nat)
  | notify_all
  | act (i : Nat) (now : Str) (net : Transport)

/-- One atomic step of the pool while it is being stopped; `none` when there is no such worker
or the process stops in the step. -/
def StoppingPool.step (p : StoppingPool) : StopEvent → Option StoppingPool
  | .stop i =>
    match p.threads.get? i with
    | none => none
    | some t => some { p with threads := p.threads.set i { t with worker := t.worker.Stop } }
  | .notify_all => some { p with threads := p.threads.map WorkerLoop.notified }
  | .act i now net =>
    match p.threads.get? i with
    | none => none
    | some t =>
      match BrokerWorker.ProcessMessages.advance t p.message_queue_ now net with
      | none => none
      | some (t, message_queue_) =>
        some { message_queue_ := message_queue_, threads := p.threads.set i t }

/-- The pool after a sequence of steps while it is being stopped. -/
def StoppingPool.run (p : StoppingPool) : List StopEvent → Option StoppingPool
  | [] => some p
  | e :: es =>
    match p.step e with
    | none => none
    | some q => q.run es

/-- How many more payloads a stopped worker can take from where it stands: one when it is past
the loop test and holds no payload yet, none else. -/
def LoopPoint.canTake : LoopPoint → Nat
  | .critical => 1
  | .blocking => 1
  | .blocked => 1
  | _ => 0

/-- A pool of one worker that holds the payload with the id `1` while the payload with the id
`2` is still in the queue. -/
def inFlightPool : StoppingPool :=
  { message_queue_ := ["\x7b\"message_id\": \"2\"\x7d".toList]
    threads :=
      [{ worker := { sampleWorker with processing_stream_name_ := [] }
         point := .holding "\x7b\"message_id\": \"1\"\x7d".toList
         handled := [] }] }

/-- The steps that stop the worker of `inFlightPool`: the flag, the notification, and two
actions of the worker. -/
def inFlightStop : List StopEvent :=
  [.stop 0, .notify_all, .act 0 [] (okTransport []), .act 0 [] (okTransport [])]

/-- A pool of one worker that has just been started, on an empty queue. -/
def startedPool : StoppingPool :=
  { message_queue_ := []
    threads := [{ worker := sampleWorker, point := .test, handled := [] }] }

/-- The worker passes the loop test and finds the predicate of the wait false; `Stop` sets the
flag and notifies; the worker enters the wait. -/
def lostWakeup : List StopEvent :=
  [.act 0 [] (okTransport []), .act 0 [] (okTransport []), .stop 0, .notify_all,
   .act 0 [] (okTransport [])]

/-- A pool of one stopped worker that is past its loop test, with two payloads queued. -/
def stoppedPool : StoppingPool :=
  { message_queue_ :=
      ["\x7b\"message_id\": \"1\"\x7d".toList, "\x7b\"message_id\": \"2\"\x7d".toList]
    threads :=
      [{ worker := { sampleWorker with processing_stream_name_ := [], stop_ := true }
         point := .critical
         handled := [] }] }

/-- The pool `stoppedPool` after three actions of its worker. -/
def stoppedPoolEnd : StoppingPool :=
  { message_queue_ := ["\x7b\"message_id\": \"2\"\x7d".toList]
    threads :=
      [{ worker := { sampleWorker with
           processing_stream_name_ := [], stop_ := true, number_of_processed_messages_ := 1 }
         point := .exited
         handled := ["\x7b\"message_id\": \"1\"\x7d".toList] }] }

/-! ## The receive loops over the results of `recv` -/

/-- The loop of `RedisBrokerConsumer::SubscribeToChannel` over the results of its calls of
`recv`, in order: where it stands when it has handled the last of them and is about to call
`recv` again, or how it ended before. -/
def RedisBrokerConsumer.SubscribeToChannel.receive (self : RedisBrokerConsumer)
    (channel_name : Str) (reader : redisReader) : List Recv → Receive RedisBrokerConsumer
  | [] => .running self reader []
  | recv :: rest =>
    match RedisBrokerConsumer.SubscribeToChannel.iteration self channel_name reader recv with
    | .closed => .closed
    | .aborted => .aborted
    | .running state reader _ =>
      RedisBrokerConsumer.SubscribeToChannel.receive state channel_name reader rest

/-- The loop of `RedisConsumer::SubscribeToChannel` over the results of its calls of `recv`,
each with the time and the transport outcomes a publish in that pass would meet; `sent`
collects the buffers handed to `send`. -/
def RedisConsumer.SubscribeToChannel.receive (self : RedisConsumer) (channel_name : Str)
    (reader : redisReader) : List (Recv × Str × Transport) → Receive RedisConsumer
  | [] => .running self reader []
  | (recv, now, net) :: rest =>
    match RedisConsumer.SubscribeToChannel.iteration self channel_name reader recv now net with
    | .closed => .closed
    | .aborted => .aborted
    | .running state reader sent =>
      match RedisConsumer.SubscribeToChannel.receive state channel_name reader rest with
      | .closed => .closed
      | .aborted => .aborted
      | .running state reader later => .running state reader (sent ++ later)

/-- The push of the payload `b` on the channel `c`, as the server writes it. -/
def pushB : Str := "*3\r\n$7\r\nmessage\r\n$1\r\nc\r\n$1\r\nb\r\n".toList

/-- The push of the payload `a` and the push of the payload `b` on the channel `c`, one after
the other: 62 bytes. -/
def twoPushes : Str := "*3\r\n$7\r\nmessage\r\n$1\r\nc\r\n$1\r\na\r\n".toList ++ pushB

/-! ## `RedisBrokerConsumer`: construction and `SubscribeToChannel` -/

/-- The constructor of `RedisBrokerConsumer`: the members are initialised from the arguments;
the body `if (number_of_workers_ < 1) { number_of_workers = 1; }` assigns the parameter, which
ends with the call.  (The host, the port, the socket and `initial_connection_established_`
are not part of this state.) -/
def RedisBrokerConsumer.construct (verbose_outputs : Bool) (number_of_workers : Int) :
    RedisBrokerConsumer :=
  let self : RedisBrokerConsumer :=
    { verbose_outputs_ := verbose_outputs
      number_of_workers_ := number_of_workers
      subsciption_channel_ := []
      message_queue_ := []
      workers_ := [] }
  let number_of_workers := if self.number_of_workers_ < 1 then 1 else number_of_workers
  (self, number_of_workers).1

/-- The constructor of `BrokerWorker`; `next_id_` is the static counter, which the constructor
increments. -/
def BrokerWorker.construct (next_id_ : Int) (source_channel_name processing_stream_name : Str)
    (verbose_outputs : Bool) : BrokerWorker :=
  { id_ := next_id_
    source_channel_name_ := source_channel_name
    processing_stream_name_ := processing_stream_name
    writing_socket_file_descriptor_ := -1
    verbose_outputs_ := verbose_outputs
    stop_ := false
    number_of_processed_messages_ := 0
    number_of_processing_errors_ := 0 }

/-- The C++ `BrokerWorker::SetWritingSocketFileDescriptor`. -/
def BrokerWorker.SetWritingSocketFileDescriptor (self : BrokerWorker)
    (writing_socket_file_descriptor : Int) : BrokerWorker :=
  { self with writing_socket_file_descriptor_ := writing_socket_file_descriptor }

/-- What `RedisBrokerConsumer::SubscribeToChannel` does that can be seen from outside, as a
call is made: the `send` of the subscribe command; for a worker, its construction, the
connection made for it, its `Start`; the creation of the reader; a `recv` with its result; a
reply object handed by `redisReaderGetReply`, which is the decoding of that reply; the `close`
of the subscription socket. -/
inductive Effect where
  | send (command : Str)
  | workerCreated (id : Int)
  | workerConnected (id : Int)
  | workerStarted (id : Int)
  | readerCreated
  | recv (result : Recv)
  | reply (r : redisReply)
  | close

/-- Whether the effect is one of a worker. -/
def Effect.ofWorker : Effect → Bool
  | .workerCreated _ => true
  | .workerConnected _ => true
  | .workerStarted _ => true
  | _ => false

/-- The loop `for (int i = 0; i < number_of_workers_; ++i)` of
`RedisBrokerConsumer::SubscribeToChannel` from the index `i` on, every connection made
succeeding with the descriptor `socket i`: the consumer, the static `next_id_` and the effects
after it. -/
def RedisBrokerConsumer.SubscribeToChannel.createWorkers (self : RedisBrokerConsumer)
    (processing_stream : Str) (socket : Int → Int) (next_id_ : Int) (i : Int) :
    RedisBrokerConsumer × Int × List Effect :=
  if i < self.number_of_workers_ then
    let worker := BrokerWorker.construct next_id_ self.subsciption_channel_ processing_stream
      self.verbose_outputs_
    let connected :=
      if !processing_stream.isEmpty then worker.SetWritingSocketFileDescriptor (socket i)
      else worker
    let effects :=
      [Effect.workerCreated worker.id_]
        ++ (if !processing_stream.isEmpty then [Effect.workerConnected worker.id_] else [])
        ++ [Effect.workerStarted worker.id_]
    let next := RedisBrokerConsumer.SubscribeToChannel.createWorkers
      { self with workers_ := self.workers_ ++ [connected] } processing_stream socket
      (next_id_ + 1) (i + 1)
    (next.1, next.2.1, effects ++ next.2.2)
  else (self, next_id_, [])
termination_by (self.number_of_workers_ - i).toNat
decreasing_by
  simp_wf
  omega

/-- The reply object a pass of the receive loop gets, if it gets one. -/
def RedisBrokerConsumer.SubscribeToChannel.replyOf (reader : redisReader) :
    Recv → Option redisReply
  | .error => none
  | .data bytes =>
    let fed := redisReaderFeed reader bytes
    if !fed.1 then none
    else
      let got := redisReaderGetReply fed.2
      if !got.1 then none else got.2.1

/-- The effects of the receive loop of `RedisBrokerConsumer::SubscribeToChannel` over the
results of its calls of `recv`. -/
def RedisBrokerConsumer.SubscribeToChannel.receiveEffects (self : RedisBrokerConsumer)
    (channel_name : Str) (reader : redisReader) : List Recv → List Effect
  | [] => []
  | recv :: rest =>
    [Effect.recv recv]
      ++ (match RedisBrokerConsumer.SubscribeToChannel.replyOf reader recv with
          | some r => [Effect.reply r]
          | none => [])
      ++ (match RedisBrokerConsumer.SubscribeToChannel.iteration self channel_name reader
            recv with
          | .closed => [Effect.close]
          | .aborted => []
          | .running state reader _ =>
            RedisBrokerConsumer.SubscribeToChannel.receiveEffects state channel_name reader rest)

/-- The C++ `RedisBrokerConsumer::SubscribeToChannel`, with `initial_connection_established_`,
the result of the `send`, the descriptors of the sockets of the workers, the static `next_id_`
of `BrokerWorker`, whether `redisReaderCreate` gave a reader, and the results of the calls of
`recv` so far as arguments.  `none` is `exit(EXIT_FAILURE)`; else the effects in order and
where the receive loop stands. -/
def RedisBrokerConsumer.SubscribeToChannel (self : RedisBrokerConsumer)
    (initial_connection_established_ : Bool) (channel_name processing_stream : Str)
    (bytes_sent : Int) (socket : Int → Int) (next_id_ : Int) (reader_created : Bool)
    (nesting : Nat) (reads : List Recv) :
    Option (List Effect × Receive RedisBrokerConsumer) :=
  if !initial_connection_established_ then none
  else
    let redis_channel_subscription_command := CreateSubscriptionCommand channel_name
    if bytes_sent < 0 then none
    else
      let self := { self with subsciption_channel_ := channel_name }
      let created := RedisBrokerConsumer.SubscribeToChannel.createWorkers self processing_stream
        socket next_id_ 0
      if !reader_created then none
      else
        let reader := redisReaderCreate nesting
        some
          ([Effect.send redis_channel_subscription_command] ++ created.2.2
              ++ [Effect.readerCreated]
              ++ RedisBrokerConsumer.SubscribeToChannel.receiveEffects created.1 channel_name
                  reader reads,
            RedisBrokerConsumer.SubscribeToChannel.receive created.1 channel_name reader reads)

/-- The acknowledgement of the subscription to the channel `news`, as the server writes it. -/
def subscribeAck : Str := "*3\r\n$9\r\nsubscribe\r\n$4\r\nnews\r\n:1\r\n".toList

/-- The default configuration with the port written with a sign, `+6379`. -/
def signedPortConfig : Config :=
  [(CFG_KEY_HOST, "127.0.0.1".toList), (CFG_KEY_PORT, "+6379".toList),
   (CFG_KEY_GROUP_SIZE, "1".toList), (CFG_KEY_SUB_CHANNEL, "messages:published".toList),
   (CFG_KEY_PROC_STREAM, "messages:processed".toList),
   (CFG_KEY_MONITORING_INTERVAL, "3".toList)]

/-! ## A `send` that does not return -/

/-- What a publish meets at its `send`.  Both `AddDataToStream` call `send` with the flags `0`,
and the program nowhere changes the disposition of SIGPIPE: on a connection that the peer has
closed, `send` raises the signal and the process is terminated (`sigpipe`); else `send` returns
and the calls of the round trip answer as `net`. -/
inductive Sending where
  | sigpipe
  | returns (net : Transport)

/-- The C++ `BrokerWorker::AddDataToStream` with the `send` that does not return among the
outcomes: `send` is its first call; `none` when the process is terminated there. -/
def BrokerWorker.AddDataToStream.sending (self : BrokerWorker) (link : Sending)
    (resp_formatted_command : Str) : Option (Bool × List Str) :=
  match link with
  | .sigpipe => none
  | .returns net => some (self.AddDataToStream net resp_formatted_command)

/-- The C++ `RedisConsumer::AddDataToStream(resp_formatted_command, is_internal_call)` with the
`send` that does not return among the outcomes: the failed `assert`, the `exit` in
`EstablishConnection` and the signal at `send` all end the process (`none`). -/
def RedisConsumer.AddDataToStream.sending (self : RedisConsumer) (link : Sending)
    (resp_formatted_command : Str) (is_internal_call : Bool) : Option (Bool × List Str) :=
  match link with
  | .sigpipe => none
  | .returns net => self.AddDataToStream net resp_formatted_command is_internal_call

/-- The C++ `RedisConsumer::ProcessMessage` with the `send` that does not return among the
outcomes of the publish. -/
def RedisConsumer.ProcessMessage.sending (self : RedisConsumer) (now : Str) (link : Sending)
    (message : Str) : Option (RedisConsumer × List Str) :=
  match JsonMessageProcessorImpl.ProcessMessage message with
  | none => none
  | some (some processed_message) =>
    let processed_message := { processed_message with
      processor_id := self.id_
      processing_date_time := now
      source_channel_name := self.subsciption_channel_ }
    if !self.processing_stream_.isEmpty then
      match CreateWriteMessageToStreamCommand_Message self.processing_stream_
          processed_message with
      | none => none
      | some command =>
        match RedisConsumer.AddDataToStream.sending self link command true with
        | none => none
        | some (true, sent) =>
          some ({ self with
            number_of_processed_messages_ := self.number_of_processed_messages_ + 1 }, sent)
        | some (false, sent) =>
          some ({ self with
            number_of_processing_errors_ := self.number_of_processing_errors_ + 1 }, sent)
    else
      some ({ self with
        number_of_processed_messages_ := self.number_of_processed_messages_ + 1 }, [])
  | some none =>
    some ({ self with
      number_of_processing_errors_ := self.number_of_processing_errors_ + 1 }, [])

/-- The body of the loop of `BrokerWorker::ProcessMessages` with the `send` that does not
return among the outcomes of the publish. -/
def BrokerWorker.ProcessMessages.body.sending (self : BrokerWorker) (now : Str)
    (link : Sending) (message : Str) : Option (BrokerWorker × List Str) :=
  match JsonMessageProcessorImpl.ProcessMessage message with
  | none => none
  | some (some processed_message) =>
    let processed_message := { processed_message with
      processor_id := self.id_
      processing_date_time := now
      source_channel_name := self.source_channel_name_ }
    if !self.processing_stream_name_.isEmpty then
      match CreateWriteMessageToStreamCommand_Message self.processing_stream_name_
          processed_message with
      | none => none
      | some command =>
        match BrokerWorker.AddDataToStream.sending self link command with
        | none => none
        | some (true, sent) =>
          some ({ self with
            number_of_processed_messages_ := self.number_of_processed_messages_ + 1 }, sent)
        | some (false, sent) =>
          some ({ self with
            number_of_processing_errors_ := self.number_of_processing_errors_ + 1 }, sent)
    else
      some ({ self with
        number_of_processed_messages_ := self.number_of_processed_messages_ + 1 }, [])
  | some none =>
    some ({ self with
      number_of_processing_errors_ := self.number_of_processing_errors_ + 1 }, [])

/-- The single consumer handling payloads one after the other, each with the time and what its
publish meets; `none` when the process ends on one of them. -/
def RedisConsumer.handleAll.sending (self : RedisConsumer) :
    List (Str × Str × Sending) → Option RedisConsumer
  | [] => some self
  | (payload, now, link) :: rest =>
    match RedisConsumer.ProcessMessage.sending self now link payload with
    | none => none
    | some (state, _) => RedisConsumer.handleAll.sending state rest

/-- A worker handling payloads one after the other, as `RedisConsumer.handleAll.sending`. -/
def BrokerWorker.handleAll.sending (self : BrokerWorker) :
    List (Str × Str × Sending) → Option BrokerWorker
  | [] => some self
  | (payload, now, link) :: rest =>
    match BrokerWorker.ProcessMessages.body.sending self now link payload with
    | none => none
    | some (state, _) => BrokerWorker.handleAll.sending state rest

/-- A round trip on a connection the peer has just closed: `send` still returns, `recv` returns
`0` bytes, and the reader has no reply. -/
def closedTransport : Transport :=
  { connect_ok := true
    bytes_sent := 1
    reader_created := true
    bytes_read := 0
    feed_ok := true
    get_reply_ok := true
    reply := none }

/-! ## Evaluating `to_string` -/

theorem to_string_of_lt {n : Nat} (h : n < 10) : to_string n = [Nat.digitChar n] := by
  rw [to_string, if_pos h]

theorem to_string_of_ge {n : Nat} (h : 10 ≤ n) :
    to_string n = to_string (n / 10) ++ [Nat.digitChar (n % 10)] := by
  rw [to_string, if_neg (by omega)]

theorem to_string_ne_nil (n : Nat) : to_string n ≠ [] := by
  by_cases h : n < 10
  · simp [to_string_of_lt h]
  · simp [to_string_of_ge (Nat.le_of_not_lt h)]

theorem refDigit_digitChar {d : Nat} (h : d < 10) : refDigit (Nat.digitChar d) = some d := by
  interval_cases d <;> decide

/-- Reading the digits of `to_string n` adds `n` to the accumulator, shifted. -/
theorem refDigits_to_string (n : Nat) : ∀ (acc : Nat) (rest : Str),
    refDigits acc (to_string n ++ rest)
      = refDigits (acc * 10 ^ (to_string n).length + n) rest := by
  induction n using Nat.strong_induction_on with
  | _ n ih =>
    intro acc rest
    by_cases h : n < 10
    · simp [to_string_of_lt h, refDigits, refDigit_digitChar h]
    · have h10 : 10 ≤ n := Nat.le_of_not_lt h
      have hd : n % 10 < 10 := Nat.mod_lt _ (by decide)
      rw [to_string_of_ge h10, List.append_assoc, ih (n / 10) (by omega)]
      simp only [List.singleton_append, refDigits, refDigit_digitChar hd, List.length_append,
        List.length_singleton, pow_succ]
      congr 1
      have := Nat.div_add_mod n 10
      ring_nf
      omega

theorem to_string_head_digit (n : Nat) :
    ∃ c t, to_string n = c :: t ∧ (refDigit c).isSome = true := by
  induction n using Nat.strong_induction_on with
  | _ n ih =>
    by_cases h : n < 10
    · exact ⟨Nat.digitChar n, [], to_string_of_lt h, by simp [refDigit_digitChar h]⟩
    · have h10 : 10 ≤ n := Nat.le_of_not_lt h
      obtain ⟨c, t, h1, h2⟩ := ih (n / 10) (by omega)
      exact ⟨c, t ++ [Nat.digitChar (n % 10)], by rw [to_string_of_ge h10, h1]; rfl, h2⟩

/-- The reference decoder reads back the number that `to_string` wrote before a line end. -/
theorem refNat_to_string (n : Nat) (rest : Str) :
    refNat (to_string n ++ '\r' :: rest) = some (n, '\r' :: rest) := by
  obtain ⟨c, t, h1, h2⟩ := to_string_head_digit n
  have h := refDigits_to_string n 0 ('\r' :: rest)
  rw [h1] at h ⊢
  simp only [List.cons_append, refNat, h2, if_true]
  rw [← List.cons_append, h]
  simp [refDigits, refDigit]

/-- Every character of `to_string n` is a decimal digit. -/
theorem to_string_all_digits (n : Nat) : ∀ c ∈ to_string n, (refDigit c).isSome = true := by
  induction n using Nat.strong_induction_on with
  | _ n ih =>
    intro c hc
    by_cases h : n < 10
    · rw [to_string_of_lt h, List.mem_singleton] at hc
      rw [hc, refDigit_digitChar h]
      rfl
    · have h10 : 10 ≤ n := Nat.le_of_not_lt h
      have hd : n % 10 < 10 := Nat.mod_lt _ (by decide)
      rw [to_string_of_ge h10, List.mem_append, List.mem_singleton] at hc
      rcases hc with hc | hc
      · exact ih (n / 10) (by omega) c hc
      · rw [hc, refDigit_digitChar hd]
        rfl

/-- A decimal digit is neither white space nor a sign. -/
theorem digit_plain (c : Char) (h : (refDigit c).isSome = true) :
    isspace c = false ∧ c ≠ '-' ∧ c ≠ '+' := by
  unfold refDigit at h
  split_ifs at h with hc
  · refine ⟨?_, ?_, ?_⟩
    · unfold isspace
      simp only [Bool.or_eq_false_iff, decide_eq_false_iff_not, Bool.and_eq_false_imp,
        decide_eq_true_eq]
      omega
    · intro he
      rw [he] at hc
      exact absurd hc (by decide)
    · intro he
      rw [he] at hc
      exact absurd hc (by decide)
  · simp at h

/-- The text `to_string n` has no leading zero: when it starts with `0` it is `0`. -/
theorem to_string_no_leading_zero (n : Nat) (t : Str) (h : to_string n = '0' :: t) : t = [] := by
  by_cases hn : n < 10
  · rw [to_string_of_lt hn] at h
    simp only [List.cons.injEq] at h
    exact h.2.symm
  · exfalso
    have h10 : 10 ≤ n := Nat.le_of_not_lt hn
    rw [to_string_of_ge h10] at h
    obtain ⟨c, u, hcu, _⟩ := to_string_head_digit (n / 10)
    rw [hcu] at h
    simp only [List.cons_append, List.cons.injEq] at h
    have hc : c = '0' := h.1
    have hlt : n / 10 < 10 ∨ 10 ≤ n / 10 := by omega
    rcases hlt with hlt | hge
    · rw [to_string_of_lt hlt] at hcu
      simp only [List.cons.injEq] at hcu
      have hd : Nat.digitChar (n / 10) = '0' := by rw [hcu.1, hc]
      have hpos : 1 ≤ n / 10 := by omega
      interval_cases (n / 10) <;> exact absurd hd (by decide)
    · -- the text of `n / 10` starts with `0` and has a second digit
      have key : ∀ m : Nat, 10 ≤ m → ∀ v, to_string m ≠ '0' :: v := by
        intro m
        induction m using Nat.strong_induction_on with
        | _ m ihm =>
          intro hm v hv
          rw [to_string_of_ge hm] at hv
          obtain ⟨c', u', hcu', _⟩ := to_string_head_digit (m / 10)
          have hm1 : m / 10 < 10 ∨ 10 ≤ m / 10 := by omega
          rcases hm1 with hm1 | hm1
          · rw [to_string_of_lt hm1] at hv
            simp only [List.singleton_append, List.cons.injEq] at hv
            have hpos : 1 ≤ m / 10 := by omega
            have hd := hv.1
            interval_cases (m / 10) <;> exact absurd hd (by decide)
          · rw [hcu'] at hv
            simp only [List.cons_append, List.cons.injEq] at hv
            exact ihm (m / 10) (by omega) hm1 u' (by rw [hcu', hv.1])
      exact key (n / 10) hge u (by rw [hcu, hc])

/-- The reference decoder reads back the number that `to_string` wrote at the end of the
input. -/
theorem refNat_to_string_end (n : Nat) : refNat (to_string n) = some (n, []) := by
  obtain ⟨c, t, h1, h2⟩ := to_string_head_digit n
  have h := refDigits_to_string n 0 []
  rw [List.append_nil, h1] at h
  rw [h1]
  simp only [refNat, h2, if_true]
  rw [h]
  simp [refDigits]

/-- The text `to_string n` does not start with a `0` that a digit follows. -/
theorem refLeadingZero_to_string (n : Nat) : refLeadingZero (to_string n) = false := by
  cases h : to_string n with
  | nil => rfl
  | cons c t =>
    cases t with
    | nil => unfold refLeadingZero; split <;> simp_all
    | cons d u =>
      by_cases hc : c = '0'
      · subst hc
        exact absurd (to_string_no_leading_zero n (d :: u) h) (by simp)
      · unfold refLeadingZero
        split
        · rename_i heq
          simp only [List.cons.injEq] at heq
          exact absurd heq.1 hc
        · rfl

/-- The text `to_string_int i` is the decimal text of `i`: the reference decoder of signed
decimal numbers, which accepts no leading zero, no `-0` and no other sign, reads it back. -/
theorem refInt_to_string_int (i : Int) : refInt (to_string_int i) = some (i, []) := by
  by_cases hi : i < 0
  · have hn : i.natAbs ≠ 0 := by omega
    have hv : -((i.natAbs : Nat) : Int) = i := by omega
    simp only [to_string_int, hi, if_true, refInt, refLeadingZero_to_string,
      Bool.false_eq_true, if_false, refNat_to_string_end, hn, hv]
  · have hv : ((i.toNat : Nat) : Int) = i := by omega
    obtain ⟨c, t, hct, hc⟩ := to_string_head_digit i.toNat
    have hminus : c ≠ '-' := (digit_plain c hc).2.1
    have hl := refLeadingZero_to_string i.toNat
    have hr := refNat_to_string_end i.toNat
    simp only [to_string_int, hi, if_false]
    rw [hct] at hl hr ⊢
    unfold refInt
    split
    · rename_i heq
      simp only [List.cons.injEq] at heq
      exact absurd heq.1 hminus
    · simp only [hl, Bool.false_eq_true, if_false, hr, hv]

/-- The reference decoder reads back one bulk string written by `StringToRespProtocolFormat`,
whatever bytes it holds. -/
theorem refDecodeBulk_format (v rest : Str) :
    refDecodeBulk (StringToRespProtocolFormat v ++ rest) = some (v, rest) := by
  have h : StringToRespProtocolFormat v ++ rest
      = '$' :: (to_string v.length ++ '\r' :: ('\n' :: (v ++ '\r' :: '\n' :: rest))) := by
    simp [StringToRespProtocolFormat]
  rw [h]
  simp [refDecodeBulk, refNat_to_string, refCRLF]

theorem refDecodeBulks_format (xs : List Str) (rest : Str) :
    refDecodeBulks xs.length ((xs.map StringToRespProtocolFormat).flatten ++ rest)
      = some (xs, rest) := by
  induction xs with
  | nil => simp [refDecodeBulks]
  | cons x xs ih =>
    simp only [List.map_cons, List.flatten_cons, List.length_cons, List.append_assoc,
      refDecodeBulks, refDecodeBulk_format, ih]

/-- The reference decoder reads back every array written as `respArray`. -/
theorem refDecodeArray_respArray (xs : List Str) :
    refDecodeArray (respArray xs) = some (xs, []) := by
  have h : respArray xs = '*' :: (to_string xs.length ++ '\r' ::
      ('\n' :: ((xs.map StringToRespProtocolFormat).flatten ++ []))) := by
    simp [respArray]
  rw [h]
  simp only [refDecodeArray, refNat_to_string, refCRLF, refDecodeBulks_format]

theorem xaddFields_length (values : List Str) : ∀ i, (xaddFields i values).length
    = 2 * values.length := by
  induction values with
  | nil => intro i; simp [xaddFields]
  | cons v vs ih => intro i; simp [xaddFields, ih]; omega

theorem xaddElements_length (stream_name : Str) (values : List Str) :
    (xaddElements stream_name values).length = 3 + 2 * values.length := by
  simp [xaddElements, xaddFields_length]; omega

/-- The loop of the encoder appends the bulk strings of the generated fields of the values not
yet visited. -/
theorem loop_eq (values : List Str) : ∀ (k i : Nat) (out : Str), values.length - i = k →
    CreateWriteMessageToStreamCommand.loop values i out
      = out ++ ((xaddFields i (values.drop i)).map StringToRespProtocolFormat).flatten := by
  intro k
  induction k with
  | zero =>
    intro i out hk
    have hi : values.length ≤ i := by omega
    rw [CreateWriteMessageToStreamCommand.loop, dif_neg (by omega), List.drop_of_length_le hi]
    simp [xaddFields]
  | succ k ih =>
    intro i out hk
    have hi : i < values.length := by omega
    rw [CreateWriteMessageToStreamCommand.loop, dif_pos hi, ih (i + 1) _ (by omega),
      List.drop_eq_getElem_cons hi]
    simp [xaddFields]

/-- The encoder for a list of values writes the array of `xaddElements`. -/
theorem CreateWriteMessageToStreamCommand_eq (stream_name : Str) (values : List Str)
    (hs : stream_name ≠ []) (hv : values ≠ []) :
    CreateWriteMessageToStreamCommand stream_name values
      = respArray (xaddElements stream_name values) := by
  have h1 : stream_name.isEmpty = false := by cases stream_name <;> simp_all
  have h2 : values.isEmpty = false := by cases values <;> simp_all
  simp only [CreateWriteMessageToStreamCommand, h1, h2, Bool.or_self, Bool.false_eq_true,
    if_false]
  rw [loop_eq values values.length 0 _ rfl]
  simp only [respArray, xaddElements_length]
  simp [xaddElements]

/-- C1: `CreateSubscriptionCommand c` is exactly `*2\r\n$9\r\nSUBSCRIBE\r\n$` followed by the
decimal byte length of `c`, `\r\n`, `c` and `\r\n`; that is, the two-element array of the bulk
strings `SUBSCRIBE` and `c`. -/
theorem C1_subscription_command_bytes (c : Str) :
    CreateSubscriptionCommand c =
        "*2\r\n$9\r\nSUBSCRIBE\r\n$".toList ++ to_string c.length ++ "\r\n".toList ++ c
          ++ "\r\n".toList
      ∧ CreateSubscriptionCommand c = respArray ["SUBSCRIBE".toList, c] := by
  constructor
  · simp [CreateSubscriptionCommand, StringToRespProtocolFormat]
  · simp [CreateSubscriptionCommand, StringToRespProtocolFormat, respArray, to_string_of_lt]
    decide

/-- The encoder for a message writes the array of its eleven elements. -/
theorem message_command_eq (s : Str) (m : Message) (hs : s ≠ []) :
    CreateWriteMessageToStreamCommand_Message s m
      = some (respArray ["XADD".toList, s, "*".toList,
          "Processor_id".toList, to_string_int m.processor_id,
          "Processing_date_time".toList, m.processing_date_time,
          "Source_channel_name".toList, m.source_channel_name,
          "Message_id".toList, m.message_id]) := by
  have h1 : s.isEmpty = false := by cases s <;> simp_all
  have h11 : to_string 11 = ['1', '1'] := by
    rw [to_string_of_ge (by decide), to_string_of_lt (by decide)]; rfl
  simp [CreateWriteMessageToStreamCommand_Message, h1, respArray, h11]

/-- C2: for a non-empty stream name, `CreateWriteMessageToStreamCommand(stream, message)` is the
array of exactly eleven bulk strings `XADD`, the stream, `*`, `Processor_id` and the decimal
processor id, `Processing_date_time` and the time, `Source_channel_name` and the channel,
`Message_id` and the message id, in this order; the reference decoder reads back these eleven
and nothing more; and the text written for the processor id is its decimal text: the reference
decoder of signed decimal numbers reads the processor id back from it. -/
theorem C2_message_command_layout (s : Str) (m : Message) (hs : s ≠ []) :
    CreateWriteMessageToStreamCommand_Message s m
        = some (respArray ["XADD".toList, s, "*".toList,
            "Processor_id".toList, to_string_int m.processor_id,
            "Processing_date_time".toList, m.processing_date_time,
            "Source_channel_name".toList, m.source_channel_name,
            "Message_id".toList, m.message_id])
      ∧ (CreateWriteMessageToStreamCommand_Message s m).bind refDecodeArray
        = some (["XADD".toList, s, "*".toList,
            "Processor_id".toList, to_string_int m.processor_id,
            "Processing_date_time".toList, m.processing_date_time,
            "Source_channel_name".toList, m.source_channel_name,
            "Message_id".toList, m.message_id], [])
      ∧ ["XADD".toList, s, "*".toList,
            "Processor_id".toList, to_string_int m.processor_id,
            "Processing_date_time".toList, m.processing_date_time,
            "Source_channel_name".toList, m.source_channel_name,
            "Message_id".toList, m.message_id].length = 11
      ∧ refInt (to_string_int m.processor_id) = some (m.processor_id, [])
      ∧ ∃ decimal : Str, refInt decimal = some (m.processor_id, [])
          ∧ ((CreateWriteMessageToStreamCommand_Message s m).bind refDecodeArray).map
              (fun r => r.1.get? 4) = some (some decimal) := by
  have h := message_command_eq s m hs
  refine ⟨h, ?_, rfl, refInt_to_string_int m.processor_id,
    to_string_int m.processor_id, refInt_to_string_int m.processor_id, ?_⟩
  · rw [h, Option.some_bind, refDecodeArray_respArray]
  · rw [h, Option.some_bind, refDecodeArray_respArray]
    rfl

/-- C2 at the stream `messages:processed`: for `sampleMessage`, whose processor id is `1`, the
fifth element is `1`; for the same message with the processor id `-42` it is `-42`. -/
theorem C2_message_command_layout_witness :
    (CreateWriteMessageToStreamCommand_Message "messages:processed".toList sampleMessage).bind
        refDecodeArray
      = some (["XADD".toList, "messages:processed".toList, "*".toList,
          "Processor_id".toList, "1".toList,
          "Processing_date_time".toList, "2024-01-01 10:00:00.000".toList,
          "Source_channel_name".toList, "messages:published".toList,
          "Message_id".toList, "abc123".toList], [])
      ∧ (CreateWriteMessageToStreamCommand_Message "messages:processed".toList
            { sampleMessage with processor_id := -42 }).bind refDecodeArray
        = some (["XADD".toList, "messages:processed".toList, "*".toList,
            "Processor_id".toList, "-42".toList,
            "Processing_date_time".toList, "2024-01-01 10:00:00.000".toList,
            "Source_channel_name".toList, "messages:published".toList,
            "Message_id".toList, "abc123".toList], [])
      ∧ refInt "-42".toList = some (-42, []) := by
  have h1 := (C2_message_command_layout "messages:processed".toList sampleMessage
    (by decide)).2.1
  have h2 := (C2_message_command_layout "messages:processed".toList
    { sampleMessage with processor_id := -42 } (by decide)).2.1
  have h3 := (C2_message_command_layout "messages:processed".toList
    { sampleMessage with processor_id := -42 } (by decide)).2.2.2.1
  have e1 : to_string_int sampleMessage.processor_id = "1".toList := by
    simp [to_string_int, sampleMessage, to_string_of_lt]; rfl
  have e2 : to_string_int (-42) = "-42".toList := by
    have t : to_string 42 = "42".toList := by
      rw [to_string_of_ge (by decide), to_string_of_lt (by decide)]; rfl
    simp [to_string_int, t]
  rw [e1] at h1
  simp only [e2] at h2 h3
  exact ⟨h1, h2, h3⟩

/-- C3: for a non-empty stream name and `n ≥ 1` values, the command is the header
`*<3 + 2n>\r\n` followed by the bulk strings of a list of exactly `3 + 2n` elements, and
decoding `3 + 2n` bulk strings after the header uses up the command. -/
theorem C3_declared_count_matches (s : Str) (values : List Str) (hs : s ≠ [])
    (hv : values ≠ []) :
    ∃ elems : List Str, elems.length = 3 + 2 * values.length
      ∧ CreateWriteMessageToStreamCommand s values
          = "*".toList ++ to_string (3 + 2 * values.length) ++ "\r\n".toList
            ++ (elems.map StringToRespProtocolFormat).flatten
      ∧ refDecodeBulks (3 + 2 * values.length)
          (elems.map StringToRespProtocolFormat).flatten = some (elems, []) := by
  refine ⟨xaddElements s values, xaddElements_length s values, ?_, ?_⟩
  · rw [CreateWriteMessageToStreamCommand_eq s values hs hv, respArray, xaddElements_length]
  · have h := refDecodeBulks_format (xaddElements s values) []
    rwa [xaddElements_length, List.append_nil] at h

/-- C3 at the stream `mystream` and the values `John`, `Smith`: seven elements. -/
theorem C3_declared_count_matches_witness :
    ∃ elems : List Str, elems.length = 3 + 2 * ["John".toList, "Smith".toList].length
      ∧ CreateWriteMessageToStreamCommand "mystream".toList ["John".toList, "Smith".toList]
          = "*".toList ++ to_string (3 + 2 * ["John".toList, "Smith".toList].length)
            ++ "\r\n".toList ++ (elems.map StringToRespProtocolFormat).flatten
      ∧ refDecodeBulks (3 + 2 * ["John".toList, "Smith".toList].length)
          (elems.map StringToRespProtocolFormat).flatten = some (elems, []) :=
  C3_declared_count_matches "mystream".toList ["John".toList, "Smith".toList]
    (by decide) (by decide)

theorem xaddFields_get (values : List Str) : ∀ (j i : Nat) (h : i < values.length),
    (xaddFields j values).get? (2 * i) = some ("value".toList ++ to_string (j + i + 1))
      ∧ (xaddFields j values).get? (2 * i + 1) = some (values.get ⟨i, h⟩) := by
  induction values with
  | nil => intro j i h; simp at h
  | cons v vs ih =>
    intro j i h
    cases i with
    | zero => simp [xaddFields]
    | succ i =>
      have hi : i < vs.length := by simpa using h
      have := ih (j + 1) i hi
      have e1 : 2 * (i + 1) = (2 * i) + 1 + 1 := by ring
      have e3 : j + (i + 1) + 1 = j + 1 + i + 1 := by ring
      rw [e1, e3]
      simpa [xaddFields] using this

/-- C4: for a non-empty stream name and a non-empty list of values holding any bytes, the
reference decoder uses up the whole command and returns `XADD`, the stream, `*`, `value1`, the
first value, ..., `value<n>`, the last value; element `3 + 2i` is the name `value<i+1>` and
element `4 + 2i` is the `i`-th value given. -/
theorem C4_round_trip (s : Str) (values : List Str) (hs : s ≠ []) (hv : values ≠ []) :
    refDecodeArray (CreateWriteMessageToStreamCommand s values)
        = some ("XADD".toList :: s :: "*".toList :: xaddFields 0 values, [])
      ∧ ∀ (i : Nat) (h : i < values.length),
          ("XADD".toList :: s :: "*".toList :: xaddFields 0 values).get? (3 + 2 * i)
              = some ("value".toList ++ to_string (i + 1))
            ∧ ("XADD".toList :: s :: "*".toList :: xaddFields 0 values).get? (4 + 2 * i)
              = some (values.get ⟨i, h⟩) := by
  constructor
  · rw [CreateWriteMessageToStreamCommand_eq s values hs hv, refDecodeArray_respArray]
    rfl
  · intro i h
    have := xaddFields_get values 0 i h
    have e1 : 3 + 2 * i = (2 * i) + 1 + 1 + 1 := by ring
    have e2 : 4 + 2 * i = (2 * i + 1) + 1 + 1 + 1 := by ring
    rw [e1, e2]
    simpa using this

/-- C4 at the stream `s` and two values that hold `\r\n` and `$`: the decoder returns them
unchanged under the names `value1` and `value2`. -/
theorem C4_round_trip_witness :
    refDecodeArray (CreateWriteMessageToStreamCommand "s".toList
        ["a\r\n$1".toList, "$5\r\n".toList])
      = some (["XADD".toList, "s".toList, "*".toList, "value1".toList,
          "a\r\n$1".toList, "value2".toList, "$5\r\n".toList], []) := by
  have h := (C4_round_trip "s".toList ["a\r\n$1".toList, "$5\r\n".toList]
    (by decide) (by decide)).1
  have h1 : to_string 1 = ['1'] := to_string_of_lt (by decide)
  have h2 : to_string 2 = ['2'] := to_string_of_lt (by decide)
  simpa [xaddFields, h1, h2] using h

/-- The public `AddDataToStream(stream, values)` with a non-empty stream name, a non-empty
list of values and a connection that opens hands exactly one buffer to `send`: the command
the encoder builds. -/
theorem AddDataToStream_values_sent (self : RedisConsumer) (net : Transport) (s : Str)
    (values : List Str) (hs : s ≠ []) (hv : values ≠ []) (hc : net.connect_ok = true) :
    (RedisConsumer.AddDataToStream_values self net s values).map Prod.snd
      = some [CreateWriteMessageToStreamCommand s values] := by
  have h1 : s.isEmpty = false := by cases s <;> simp_all
  have h2 : values.isEmpty = false := by cases values <;> simp_all
  have h3 : (CreateWriteMessageToStreamCommand s values).isEmpty = false := by
    rw [CreateWriteMessageToStreamCommand_eq s values hs hv]
    simp [respArray]
  simp only [RedisConsumer.AddDataToStream_values, h1, h2, h3, Bool.or_self,
    Bool.false_eq_true, if_false, RedisConsumer.AddDataToStream, Bool.false_and, hc,
    Bool.not_true, Bool.and_false]
  split_ifs <;> (try split) <;> (try split_ifs) <;> rfl

/-- C5, as stated, fails: `AddDataToStream("mystream", {"John", "Smith"})` does not send the
encoding of `XADD mystream * John Smith`; it sends the seven-element command
`XADD mystream * value1 John value2 Smith`. -/
theorem C5_counterexample :
    (RedisConsumer.AddDataToStream_values sampleConsumer (okTransport "1-0".toList)
        "mystream".toList ["John".toList, "Smith".toList]).map Prod.snd
      ≠ some [respArray ["XADD".toList, "mystream".toList, "*".toList, "John".toList,
          "Smith".toList]]
    ∧ (RedisConsumer.AddDataToStream_values sampleConsumer (okTransport "1-0".toList)
        "mystream".toList ["John".toList, "Smith".toList]).map Prod.snd
      = some [respArray ["XADD".toList, "mystream".toList, "*".toList, "value1".toList,
          "John".toList, "value2".toList, "Smith".toList]] := by
  have h := AddDataToStream_values_sent sampleConsumer (okTransport "1-0".toList)
    "mystream".toList ["John".toList, "Smith".toList] (by decide) (by decide) rfl
  rw [CreateWriteMessageToStreamCommand_eq _ _ (by decide) (by decide)] at h
  have h1 : to_string 1 = ['1'] := to_string_of_lt (by decide)
  have h2 : to_string 2 = ['2'] := to_string_of_lt (by decide)
  have h5 : to_string 5 = ['5'] := to_string_of_lt (by decide)
  have h7 : to_string 7 = ['7'] := to_string_of_lt (by decide)
  rw [h]
  constructor
  · simp [respArray, xaddElements, xaddFields, h5, h7]
  · simp [xaddElements, xaddFields, h1, h2]

/-- C5, amended: for a non-empty stream name and a non-empty list of values (and a connection
that opens), the one command the public `AddDataToStream(stream, values)` hands to `send` is the
RESP array `XADD`, the stream, `*`, and for the `i`-th value the generated name `value<i>`
followed by the value, in the order given. -/
theorem C5_public_add_sends_named_values (self : RedisConsumer) (net : Transport) (s : Str)
    (values : List Str) (hs : s ≠ []) (hv : values ≠ []) (hc : net.connect_ok = true) :
    (RedisConsumer.AddDataToStream_values self net s values).map Prod.snd
        = some [respArray ("XADD".toList :: s :: "*".toList :: xaddFields 0 values)]
      ∧ ∀ (i : Nat) (h : i < values.length),
          (xaddFields 0 values).get? (2 * i) = some ("value".toList ++ to_string (i + 1))
            ∧ (xaddFields 0 values).get? (2 * i + 1) = some (values.get ⟨i, h⟩) := by
  constructor
  · rw [AddDataToStream_values_sent self net s values hs hv hc,
      CreateWriteMessageToStreamCommand_eq s values hs hv]
    rfl
  · intro i h
    simpa using xaddFields_get values 0 i h

/-- C5, amended, at `AddDataToStream("mystream", {"John", "Smith"})`. -/
theorem C5_public_add_sends_named_values_witness :
    (RedisConsumer.AddDataToStream_values sampleConsumer (okTransport "1-0".toList)
        "mystream".toList ["John".toList, "Smith".toList]).map Prod.snd
      = some [respArray ("XADD".toList :: "mystream".toList :: "*".toList
          :: xaddFields 0 ["John".toList, "Smith".toList])] :=
  (C5_public_add_sends_named_values sampleConsumer (okTransport "1-0".toList)
    "mystream".toList ["John".toList, "Smith".toList] (by decide) (by decide) rfl).1

/-! ## The extractor -/

theorem starts_with_append (pat post : Str) : starts_with (pat ++ post) pat = true := by
  induction pat with
  | nil => cases post <;> rfl
  | cons p pat ih => simp [starts_with, ih]

theorem starts_with_elim : ∀ (s pat : Str), starts_with s pat = true → ∃ post, s = pat ++ post
  | s, [], _ => ⟨s, rfl⟩
  | [], _ :: _, h => by simp [starts_with] at h
  | c :: s, p :: pat, h => by
    simp only [starts_with, Bool.and_eq_true, beq_iff_eq] at h
    obtain ⟨post, hp⟩ := starts_with_elim s pat h.2
    exact ⟨post, by rw [h.1, hp]; rfl⟩

/-- When the pattern occurs after `pre`, `find` returns an index not beyond `pre`. -/
theorem find_loop_le (pat post : Str) : ∀ (pre : Str) (i : Nat),
    find.loop pat (pre ++ pat ++ post) i ≤ i + pre.length := by
  intro pre
  induction pre with
  | nil =>
    intro i
    cases h : ([] ++ pat ++ post : Str) with
    | nil =>
      have hp : pat = [] := by
        simp only [List.nil_append, List.append_eq_nil] at h
        exact h.1
      simp [find.loop, hp]
    | cons c t =>
      have hs : starts_with (c :: t) pat = true := by
        rw [← h]; simpa using starts_with_append pat post
      simp [find.loop, hs]
  | cons p pre ih =>
    intro i
    have e : (p :: pre) ++ pat ++ post = p :: (pre ++ pat ++ post) := rfl
    rw [e, find.loop, List.length_cons]
    split_ifs
    · omega
    · have := ih (i + 1)
      omega

/-- When the pattern occurs nowhere, `find` returns `npos`. -/
theorem find_loop_absent (pat : Str) (hp : pat ≠ []) : ∀ (s : Str) (i : Nat),
    (∀ pre post, s ≠ pre ++ pat ++ post) → find.loop pat s i = npos := by
  intro s
  induction s with
  | nil =>
    intro i _
    have : pat.isEmpty = false := by cases pat <;> simp_all
    simp [find.loop, this]
  | cons c s ih =>
    intro i h
    have hs : starts_with (c :: s) pat = false := by
      by_contra hc
      obtain ⟨post, hpost⟩ := starts_with_elim (c :: s) pat (by simpa using hc)
      exact h [] post (by simpa using hpost)
    simp only [find.loop, hs, Bool.false_eq_true, if_false]
    apply ih
    intro pre post heq
    exact h (c :: pre) post (by simp [heq])

/-- The backward scan started just above a stretch `B` free of `c` that follows an occurrence of
`c` at index `A.length` stops at that occurrence. -/
theorem find_last_of_loop_eq (A B C : Str) (c : Char) (hB : c ∉ B) : ∀ m, m ≤ B.length →
    find_last_of.loop (A ++ c :: (B ++ C)) c (A.length + 1 + m) = A.length := by
  intro m
  induction m with
  | zero =>
    intro _
    have hget : (A ++ c :: (B ++ C)).get? A.length = some c := by
      rw [List.get?_eq_getElem?, List.getElem?_append_right (le_refl _)]
      simp
    rw [Nat.add_zero, find_last_of.loop, hget, if_pos rfl]
  | succ m ih =>
    intro hm
    have hlt : m < B.length := by omega
    have hget : (A ++ c :: (B ++ C)).get? (A.length + 1 + m) = some (B.get ⟨m, hlt⟩) := by
      have e : A.length + 1 + m = A.length + (m + 1) := by ring
      rw [e]
      simp [List.getElem?_append_right, List.getElem?_append_left, hlt]
    have hne : B.get ⟨m, hlt⟩ ≠ c := by
      intro heq
      exact hB (heq ▸ List.get_mem B m hlt)
    rw [← Nat.add_assoc, find_last_of.loop, hget]
    simp only [Option.some.injEq, hne, if_false]
    exact ih (by omega)

/-- The statement of `find_last_of_loop_eq` for `find_last_of` itself: the search position
falls on the last character of the stretch `B`. -/
theorem find_last_of_eq (A B C : Str) (c : Char) (pos : Nat) (hB : c ∉ B)
    (hpos : min ((A ++ c :: (B ++ C)).length - 1) pos = A.length + B.length) :
    find_last_of (A ++ c :: (B ++ C)) c pos = A.length := by
  have hlen : (A ++ c :: (B ++ C)).length ≠ 0 := by simp
  rw [find_last_of, if_neg hlen, hpos]
  have := find_last_of_loop_eq A B C c hB B.length le_rfl
  rwa [show A.length + 1 + B.length = A.length + B.length + 1 by ring] at this

theorem npos_eq : npos = 18446744073709551615 := by norm_num [npos]

/-- C6: for an identifier without a double quote (the empty one included), the extractor applied
to the payload `{"message_id": "<id>"}` (a `std::string`, so shorter than `npos`) returns a
message, and its `message_id` is the identifier. -/
theorem C6_extracts_identifier (id : Str) (hq : '"' ∉ id)
    (hlen : ("\x7b\"message_id\": \"".toList ++ id ++ "\"\x7d".toList).length < npos) :
    JsonMessageProcessorImpl.ProcessMessage
        ("\x7b\"message_id\": \"".toList ++ id ++ "\"\x7d".toList)
      = some (some { message_id := id }) := by
  have hP : ("\x7b\"message_id\": \"".toList).length = 16 := rfl
  have hS : ("\"\x7d".toList).length = 2 := rfl
  rw [List.length_append, List.length_append, hP, hS, npos_eq] at hlen
  have hfind : find ("\x7b\"message_id\": \"".toList ++ id ++ "\"\x7d".toList) "message_id".toList
      ≠ npos := by
    have h := find_loop_le "message_id".toList ("\": \"".toList ++ id ++ "\"\x7d".toList)
      "\x7b\"".toList 0
    have e : "\x7b\"".toList ++ "message_id".toList ++ ("\": \"".toList ++ id ++ "\"\x7d".toList)
        = "\x7b\"message_id\": \"".toList ++ id ++ "\"\x7d".toList := by simp
    rw [e] at h
    have h2 : ("\x7b\"".toList).length = 2 := rfl
    rw [h2] at h
    rw [find, npos_eq]
    omega
  have hend : find_last_of ("\x7b\"message_id\": \"".toList ++ id ++ "\"\x7d".toList) '"' npos
      = 16 + id.length := by
    have h := find_last_of_eq ("\x7b\"message_id\": \"".toList ++ id) "\x7d".toList [] '"' npos
      (by decide) (by simp [npos_eq]; omega)
    have e : ("\x7b\"message_id\": \"".toList ++ id) ++ '"' :: ("\x7d".toList ++ [])
        = "\x7b\"message_id\": \"".toList ++ id ++ "\"\x7d".toList := by simp
    rw [e] at h
    rw [h, List.length_append, hP]
  have hstart : find_last_of ("\x7b\"message_id\": \"".toList ++ id ++ "\"\x7d".toList) '"'
      (15 + id.length) = 15 := by
    have h := find_last_of_eq "\x7b\"message_id\": ".toList id "\"\x7d".toList '"' (15 + id.length)
      hq (by simp; omega)
    have e : "\x7b\"message_id\": ".toList ++ '"' :: (id ++ "\"\x7d".toList)
        = "\x7b\"message_id\": \"".toList ++ id ++ "\"\x7d".toList := by simp
    rw [e] at h
    rw [h]
    rfl
  have hsub1 : size_t_sub (16 + id.length) 1 = 15 + id.length := by
    unfold size_t_sub; omega
  have hsub2 : size_t_sub (size_t_sub (16 + id.length) 15) 1 = id.length := by
    unfold size_t_sub; omega
  have hadd : size_t_add 15 1 = 16 := by decide
  have hne1 : 16 + id.length ≠ npos := by rw [npos_eq]; omega
  have hne2 : 15 ≠ npos := by decide
  have hsubstr : substr ("\x7b\"message_id\": \"".toList ++ id ++ "\"\x7d".toList) 16 id.length
      = some id := by
    have e : "\x7b\"message_id\": \"".toList ++ id ++ "\"\x7d".toList
        = "\x7b\"message_id\": \"".toList ++ (id ++ "\"\x7d".toList) := by simp
    have hl : "\x7b\"message_id\": \"".toList.length = 16 := by decide
    rw [substr, if_neg (by simp), e, ← hl, List.drop_left, List.take_left]
  simp only [JsonMessageProcessorImpl.ProcessMessage, hfind, if_false]
  rw [hend]
  simp only [hne1, ne_eq, not_false_eq_true, if_true, hsub1, hstart, hne2, hadd, hsub2,
    hsubstr, Option.map_some']

/-- C6 at the payloads of the tests: `{"message_id": "12345"}` and `{"message_id": ""}`. -/
theorem C6_extracts_identifier_witness :
    JsonMessageProcessorImpl.ProcessMessage "\x7b\"message_id\": \"12345\"\x7d".toList
        = some (some { message_id := "12345".toList })
      ∧ JsonMessageProcessorImpl.ProcessMessage "\x7b\"message_id\": \"\"\x7d".toList
        = some (some { message_id := [] }) :=
  ⟨C6_extracts_identifier "12345".toList (by decide) (by simp [npos_eq]),
   C6_extracts_identifier [] (by decide) (by simp [npos_eq])⟩

/-- C7: a payload in which `message_id` occurs nowhere is rejected (the extractor returns the
empty optional), whatever else it holds. -/
theorem C7_rejects_without_key (json : Str)
    (h : ∀ pre post : Str, json ≠ pre ++ "message_id".toList ++ post) :
    JsonMessageProcessorImpl.ProcessMessage json = some none := by
  have hf : find json "message_id".toList = npos :=
    find_loop_absent "message_id".toList (by decide) json 0 h
  simp only [JsonMessageProcessorImpl.ProcessMessage, hf, if_true]

/-- A payload for which `find` answers `npos` holds the pattern nowhere. -/
theorem absent_of_find_npos (s pat : Str) (hlen : s.length < npos) (h : find s pat = npos) :
    ∀ pre post : Str, s ≠ pre ++ pat ++ post := by
  intro pre post heq
  have hle := find_loop_le pat post pre 0
  rw [← heq, ← find, h] at hle
  have : pre.length ≤ s.length := by rw [heq]; simp
  omega

/-- C7 at the payload `{"message": "this_is_not_an_id"}`, which holds four double quotes. -/
theorem C7_rejects_without_key_witness :
    JsonMessageProcessorImpl.ProcessMessage "\x7b\"message\": \"this_is_not_an_id\"\x7d".toList
      = some none :=
  C7_rejects_without_key _
    (absent_of_find_npos _ _ (by simp [npos_eq]) (by decide))

/-! ## Processing one payload -/

theorem BrokerWorker.AddDataToStream_eq (w : BrokerWorker) (net : Transport) (cmd : Str) :
    w.AddDataToStream net cmd = (net.published, [cmd]) := by
  unfold BrokerWorker.AddDataToStream Transport.published
  split_ifs with h1 h2 h3 h4 h5 <;> try (simp_all; done)
  · have h1 : 0 ≤ net.bytes_sent := not_lt.mp h1
    have h3 : 0 ≤ net.bytes_read := not_lt.mp h3
    rcases hr : net.reply with _ | r
    · simp_all [isBulkString]
    · cases r <;>
        simp_all [isBulkString, redisReply.type, REDIS_REPLY_STRING, REDIS_REPLY_ARRAY,
          REDIS_REPLY_INTEGER, REDIS_REPLY_NIL, REDIS_REPLY_STATUS, REDIS_REPLY_ERROR]

theorem RedisConsumer.AddDataToStream_internal_eq (self : RedisConsumer) (net : Transport)
    (cmd : Str) (hc : self.write_connection_established_ = true) :
    self.AddDataToStream net cmd true = some (net.published, [cmd]) := by
  unfold RedisConsumer.AddDataToStream Transport.published
  simp only [hc, Bool.not_true, Bool.and_false, Bool.false_eq_true, if_false, Bool.false_and]
  split_ifs with h1 h2 h3 h4 h5 <;> try (simp_all; done)
  · have h1 : 0 ≤ net.bytes_sent := not_lt.mp h1
    have h3 : 0 ≤ net.bytes_read := not_lt.mp h3
    rcases hr : net.reply with _ | r
    · simp_all [isBulkString]
    · cases r <;>
        simp_all [isBulkString, redisReply.type, REDIS_REPLY_STRING, REDIS_REPLY_ARRAY,
          REDIS_REPLY_INTEGER, REDIS_REPLY_NIL, REDIS_REPLY_STATUS, REDIS_REPLY_ERROR]

theorem setup_eq (self : RedisConsumer) (c s : Str) (hs : s ≠ []) :
    RedisConsumer.SubscribeToChannel.setup self c s
      = { self with
          subsciption_channel_ := c
          write_connection_established_ := true
          processing_stream_ := s } := by
  have h1 : s.isEmpty = false := by cases s <;> simp_all
  simp [RedisConsumer.SubscribeToChannel.setup, h1]

/-- What `RedisConsumer::ProcessMessage` does with a payload the extractor accepts when a stream
is configured and its write connection is open. -/
theorem RedisConsumer.ProcessMessage_publish (self : RedisConsumer) (now payload : Str)
    (net : Transport) (m : Message) (hs : self.processing_stream_ ≠ [])
    (hc : self.write_connection_established_ = true)
    (hext : JsonMessageProcessorImpl.ProcessMessage payload = some (some m)) :
    self.ProcessMessage now net payload
      = some (if net.published then
            { self with
              number_of_processed_messages_ := self.number_of_processed_messages_ + 1 }
          else
            { self with
              number_of_processing_errors_ := self.number_of_processing_errors_ + 1 },
          [respArray ["XADD".toList, self.processing_stream_, "*".toList,
            "Processor_id".toList, to_string_int self.id_,
            "Processing_date_time".toList, now,
            "Source_channel_name".toList, self.subsciption_channel_,
            "Message_id".toList, m.message_id]]) := by
  have h1 : self.processing_stream_.isEmpty = false := by
    cases h : self.processing_stream_ <;> simp_all
  simp only [RedisConsumer.ProcessMessage, hext, h1, Bool.not_false, if_true,
    message_command_eq _ _ hs, RedisConsumer.AddDataToStream_internal_eq _ _ _ hc]
  cases net.published <;> rfl

/-- What the body of the worker's loop does with a payload the extractor accepts when a stream
is configured. -/
theorem BrokerWorker.body_publish (w : BrokerWorker) (now payload : Str)
    (net : Transport) (m : Message) (hs : w.processing_stream_name_ ≠ [])
    (hext : JsonMessageProcessorImpl.ProcessMessage payload = some (some m)) :
    BrokerWorker.ProcessMessages.body w now net payload
      = some (if net.published then
            { w with
              number_of_processed_messages_ := w.number_of_processed_messages_ + 1 }
          else
            { w with
              number_of_processing_errors_ := w.number_of_processing_errors_ + 1 },
          [respArray ["XADD".toList, w.processing_stream_name_, "*".toList,
            "Processor_id".toList, to_string_int w.id_,
            "Processing_date_time".toList, now,
            "Source_channel_name".toList, w.source_channel_name_,
            "Message_id".toList, m.message_id]]) := by
  have h1 : w.processing_stream_name_.isEmpty = false := by
    cases h : w.processing_stream_name_ <;> simp_all
  simp only [BrokerWorker.ProcessMessages.body, hext, h1, Bool.not_false, if_true,
    message_command_eq _ _ hs, BrokerWorker.AddDataToStream_eq]
  cases net.published <;> rfl

theorem published_of_bulk (net : Transport) (rid : Str) (h1 : 0 ≤ net.bytes_sent)
    (h2 : net.reader_created = true) (h3 : 0 ≤ net.bytes_read) (h4 : net.feed_ok = true)
    (h5 : net.get_reply_ok = true) (h6 : net.reply = some (.string rid)) :
    net.published = true := by
  simp [Transport.published, h1, h2, h3, h4, h5, h6, isBulkString]

/-- C8: a consumer subscribed to channel `c` with the non-empty target stream `s` that handles a
payload from which the extractor obtains `m` hands to `send` exactly one command, the array
`XADD s * Processor_id <its id> Processing_date_time <now> Source_channel_name c
Message_id <m.message_id>`; and when the round trip succeeds with a bulk-string reply the
processed counter grows by one and nothing else in the state changes (the error counter
included); the text written for `Processor_id` is the decimal text of the consumer's id: the
reference decoder of signed decimal numbers reads the id back from it, and the reference
decoder of the command reads back these eleven elements. -/
theorem C8_single_path_end_to_end (self : RedisConsumer) (c s now payload : Str)
    (net : Transport) (m : Message) (hs : s ≠ [])
    (hext : JsonMessageProcessorImpl.ProcessMessage payload = some (some m)) :
    ((RedisConsumer.SubscribeToChannel.setup self c s).ProcessMessage now net payload).map
          Prod.snd
        = some [respArray ["XADD".toList, s, "*".toList,
            "Processor_id".toList, to_string_int self.id_,
            "Processing_date_time".toList, now,
            "Source_channel_name".toList, c,
            "Message_id".toList, m.message_id]]
      ∧ (∀ rid : Str, 0 ≤ net.bytes_sent → net.reader_created = true → 0 ≤ net.bytes_read →
          net.feed_ok = true → net.get_reply_ok = true → net.reply = some (.string rid) →
          ((RedisConsumer.SubscribeToChannel.setup self c s).ProcessMessage now net
              payload).map Prod.fst
            = some { RedisConsumer.SubscribeToChannel.setup self c s with
                number_of_processed_messages_ := self.number_of_processed_messages_ + 1
                number_of_processing_errors_ := self.number_of_processing_errors_ })
      ∧ refInt (to_string_int self.id_) = some (self.id_, [])
      ∧ ∃ (command decimal : Str),
          ((RedisConsumer.SubscribeToChannel.setup self c s).ProcessMessage now net payload).map
              Prod.snd = some [command]
          ∧ refInt decimal = some (self.id_, [])
          ∧ refDecodeArray command
            = some (["XADD".toList, s, "*".toList,
                "Processor_id".toList, decimal,
                "Processing_date_time".toList, now,
                "Source_channel_name".toList, c,
                "Message_id".toList, m.message_id], []) := by
  have hset := setup_eq self c s hs
  have hp := RedisConsumer.ProcessMessage_publish
    (RedisConsumer.SubscribeToChannel.setup self c s) now payload net m
    (by rw [hset]; exact hs) (by rw [hset]) hext
  refine ⟨?_, ?_, refInt_to_string_int self.id_, _, to_string_int self.id_, ?_,
    refInt_to_string_int self.id_, refDecodeArray_respArray _⟩
  · rw [hp, hset]; rfl
  · intro rid h1 h2 h3 h4 h5 h6
    rw [hp, published_of_bulk net rid h1 h2 h3 h4 h5 h6, hset]
    rfl
  · rw [hp, hset]; rfl

/-- C8 at the first message of the specification's scenario: payload
`{"message_id": "abc123"}`, channel `messages:published`, stream `messages:processed`; the
processed counter goes from `0` to `1` and the error counter stays `0`, and the consumer with
the id `1` writes `1` for `Processor_id`; the same consumer with the id `12` writes `12`. -/
theorem C8_single_path_end_to_end_witness :
    ((RedisConsumer.SubscribeToChannel.setup sampleConsumer "messages:published".toList
          "messages:processed".toList).ProcessMessage "2024-01-01 10:00:00.000".toList
          (okTransport "1-0".toList) "\x7b\"message_id\": \"abc123\"\x7d".toList).map
        (fun r => (r.1.number_of_processed_messages_, r.1.number_of_processing_errors_, r.2))
      = some (1, 0, [respArray ["XADD".toList, "messages:processed".toList, "*".toList,
          "Processor_id".toList, "1".toList,
          "Processing_date_time".toList, "2024-01-01 10:00:00.000".toList,
          "Source_channel_name".toList, "messages:published".toList,
          "Message_id".toList, "abc123".toList]])
      ∧ ((RedisConsumer.SubscribeToChannel.setup { sampleConsumer with id_ := 12 }
            "messages:published".toList "messages:processed".toList).ProcessMessage
            "2024-01-01 10:00:00.000".toList (okTransport "1-0".toList)
            "\x7b\"message_id\": \"abc123\"\x7d".toList).map Prod.snd
        = some [respArray ["XADD".toList, "messages:processed".toList, "*".toList,
            "Processor_id".toList, "12".toList,
            "Processing_date_time".toList, "2024-01-01 10:00:00.000".toList,
            "Source_channel_name".toList, "messages:published".toList,
            "Message_id".toList, "abc123".toList]] := by
  have h := C8_single_path_end_to_end sampleConsumer "messages:published".toList
    "messages:processed".toList "2024-01-01 10:00:00.000".toList
    "\x7b\"message_id\": \"abc123\"\x7d".toList (okTransport "1-0".toList)
    { message_id := "abc123".toList } (by decide) (by decide)
  have h2 := h.2.1 "1-0".toList (by decide) rfl (by decide) rfl rfl rfl
  have h1 := h.1
  have hid : to_string_int sampleConsumer.id_ = "1".toList := by
    simp [to_string_int, sampleConsumer, to_string_of_lt]; rfl
  rw [hid] at h1
  have h12 := (C8_single_path_end_to_end { sampleConsumer with id_ := 12 }
    "messages:published".toList "messages:processed".toList "2024-01-01 10:00:00.000".toList
    "\x7b\"message_id\": \"abc123\"\x7d".toList (okTransport "1-0".toList)
    { message_id := "abc123".toList } (by decide) (by decide)).1
  have hid12 : to_string_int 12 = "12".toList := by
    have t : to_string 12 = "12".toList := by
      rw [to_string_of_ge (by decide), to_string_of_lt (by decide)]; rfl
    simp [to_string_int, t]
  simp only [hid12] at h12
  refine ⟨?_, h12⟩
  cases hr : (RedisConsumer.SubscribeToChannel.setup sampleConsumer
      "messages:published".toList "messages:processed".toList).ProcessMessage
      "2024-01-01 10:00:00.000".toList (okTransport "1-0".toList)
      "\x7b\"message_id\": \"abc123\"\x7d".toList with
  | none => rw [hr] at h1; simp at h1
  | some r =>
    rw [hr] at h1 h2
    simp only [Option.map_some', Option.some.injEq] at h1 h2 ⊢
    rw [h1, h2]
    rfl

/-- C9: when the extractor returns the empty optional for a payload, the single consumer and one
pass of a worker's loop on that payload (its body, and the pass that takes it from the head of
the queue) add one to the error counter, change nothing else in the state (the processed
counter included) and hand nothing to `send`, whatever stream is or is not configured. -/
theorem C9_rejected_payload_counts_error (payload : Str)
    (hext : JsonMessageProcessorImpl.ProcessMessage payload = some none) :
    (∀ (self : RedisConsumer) (now : Str) (net : Transport),
        self.ProcessMessage now net payload
          = some ({ self with
              number_of_processing_errors_ := self.number_of_processing_errors_ + 1 }, []))
      ∧ (∀ (w : BrokerWorker) (now : Str) (net : Transport),
        BrokerWorker.ProcessMessages.body w now net payload
          = some ({ w with
              number_of_processing_errors_ := w.number_of_processing_errors_ + 1 }, []))
      ∧ (∀ (w : BrokerWorker) (now : Str) (net : Transport) (rest : List Str),
        w.stop_ = false →
        BrokerWorker.ProcessMessages.iteration w now net (payload :: rest)
          = .handled { w with
              number_of_processing_errors_ := w.number_of_processing_errors_ + 1 } rest []) := by
  refine ⟨?_, ?_, ?_⟩
  · intro self now net
    simp only [RedisConsumer.ProcessMessage, hext]
  · intro w now net
    simp only [BrokerWorker.ProcessMessages.body, hext]
  · intro w now net rest hstop
    simp only [BrokerWorker.ProcessMessages.iteration, hstop, Bool.false_eq_true, if_false,
      BrokerWorker.ProcessMessages.body, hext]

/-- C9 at the payload `{"message": this_is_not_an_id}` of the tests: the consumer subscribed
with a stream and the worker with a stream both end with one error, nothing processed and
nothing sent. -/
theorem C9_rejected_payload_counts_error_witness :
    ((RedisConsumer.SubscribeToChannel.setup sampleConsumer "messages:published".toList
          "messages:processed".toList).ProcessMessage [] (okTransport "1-0".toList)
          "\x7b\"message\": this_is_not_an_id\x7d".toList).map
        (fun r => (r.1.number_of_processed_messages_, r.1.number_of_processing_errors_, r.2))
      = some (0, 1, [])
    ∧ (BrokerWorker.ProcessMessages.body sampleWorker [] (okTransport "1-0".toList)
          "\x7b\"message\": this_is_not_an_id\x7d".toList).map
        (fun r => (r.1.number_of_processed_messages_, r.1.number_of_processing_errors_, r.2))
      = some (0, 1, []) := by
  have h := C9_rejected_payload_counts_error "\x7b\"message\": this_is_not_an_id\x7d".toList
    (by decide)
  constructor
  · rw [h.1]; rfl
  · rw [h.2.1]; rfl

/-- The single consumer's `AddDataToStream`, on its open write connection for an internal call
and on a connection that opens for a call from outside, returns what the round trip gives and
hands the command to `send`. -/
theorem RedisConsumer.AddDataToStream_either_eq (self : RedisConsumer) (net : Transport) (cmd : Str)
    (is_internal_call : Bool)
    (hi : is_internal_call = true → self.write_connection_established_ = true)
    (hp : is_internal_call = false → net.connect_ok = true) :
    self.AddDataToStream net cmd is_internal_call = some (net.published, [cmd]) := by
  cases is_internal_call with
  | true => exact RedisConsumer.AddDataToStream_internal_eq self net cmd (hi rfl)
  | false =>
    have hc := hp rfl
    unfold RedisConsumer.AddDataToStream Transport.published
    simp only [hc, Bool.not_true, Bool.and_false, Bool.false_eq_true, if_false, Bool.false_and,
      Bool.not_false, Bool.true_and]
    split_ifs with h1 h2 h3 h4 h5 <;> try (simp_all; done)
    · have h1 : 0 ≤ net.bytes_sent := not_lt.mp h1
      have h3 : 0 ≤ net.bytes_read := not_lt.mp h3
      rcases hr : net.reply with _ | r
      · simp_all [isBulkString]
      · cases r <;>
          simp_all [isBulkString, redisReply.type, REDIS_REPLY_STRING, REDIS_REPLY_ARRAY,
            REDIS_REPLY_INTEGER, REDIS_REPLY_NIL, REDIS_REPLY_STATUS, REDIS_REPLY_ERROR]

/-- The public `AddDataToStream(stream, values)` with a non-empty stream name, a non-empty
list of values and a connection that opens returns what the round trip gives. -/
theorem AddDataToStream_values_eq (self : RedisConsumer) (net : Transport) (s : Str)
    (values : List Str) (hs : s ≠ []) (hv : values ≠ []) (hc : net.connect_ok = true) :
    RedisConsumer.AddDataToStream_values self net s values
      = some (net.published, [CreateWriteMessageToStreamCommand s values]) := by
  have h1 : s.isEmpty = false := by cases s <;> simp_all
  have h2 : values.isEmpty = false := by cases values <;> simp_all
  have h3 : (CreateWriteMessageToStreamCommand s values).isEmpty = false := by
    rw [CreateWriteMessageToStreamCommand_eq s values hs hv]
    simp [respArray]
  simp only [RedisConsumer.AddDataToStream_values, h1, h2, h3, Bool.or_self,
    Bool.false_eq_true, if_false]
  exact RedisConsumer.AddDataToStream_either_eq self net _ false (by simp) (fun _ => hc)

/-- C10: when the send, the creation of the reader and the read succeeded, the worker's
`AddDataToStream` and the single consumer's (called from inside on its open write connection,
or from outside on a connection that opens, also through the public
`AddDataToStream(stream, values)`) return `true` exactly when the reader decoded a reply
without error and that reply is a bulk string; for a status, an error, an integer, a nil or an
array reply, and when no reply was decoded, they return `false`; and then the caller (a payload
the extractor accepts, a stream configured) adds one to the error counter and leaves the
processed counter, as the rest of the state, as it was. -/
theorem C10_publish_reply_classification (net : Transport) (hsend : 0 ≤ net.bytes_sent)
    (hreader : net.reader_created = true) (hread : 0 ≤ net.bytes_read) :
    (∀ (w : BrokerWorker) (cmd : Str),
        ((w.AddDataToStream net cmd).1 = true
          ↔ net.feed_ok = true ∧ net.get_reply_ok = true
              ∧ ∃ str, net.reply = some (.string str))
        ∧ (w.AddDataToStream net cmd).2 = [cmd])
      ∧ (∀ (self : RedisConsumer) (cmd : Str) (is_internal_call : Bool),
        (is_internal_call = true → self.write_connection_established_ = true) →
        (is_internal_call = false → net.connect_ok = true) →
        ((self.AddDataToStream net cmd is_internal_call).map Prod.fst = some true
          ↔ net.feed_ok = true ∧ net.get_reply_ok = true
              ∧ ∃ str, net.reply = some (.string str))
        ∧ ((self.AddDataToStream net cmd is_internal_call).map Prod.fst = some false
          ↔ ¬ (net.feed_ok = true ∧ net.get_reply_ok = true
              ∧ ∃ str, net.reply = some (.string str)))
        ∧ (self.AddDataToStream net cmd is_internal_call).map Prod.snd = some [cmd])
      ∧ (¬ (net.feed_ok = true ∧ net.get_reply_ok = true
              ∧ ∃ str, net.reply = some (.string str)) →
        (∀ (w : BrokerWorker) (now payload : Str) (m : Message),
          w.processing_stream_name_ ≠ [] →
          JsonMessageProcessorImpl.ProcessMessage payload = some (some m) →
          (BrokerWorker.ProcessMessages.body w now net payload).map Prod.fst
            = some { w with
                number_of_processing_errors_ := w.number_of_processing_errors_ + 1 })
        ∧ (∀ (self : RedisConsumer) (now payload : Str) (m : Message),
          self.processing_stream_ ≠ [] → self.write_connection_established_ = true →
          JsonMessageProcessorImpl.ProcessMessage payload = some (some m) →
          (self.ProcessMessage now net payload).map Prod.fst
            = some { self with
                number_of_processing_errors_ := self.number_of_processing_errors_ + 1 }))
      ∧ (∀ (self : RedisConsumer) (stream_name : Str) (values : List Str),
        stream_name ≠ [] → values ≠ [] → net.connect_ok = true →
        ((self.AddDataToStream_values net stream_name values).map Prod.fst = some true
          ↔ net.feed_ok = true ∧ net.get_reply_ok = true
              ∧ ∃ str, net.reply = some (.string str))
        ∧ ((self.AddDataToStream_values net stream_name values).map Prod.fst = some false
          ↔ ¬ (net.feed_ok = true ∧ net.get_reply_ok = true
              ∧ ∃ str, net.reply = some (.string str)))) := by
  have hpub : net.published = true
      ↔ net.feed_ok = true ∧ net.get_reply_ok = true
          ∧ ∃ str, net.reply = some (.string str) := by
    simp only [Transport.published, hsend, hreader, hread, decide_True, Bool.true_and,
      Bool.and_eq_true, and_assoc]
    refine and_congr_right fun _ => and_congr_right fun _ => ?_
    rcases hr : net.reply with _ | r
    · simp [isBulkString]
    · cases r <;> simp [isBulkString]
  refine ⟨?_, ?_, ?_, ?_⟩
  · intro w cmd
    rw [BrokerWorker.AddDataToStream_eq]
    exact ⟨hpub, rfl⟩
  · intro self cmd is_internal_call hi hp
    rw [RedisConsumer.AddDataToStream_either_eq self net cmd is_internal_call hi hp]
    simp only [Option.map_some', Option.some.injEq, ← hpub]
    simp
  · intro hnot
    have hfalse : net.published = false := by
      rw [← hpub] at hnot
      simpa using hnot
    constructor
    · intro w now payload m hs hext
      rw [BrokerWorker.body_publish w now payload net m hs hext]
      simp only [hfalse]
      rfl
    · intro self now payload m hs hc hext
      rw [RedisConsumer.ProcessMessage_publish self now payload net m hs hc hext]
      simp only [hfalse]
      rfl
  · intro self stream_name values hs hv hc
    rw [AddDataToStream_values_eq self net stream_name values hs hv hc]
    simp only [Option.map_some', Option.some.injEq, ← hpub]
    simp

/-- C10 at a worker: the bulk string `1-0` is a success; the error reply `ERR`, the nil bulk
and the integer `1` are failures, and a payload handled under the error reply ends with one
error and nothing processed.  And at the single consumer called from outside: the bulk string
is a success and the error reply a failure, also through `AddDataToStream(stream, values)`. -/
theorem C10_publish_reply_classification_witness :
    (sampleWorker.AddDataToStream (replyTransport (.string "1-0".toList)) []).1 = true
      ∧ ¬ (sampleWorker.AddDataToStream (replyTransport (.error "ERR".toList)) []).1 = true
      ∧ ¬ (sampleWorker.AddDataToStream (replyTransport .nil) []).1 = true
      ∧ ¬ (sampleWorker.AddDataToStream (replyTransport (.integer 1)) []).1 = true
      ∧ (BrokerWorker.ProcessMessages.body sampleWorker []
            (replyTransport (.error "ERR".toList)) "\x7b\"message_id\": \"abc123\"\x7d".toList).map
          (fun r => (r.1.number_of_processed_messages_, r.1.number_of_processing_errors_))
        = some (0, 1)
      ∧ (sampleConsumer.AddDataToStream (replyTransport (.string "1-0".toList)) [] false).map
          Prod.fst = some true
      ∧ (sampleConsumer.AddDataToStream (replyTransport (.error "ERR".toList)) [] false).map
          Prod.fst = some false
      ∧ (sampleConsumer.AddDataToStream_values (replyTransport (.string "1-0".toList))
          "mystream".toList ["John".toList, "Smith".toList]).map Prod.fst = some true
      ∧ (sampleConsumer.AddDataToStream_values (replyTransport (.integer 1))
          "mystream".toList ["John".toList, "Smith".toList]).map Prod.fst = some false := by
  refine ⟨?_, ?_, ?_, ?_, ?_, ?_, ?_, ?_, ?_⟩
  · exact ((C10_publish_reply_classification (replyTransport (.string "1-0".toList))
      (by decide) rfl (by decide)).1 sampleWorker []).1.2 ⟨rfl, rfl, _, rfl⟩
  · intro h
    have := ((C10_publish_reply_classification (replyTransport (.error "ERR".toList))
      (by decide) rfl (by decide)).1 sampleWorker []).1.1 h
    obtain ⟨_, _, str, hstr⟩ := this
    simp [replyTransport] at hstr
  · intro h
    have := ((C10_publish_reply_classification (replyTransport .nil)
      (by decide) rfl (by decide)).1 sampleWorker []).1.1 h
    obtain ⟨_, _, str, hstr⟩ := this
    simp [replyTransport] at hstr
  · intro h
    have := ((C10_publish_reply_classification (replyTransport (.integer 1))
      (by decide) rfl (by decide)).1 sampleWorker []).1.1 h
    obtain ⟨_, _, str, hstr⟩ := this
    simp [replyTransport] at hstr
  · have h := ((C10_publish_reply_classification (replyTransport (.error "ERR".toList))
      (by decide) rfl (by decide)).2.2.1 (by simp [replyTransport])).1 sampleWorker []
      "\x7b\"message_id\": \"abc123\"\x7d".toList { message_id := "abc123".toList }
      (by decide) (by decide)
    cases hb : BrokerWorker.ProcessMessages.body sampleWorker []
        (replyTransport (.error "ERR".toList)) "\x7b\"message_id\": \"abc123\"\x7d".toList with
    | none => rw [hb] at h; simp at h
    | some r =>
      rw [hb] at h
      simp only [Option.map_some', Option.some.injEq] at h ⊢
      rw [h]
      rfl
  · exact ((C10_publish_reply_classification (replyTransport (.string "1-0".toList))
      (by decide) rfl (by decide)).2.1 sampleConsumer [] false (by simp) (fun _ => rfl)).1.2
      ⟨rfl, rfl, _, rfl⟩
  · exact ((C10_publish_reply_classification (replyTransport (.error "ERR".toList))
      (by decide) rfl (by decide)).2.1 sampleConsumer [] false (by simp)
      (fun _ => rfl)).2.1.2 (by simp [replyTransport])
  · exact ((C10_publish_reply_classification (replyTransport (.string "1-0".toList))
      (by decide) rfl (by decide)).2.2.2 sampleConsumer "mystream".toList
      ["John".toList, "Smith".toList] (by decide) (by decide) rfl).1.2 ⟨rfl, rfl, _, rfl⟩
  · exact ((C10_publish_reply_classification (replyTransport (.integer 1))
      (by decide) rfl (by decide)).2.2.2 sampleConsumer "mystream".toList
      ["John".toList, "Smith".toList] (by decide) (by decide) rfl).2.2
      (by simp [replyTransport])

/-! ## The reader decodes incrementally -/

theorem c_str_of_no_nul (s : Str) (h : Char.ofNat 0 ∉ s) : c_str s = s := by
  rw [c_str, List.takeWhile_eq_self_iff]
  intro x hx
  simp only [bne_iff_ne, ne_eq]
  intro hx0
  exact h (hx0 ▸ hx)

theorem strcmp_zero_iff (a b : Str) : strcmp_zero a b = true ↔ c_str a = c_str b := by
  simp [strcmp_zero]

/-- What the pool's loop does with a three-element array of strings. -/
theorem dispatch_three_pool (self : RedisBrokerConsumer)
    (kind channel payload channel_name : Str) :
    RedisBrokerConsumer.SubscribeToChannel.dispatch self channel_name
        (some (.array [.string kind, .string channel, .string payload]))
      = some (if c_str kind = "message".toList ∧ c_str channel = c_str channel_name
          then self.ProcessMessage (c_str payload) else self) := by
  have hm : c_str "message".toList = "message".toList := by decide
  have hs : c_str "subscribe".toList = "subscribe".toList := by decide
  simp only [RedisBrokerConsumer.SubscribeToChannel.dispatch, redisReply.type,
    redisReply.elements, redisReply.element, List.length_cons, List.length_nil, and_self,
    if_true, List.get?_cons_zero, List.get?_cons_succ, Option.some_bind, redisReply.str,
    strcmp_zero, beq_iff_eq, hm, hs]
  simp only [String.toList]
  by_cases h1 : c_str kind = ['s', 'u', 'b', 's', 'c', 'r', 'i', 'b', 'e']
  · have h2 : ¬ c_str kind = ['m', 'e', 's', 's', 'a', 'g', 'e'] := by rw [h1]; decide
    simp [h1, h2]
  · by_cases h2 : c_str kind = ['m', 'e', 's', 's', 'a', 'g', 'e']
    · by_cases h3 : c_str channel = c_str channel_name <;> simp [h1, h2, h3]
    · simp [h1, h2]

/-- What the single consumer's loop does with a three-element array of strings. -/
theorem dispatch_three_single (self : RedisConsumer)
    (kind channel payload channel_name now : Str) (net : Transport) :
    RedisConsumer.SubscribeToChannel.dispatch self channel_name now net
        (some (.array [.string kind, .string channel, .string payload]))
      = if c_str kind = "message".toList ∧ c_str channel = c_str channel_name
          then self.ProcessMessage now net (c_str payload) else some (self, []) := by
  have hm : c_str "message".toList = "message".toList := by decide
  have hs : c_str "subscribe".toList = "subscribe".toList := by decide
  simp only [RedisConsumer.SubscribeToChannel.dispatch, redisReply.type,
    redisReply.elements, redisReply.element, List.length_cons, List.length_nil, and_self,
    if_true, List.get?_cons_zero, List.get?_cons_succ, Option.some_bind, redisReply.str,
    strcmp_zero, beq_iff_eq, hm, hs]
  simp only [String.toList]
  by_cases h1 : c_str kind = ['s', 'u', 'b', 's', 'c', 'r', 'i', 'b', 'e']
  · have h2 : ¬ c_str kind = ['m', 'e', 's', 's', 'a', 'g', 'e'] := by rw [h1]; decide
    simp [h1, h2]
  · by_cases h2 : c_str kind = ['m', 'e', 's', 's', 'a', 'g', 'e']
    · by_cases h3 : c_str channel = c_str channel_name <;> simp [h1, h2, h3]
    · simp [h1, h2]

/-- What either loop does with a reply that is not a three-element array: nothing. -/
theorem dispatch_other_shape (reply : Option redisReply)
    (h : ∀ es, reply = some (.array es) → es.length ≠ 3) (channel_name : Str) :
    (∀ self : RedisBrokerConsumer,
        RedisBrokerConsumer.SubscribeToChannel.dispatch self channel_name reply = some self)
      ∧ ∀ (self : RedisConsumer) (now : Str) (net : Transport),
        RedisConsumer.SubscribeToChannel.dispatch self channel_name now net reply
          = some (self, []) := by
  have key : ∀ r, reply = some r → ¬ (r.type = REDIS_REPLY_ARRAY ∧ r.elements = 3) := by
    intro r hr ⟨ht, he⟩
    cases r with
    | array es => exact h es hr (by simpa [redisReply.elements] using he)
    | _ => simp [redisReply.type, REDIS_REPLY_ARRAY, REDIS_REPLY_STRING, REDIS_REPLY_INTEGER,
        REDIS_REPLY_NIL, REDIS_REPLY_STATUS, REDIS_REPLY_ERROR] at ht
  constructor
  · intro self
    cases reply with
    | none => rfl
    | some r =>
      simp only [RedisBrokerConsumer.SubscribeToChannel.dispatch, key r rfl, if_false]
  · intro self now net
    cases reply with
    | none => rfl
    | some r =>
      simp only [RedisConsumer.SubscribeToChannel.dispatch, key r rfl, if_false]

/-- C12, as stated, fails: with the channel name `news`, the push
`[message, news\0x, hi]` for another channel (its name goes on after a NUL byte) is routed to
the queue, because the channel is compared with `strcmp`. -/
theorem C12_counterexample :
    RedisBrokerConsumer.SubscribeToChannel.dispatch sampleBroker "news".toList
        (some (.array [.string "message".toList, .string "news\x00x".toList,
          .string "hi".toList]))
      = some (sampleBroker.ProcessMessage "hi".toList)
    ∧ (sampleBroker.ProcessMessage "hi".toList).message_queue_ = ["hi".toList]
    ∧ "news\x00x".toList ≠ "news".toList := by
  refine ⟨?_, rfl, by decide⟩
  rw [dispatch_three_pool]
  have h1 : c_str "message".toList = "message".toList := by decide
  have h2 : c_str "news\x00x".toList = c_str "news".toList := by decide
  have h3 : c_str "hi".toList = "hi".toList := by decide
  rw [h1, h2, h3]
  simp

/-- C12, amended: for a three-element array `[kind, channel, payload]` of strings, either loop
routes the payload (to the queue, or to `ProcessMessage`), read as a C string up to its first
NUL byte, exactly when `kind` and `channel`, compared as C strings, are `message` and the
channel name passed to `SubscribeToChannel`; for strings without a NUL byte this is: exactly
when `kind` is `message` and `channel` equals the channel name, and the payload is routed
whole.  A `subscribe` acknowledgement, no reply, and a reply that is not a three-element array
route nothing and leave the state as it is; and whenever the reader hands a reply without error
and the reply is looked at without stopping the process, the loop goes on to the next `recv`. -/
theorem C12_channel_filter (kind channel payload channel_name : Str) :
    (∀ self : RedisBrokerConsumer,
        RedisBrokerConsumer.SubscribeToChannel.dispatch self channel_name
            (some (.array [.string kind, .string channel, .string payload]))
          = some (if c_str kind = "message".toList ∧ c_str channel = c_str channel_name
              then self.ProcessMessage (c_str payload) else self))
      ∧ (∀ (self : RedisConsumer) (now : Str) (net : Transport),
        RedisConsumer.SubscribeToChannel.dispatch self channel_name now net
            (some (.array [.string kind, .string channel, .string payload]))
          = if c_str kind = "message".toList ∧ c_str channel = c_str channel_name
              then self.ProcessMessage now net (c_str payload) else some (self, []))
      ∧ (Char.ofNat 0 ∉ kind → Char.ofNat 0 ∉ channel → Char.ofNat 0 ∉ payload →
          Char.ofNat 0 ∉ channel_name →
          (∀ self : RedisBrokerConsumer,
            RedisBrokerConsumer.SubscribeToChannel.dispatch self channel_name
                (some (.array [.string kind, .string channel, .string payload]))
              = some (if kind = "message".toList ∧ channel = channel_name
                  then self.ProcessMessage payload else self))
          ∧ ∀ (self : RedisConsumer) (now : Str) (net : Transport),
            RedisConsumer.SubscribeToChannel.dispatch self channel_name now net
                (some (.array [.string kind, .string channel, .string payload]))
              = if kind = "message".toList ∧ channel = channel_name
                  then self.ProcessMessage now net payload else some (self, []))
      ∧ (∀ (third : redisReply) (self : RedisBrokerConsumer),
        RedisBrokerConsumer.SubscribeToChannel.dispatch self channel_name
            (some (.array [.string "subscribe".toList, .string channel, third])) = some self)
      ∧ (∀ (third : redisReply) (self : RedisConsumer) (now : Str) (net : Transport),
        RedisConsumer.SubscribeToChannel.dispatch self channel_name now net
            (some (.array [.string "subscribe".toList, .string channel, third]))
          = some (self, []))
      ∧ (∀ reply : Option redisReply, (∀ es, reply = some (.array es) → es.length ≠ 3) →
        (∀ self : RedisBrokerConsumer,
          RedisBrokerConsumer.SubscribeToChannel.dispatch self channel_name reply = some self)
        ∧ ∀ (self : RedisConsumer) (now : Str) (net : Transport),
          RedisConsumer.SubscribeToChannel.dispatch self channel_name now net reply
            = some (self, []))
      ∧ (∀ (self state : RedisBrokerConsumer) (reader : redisReader) (bytes : Str),
        (redisReaderFeed reader bytes).1 = true →
        (redisReaderGetReply (redisReaderFeed reader bytes).2).1 = true →
        RedisBrokerConsumer.SubscribeToChannel.dispatch self channel_name
            (redisReaderGetReply (redisReaderFeed reader bytes).2).2.1
          = some state →
        RedisBrokerConsumer.SubscribeToChannel.iteration self channel_name reader (.data bytes)
          = .running state (redisReaderGetReply (redisReaderFeed reader bytes).2).2.2 [])
      ∧ ∀ (self state : RedisConsumer) (sent : List Str) (reader : redisReader)
          (bytes now : Str) (net : Transport),
        (redisReaderFeed reader bytes).1 = true →
        (redisReaderGetReply (redisReaderFeed reader bytes).2).1 = true →
        RedisConsumer.SubscribeToChannel.dispatch self channel_name now net
            (redisReaderGetReply (redisReaderFeed reader bytes).2).2.1
          = some (state, sent) →
        RedisConsumer.SubscribeToChannel.iteration self channel_name reader (.data bytes)
            now net
          = .running state (redisReaderGetReply (redisReaderFeed reader bytes).2).2.2
              sent := by
  refine ⟨fun self => dispatch_three_pool self kind channel payload channel_name,
    fun self now net => dispatch_three_single self kind channel payload channel_name
      now net, ?_, ?_, ?_, fun reply h => dispatch_other_shape reply h channel_name, ?_, ?_⟩
  · intro hk hc hp hn
    have e1 := c_str_of_no_nul kind hk
    have e2 := c_str_of_no_nul channel hc
    have e3 := c_str_of_no_nul payload hp
    have e4 := c_str_of_no_nul channel_name hn
    constructor
    · intro self
      rw [dispatch_three_pool, e1, e2, e3, e4]
    · intro self now net
      rw [dispatch_three_single, e1, e2, e3, e4]
  · intro third self
    simp [RedisBrokerConsumer.SubscribeToChannel.dispatch, redisReply.type,
      redisReply.elements, redisReply.element, redisReply.str, strcmp_zero]
  · intro third self now net
    simp [RedisConsumer.SubscribeToChannel.dispatch, redisReply.type,
      redisReply.elements, redisReply.element, redisReply.str, strcmp_zero]
  · intro self state reader bytes hfeed hok hd
    simp only [RedisBrokerConsumer.SubscribeToChannel.iteration, hfeed, hok, hd,
      Bool.not_true, Bool.false_eq_true, if_false]
  · intro self state sent reader bytes now net hfeed hok hd
    simp only [RedisConsumer.SubscribeToChannel.iteration, hfeed, hok, hd,
      Bool.not_true, Bool.false_eq_true, if_false]

/-- C12, amended, at the channel `news`: the push `[message, news, hi]` puts `hi` on the queue,
the push `[message, sport, hi]` and the acknowledgement `[subscribe, news, 1]` leave it
empty. -/
theorem C12_channel_filter_witness :
    RedisBrokerConsumer.SubscribeToChannel.dispatch sampleBroker "news".toList
        (some (.array [.string "message".toList, .string "news".toList, .string "hi".toList]))
      = some { sampleBroker with message_queue_ := ["hi".toList] }
    ∧ RedisBrokerConsumer.SubscribeToChannel.dispatch sampleBroker "news".toList
        (some (.array [.string "message".toList, .string "sport".toList,
          .string "hi".toList]))
      = some sampleBroker
    ∧ RedisBrokerConsumer.SubscribeToChannel.dispatch sampleBroker "news".toList
        (some (.array [.string "subscribe".toList, .string "news".toList, .integer 1]))
      = some sampleBroker := by
  refine ⟨?_, ?_, ?_⟩
  · rw [((C12_channel_filter "message".toList "news".toList "hi".toList "news".toList).2.2.1
      (by decide) (by decide) (by decide) (by decide)).1 sampleBroker]
    simp [RedisBrokerConsumer.ProcessMessage, sampleBroker]
  · rw [((C12_channel_filter "message".toList "sport".toList "hi".toList "news".toList).2.2.1
      (by decide) (by decide) (by decide) (by decide)).1 sampleBroker]
    simp
  · exact (C12_channel_filter "subscribe".toList "news".toList [] "news".toList).2.2.2.1
      (.integer 1) sampleBroker

/-! ## The pool: queue, workers and counters -/

theorem sum_map_set {α : Type} (f : α → Nat) : ∀ (l : List α) (i : Nat) (a x : α),
    l.get? i = some a → ((l.set i x).map f).sum + f a = (l.map f).sum + f x := by
  intro l
  induction l with
  | nil => intro i a x h; simp at h
  | cons b l ih =>
    intro i a x h
    cases i with
    | zero =>
      simp only [List.get?_cons_zero, Option.some.injEq] at h
      subst h
      simp only [List.set_cons_zero, List.map_cons, List.sum_cons]
      omega
    | succ i =>
      simp only [List.get?_cons_succ] at h
      have := ih i a x h
      simp only [List.set_cons_succ, List.map_cons, List.sum_cons]
      omega

theorem mem_of_mem_set {α : Type} : ∀ (l : List α) (i : Nat) (x y : α),
    y ∈ l.set i x → y ∈ l ∨ y = x := by
  intro l
  induction l with
  | nil => intro i x y h; simp at h
  | cons b l ih =>
    intro i x y h
    cases i with
    | zero =>
      simp only [List.set_cons_zero, List.mem_cons] at h
      rcases h with h | h
      · exact Or.inr h
      · exact Or.inl (List.mem_cons_of_mem _ h)
    | succ i =>
      simp only [List.set_cons_succ, List.mem_cons] at h
      rcases h with h | h
      · exact Or.inl (by rw [h]; exact List.mem_cons_self _ _)
      · rcases ih i x y h with h | h
        · exact Or.inl (List.mem_cons_of_mem _ h)
        · exact Or.inr h

theorem foldl_add_eq_sum {α : Type} (f : α → Nat) : ∀ (l : List α) (a : Nat),
    l.foldl (fun acc w => acc + f w) a = a + (l.map f).sum := by
  intro l
  induction l with
  | nil => intro a; simp
  | cons b l ih => intro a; simp only [List.foldl_cons, ih, List.map_cons, List.sum_cons]; omega

theorem GetNumberOfProcessedMessages_eq_sum (self : RedisBrokerConsumer) :
    self.GetNumberOfProcessedMessages
      = (self.workers_.map fun w => w.number_of_processed_messages_).sum := by
  have := foldl_add_eq_sum (fun w : BrokerWorker => w.number_of_processed_messages_)
    self.workers_ 0
  simpa [RedisBrokerConsumer.GetNumberOfProcessedMessages,
    BrokerWorker.GetNumberOfProcessedMessages] using this

/-- What a step in which a worker takes the front of the queue looks like. -/
theorem Pool.step_dequeue (p q : Pool) (i : Nat) (h : p.step (.dequeue i) = some q) :
    ∃ worker thread message rest,
      p.consumer.workers_.get? i = some worker ∧ p.threads.get? i = some thread
        ∧ worker.stop_ = false ∧ thread.message = none
        ∧ p.consumer.message_queue_ = message :: rest
        ∧ q = { p with
            consumer := { p.consumer with message_queue_ := rest }
            threads := p.threads.set i
              { message := some message, taken := thread.taken ++ [message] }
            dequeued := p.dequeued ++ [message] } := by
  simp only [Pool.step] at h
  cases hw : p.consumer.workers_.get? i with
  | none =>
    rw [List.get?_eq_getElem?] at hw
    simp [hw] at h
  | some worker =>
    cases ht : p.threads.get? i with
    | none =>
      rw [List.get?_eq_getElem?] at hw ht
      simp [hw, ht] at h
    | some thread =>
      simp only [hw, ht] at h
      by_cases hb : (worker.stop_ || thread.message.isSome) = true
      · simp [hb] at h
      · simp only [hb, Bool.false_eq_true, if_false] at h
        simp only [Bool.or_eq_true, not_or, Bool.not_eq_true] at hb
        have hnone : thread.message = none := by
          cases hm : thread.message with
          | none => rfl
          | some m => rw [hm] at hb; simp at hb
        cases hq : p.consumer.message_queue_ with
        | nil =>
          exfalso
          simp only [hq, BrokerWorker.ProcessMessages.dequeue, hb.1, Bool.false_eq_true,
            if_false] at h
          simp at h
        | cons message rest =>
          simp only [hq, BrokerWorker.ProcessMessages.dequeue, Option.some.injEq] at h
          exact ⟨worker, thread, message, rest, rfl, rfl, hb.1, hnone, rfl, h.symm⟩

/-- What a step in which a worker handles the payload it holds looks like. -/
theorem Pool.step_handle (p q : Pool) (i : Nat) (now : Str) (net : Transport)
    (h : p.step (.handle i now net) = some q) :
    ∃ worker thread message worker' sent,
      p.consumer.workers_.get? i = some worker ∧ p.threads.get? i = some thread
        ∧ thread.message = some message
        ∧ BrokerWorker.ProcessMessages.body worker now net message = some (worker', sent)
        ∧ q = { p with
            consumer := { p.consumer with workers_ := p.consumer.workers_.set i worker' }
            threads := p.threads.set i { thread with message := none } } := by
  simp only [Pool.step] at h
  cases hw : p.consumer.workers_.get? i with
  | none =>
    rw [List.get?_eq_getElem?] at hw
    simp [hw] at h
  | some worker =>
    cases ht : p.threads.get? i with
    | none =>
      rw [List.get?_eq_getElem?] at hw ht
      simp [hw, ht] at h
    | some thread =>
      simp only [hw, ht] at h
      cases hm : thread.message with
      | none => simp [hm] at h
      | some message =>
        simp only [hm] at h
        cases hb : BrokerWorker.ProcessMessages.body worker now net message with
        | none => simp [hb] at h
        | some r =>
          obtain ⟨worker', sent⟩ := r
          simp only [hb, Option.some.injEq] at h
          exact ⟨worker, thread, message, worker', sent, rfl, rfl, hm, hb, h.symm⟩

/-- A property that every step from a listed event keeps holds after a run of such events. -/
theorem Pool.run_invariant (P : Pool → Prop) (E : PoolEvent → Prop)
    (hstep : ∀ p e q, E e → P p → p.step e = some q → P q) :
    ∀ (events : List PoolEvent) (p q : Pool), (∀ e ∈ events, E e) → P p →
      p.run events = some q → P q := by
  intro events
  induction events with
  | nil =>
    intro p q _ hp h
    simp only [Pool.run, Option.some.injEq] at h
    exact h ▸ hp
  | cons e es ih =>
    intro p q hE hp h
    rw [Pool.run] at h
    cases hs : p.step e with
    | none => simp [hs] at h
    | some r =>
      simp only [hs] at h
      exact ih r q (fun e' he' => hE e' (List.mem_cons_of_mem _ he'))
        (hstep p e r (hE e (List.mem_cons_self _ _)) hp hs) h

/-- The history of pushes of a run is the pushes of its events, in order. -/
theorem Pool.run_pushed : ∀ (events : List PoolEvent) (p q : Pool),
    p.run events = some q → q.pushed = p.pushed ++ pushesOf events := by
  intro events
  induction events with
  | nil =>
    intro p q h
    simp only [Pool.run, Option.some.injEq] at h
    simp [pushesOf, h]
  | cons e es ih =>
    intro p q h
    rw [Pool.run] at h
    cases hs : p.step e with
    | none => simp [hs] at h
    | some r =>
      simp only [hs] at h
      rw [ih r q h]
      cases e with
      | push message =>
        simp only [Pool.step, Option.some.injEq] at hs
        subst hs
        simp [pushesOf]
      | dequeue i =>
        obtain ⟨_, _, _, _, _, _, _, _, _, hq⟩ := Pool.step_dequeue p r i hs
        subst hq
        simp [pushesOf]
      | handle i now net =>
        obtain ⟨_, _, _, _, _, _, _, _, _, hq⟩ := Pool.step_handle p r i now net hs
        subst hq
        simp [pushesOf]

/-- After any run from the start of the pool, the payloads taken so far followed by the queue
are the payloads pushed so far. -/
theorem Pool.run_fifo (consumer : RedisBrokerConsumer) (events : List PoolEvent) (p : Pool)
    (hrun : (Pool.start consumer).run events = some p) :
    p.dequeued ++ p.consumer.message_queue_ = p.pushed := by
  refine Pool.run_invariant (fun p => p.dequeued ++ p.consumer.message_queue_ = p.pushed)
    (fun _ => True) ?_ events (Pool.start consumer) p (fun _ _ => trivial) rfl hrun
  intro p e q _ hp hs
  cases e with
  | push message =>
    simp only [Pool.step, Option.some.injEq] at hs
    subst hs
    simp only [RedisBrokerConsumer.ProcessMessage, ← List.append_assoc, hp]
  | dequeue i =>
    obtain ⟨_, _, message, rest, _, _, _, _, hqueue, hq⟩ := Pool.step_dequeue p q i hs
    subst hq
    rw [hqueue] at hp
    simpa using hp
  | handle i now net =>
    obtain ⟨_, _, _, _, _, _, _, _, _, hq⟩ := Pool.step_handle p q i now net hs
    subst hq
    exact hp

/-- C13: `RedisBrokerConsumer::ProcessMessage` appends the payload at the back of the queue and
a worker's critical section removes the front; so after any interleaving of pushes, dequeues and
handling steps from the start of the pool, the payloads dequeued so far by all workers, in the
order they were dequeued, followed by the payloads still queued, are exactly the pushes
`p1..pn` in their order. -/
theorem C13_queue_is_fifo (consumer : RedisBrokerConsumer) (events : List PoolEvent)
    (p : Pool) (hrun : (Pool.start consumer).run events = some p) :
    (∀ (self : RedisBrokerConsumer) (message : Str),
        (self.ProcessMessage message).message_queue_ = self.message_queue_ ++ [message])
      ∧ (∀ (w : BrokerWorker) (message : Str) (rest : List Str),
        BrokerWorker.ProcessMessages.dequeue w (message :: rest) = .took message rest)
      ∧ p.dequeued ++ p.consumer.message_queue_ = pushesOf events := by
  refine ⟨fun _ _ => rfl, fun _ _ _ => rfl, ?_⟩
  rw [Pool.run_fifo consumer events p hrun, Pool.run_pushed events _ p hrun]
  rfl

/-- C13 at three pushes interleaved with dequeues by the workers `2` and `0`: `a` and `b` are
taken in this order and `c` is left. -/
theorem C13_queue_is_fifo_witness :
    ∃ p, (Pool.start threeWorkers).run
          [.push "a".toList, .push "b".toList, .dequeue 2, .push "c".toList, .dequeue 0]
        = some p
      ∧ p.dequeued = ["a".toList, "b".toList]
      ∧ p.consumer.message_queue_ = ["c".toList]
      ∧ p.dequeued ++ p.consumer.message_queue_ = ["a".toList, "b".toList, "c".toList] :=
  ⟨_, rfl, rfl, rfl, (C13_queue_is_fifo threeWorkers
    [.push "a".toList, .push "b".toList, .dequeue 2, .push "c".toList, .dequeue 0] _ rfl).2.2⟩

/-- C14: in every state reached from the start of the pool by the atomic steps `push`,
`dequeue by worker i` and `handle by worker i`, each payload occurs in the queue and in the
lists of payloads the workers have taken, counted together, exactly as often as it was pushed:
no pushed payload is taken by two workers and none disappears. -/
theorem C14_dequeued_exactly_once (consumer : RedisBrokerConsumer)
    (events : List PoolEvent) (p : Pool) (hrun : (Pool.start consumer).run events = some p) :
    ∀ x : Str,
      p.consumer.message_queue_.count x + (p.threads.map fun t => t.taken.count x).sum
        = (pushesOf events).count x := by
  intro x
  have hpushed := Pool.run_pushed events _ p hrun
  have hinv : p.consumer.message_queue_.count x + (p.threads.map fun t => t.taken.count x).sum
      = p.pushed.count x := by
    refine Pool.run_invariant
      (fun p => p.consumer.message_queue_.count x + (p.threads.map fun t => t.taken.count x).sum
        = p.pushed.count x)
      (fun _ => True) ?_ events (Pool.start consumer) p (fun _ _ => trivial) ?_ hrun
    · intro p e q _ hp hs
      cases e with
      | push message =>
        simp only [Pool.step, Option.some.injEq] at hs
        subst hs
        simp only [RedisBrokerConsumer.ProcessMessage, List.count_append]
        omega
      | dequeue i =>
        obtain ⟨_, thread, message, rest, _, ht, _, _, hqueue, hq⟩ := Pool.step_dequeue p q i hs
        subst hq
        rw [hqueue] at hp
        have hsum := sum_map_set (fun t : WorkerThread => t.taken.count x) p.threads i thread
          { message := some message, taken := thread.taken ++ [message] } ht
        simp only [List.count_append, List.count_cons, List.count_nil] at hsum hp ⊢
        omega
      | handle i now net =>
        obtain ⟨_, thread, _, _, _, _, ht, _, _, hq⟩ := Pool.step_handle p q i now net hs
        subst hq
        have hsum := sum_map_set (fun t : WorkerThread => t.taken.count x) p.threads i thread
          { thread with message := none } ht
        simp only at hsum hp ⊢
        omega
    · have hz : ∀ l : List BrokerWorker,
          ((l.map fun _ => ({ message := none, taken := [] } : WorkerThread)).map
            fun t => t.taken.count x).sum = 0 := by
        intro l
        induction l with
        | nil => rfl
        | cons _ _ ih => simp
      simp only [Pool.start, List.count_nil, hz]
  rw [hinv, hpushed]
  rfl

/-- C14 at the payload `a` pushed twice and `b` once, with two dequeues: the counts agree. -/
theorem C14_dequeued_exactly_once_witness :
    ∃ p, (Pool.start threeWorkers).run
          [.push "a".toList, .push "b".toList, .dequeue 2, .push "a".toList, .dequeue 0]
        = some p
      ∧ p.consumer.message_queue_.count "a".toList
          + (p.threads.map fun t => t.taken.count "a".toList).sum = 2
      ∧ p.threads.map (fun t => t.taken) = [["b".toList], [], ["a".toList]] :=
  ⟨_, rfl, (C14_dequeued_exactly_once threeWorkers
    [.push "a".toList, .push "b".toList, .dequeue 2, .push "a".toList, .dequeue 0] _ rfl
    "a".toList).trans (by decide), rfl⟩

/-- Without a stream, the worker's loop body counts an accepted payload as processed and sends
nothing. -/
theorem BrokerWorker.body_no_stream (w : BrokerWorker) (now payload : Str) (net : Transport)
    (m : Message) (hs : w.processing_stream_name_ = [])
    (hext : JsonMessageProcessorImpl.ProcessMessage payload = some (some m)) :
    BrokerWorker.ProcessMessages.body w now net payload
      = some ({ w with
          number_of_processed_messages_ := w.number_of_processed_messages_ + 1 }, []) := by
  simp [BrokerWorker.ProcessMessages.body, hext, hs]

/-- Without a stream, the single consumer counts an accepted payload as processed and sends
nothing. -/
theorem RedisConsumer.ProcessMessage_no_stream (self : RedisConsumer) (now payload : Str)
    (net : Transport) (m : Message) (hs : self.processing_stream_ = [])
    (hext : JsonMessageProcessorImpl.ProcessMessage payload = some (some m)) :
    self.ProcessMessage now net payload
      = some ({ self with
          number_of_processed_messages_ := self.number_of_processed_messages_ + 1 }, []) := by
  simp [RedisConsumer.ProcessMessage, hext, hs]

/-- An accepted payload whose publish, if a stream is configured, succeeds is counted as
processed. -/
theorem BrokerWorker.body_success (w : BrokerWorker) (now payload : Str) (net : Transport)
    (m : Message) (hext : JsonMessageProcessorImpl.ProcessMessage payload = some (some m))
    (hpub : w.processing_stream_name_ ≠ [] → net.published = true) :
    ∃ sent, BrokerWorker.ProcessMessages.body w now net payload
      = some ({ w with
          number_of_processed_messages_ := w.number_of_processed_messages_ + 1 }, sent) := by
  by_cases hs : w.processing_stream_name_ = []
  · exact ⟨[], BrokerWorker.body_no_stream w now payload net m hs hext⟩
  · have h := BrokerWorker.body_publish w now payload net m hs hext
    simp only [hpub hs, if_true] at h
    exact ⟨_, h⟩

theorem sum_map_eq_zero {α : Type} (f : α → Nat) : ∀ l : List α, (∀ a ∈ l, f a = 0) →
    (l.map f).sum = 0 := by
  intro l
  induction l with
  | nil => intro _; rfl
  | cons b l ih =>
    intro h
    simp only [List.map_cons, List.sum_cons, h b (List.mem_cons_self _ _),
      ih fun a ha => h a (List.mem_cons_of_mem _ ha)]

/-- C15: start a pool whose workers (any number of them) have counted nothing and share the
stream setting `stream`, and run any interleaving of pushes, dequeues and handling steps in
which every pushed payload is accepted by the extractor and, if a stream is configured, every
publish succeeds.  Once the queue is empty and no worker holds a payload, the sum of the
workers' processed counters that `GetNumberOfProcessedMessages` returns is the number of
payloads pushed. -/
theorem C15_processed_sum_after_drain (consumer : RedisBrokerConsumer) (stream : Str)
    (events : List PoolEvent) (p : Pool)
    (hfresh : ∀ w ∈ consumer.workers_,
      w.number_of_processed_messages_ = 0 ∧ w.processing_stream_name_ = stream)
    (hext : ∀ message, PoolEvent.push message ∈ events →
      ∃ m, JsonMessageProcessorImpl.ProcessMessage message = some (some m))
    (hpub : ∀ i now net, PoolEvent.handle i now net ∈ events → stream ≠ [] →
      net.published = true)
    (hrun : (Pool.start consumer).run events = some p)
    (hempty : p.consumer.message_queue_ = [])
    (hidle : ∀ t ∈ p.threads, t.message = none) :
    p.consumer.GetNumberOfProcessedMessages = (pushesOf events).length := by
  have hpushed := Pool.run_pushed events _ p hrun
  have hinv := Pool.run_invariant
    (fun p =>
      (p.consumer.workers_.map fun w => w.number_of_processed_messages_).sum
          + (p.threads.map fun t => if t.message.isSome then 1 else 0).sum
          + p.consumer.message_queue_.length = p.pushed.length
        ∧ (∀ message ∈ p.consumer.message_queue_,
            ∃ m, JsonMessageProcessorImpl.ProcessMessage message = some (some m))
        ∧ (∀ t ∈ p.threads, ∀ message, t.message = some message →
            ∃ m, JsonMessageProcessorImpl.ProcessMessage message = some (some m))
        ∧ ∀ w ∈ p.consumer.workers_, w.processing_stream_name_ = stream)
    (fun e =>
      (∀ message, e = .push message →
          ∃ m, JsonMessageProcessorImpl.ProcessMessage message = some (some m))
        ∧ ∀ i now net, e = .handle i now net → stream ≠ [] → net.published = true)
    ?_ events (Pool.start consumer) p ?_ ?_ hrun
  · obtain ⟨h1, _, _, _⟩ := hinv
    have hbusy := sum_map_eq_zero (fun t : WorkerThread => if t.message.isSome then 1 else 0)
      p.threads (fun t ht => by simp [hidle t ht])
    rw [GetNumberOfProcessedMessages_eq_sum]
    rw [hbusy, hempty, hpushed] at h1
    simpa [Pool.start] using h1
  · intro p e q hE ⟨h1, h2, h3, h4⟩ hs
    cases e with
    | push message =>
      simp only [Pool.step, Option.some.injEq] at hs
      subst hs
      refine ⟨?_, ?_, h3, h4⟩
      · simp only [RedisBrokerConsumer.ProcessMessage, List.length_append, List.length_singleton]
        omega
      · intro x hx
        simp only [RedisBrokerConsumer.ProcessMessage, List.mem_append,
          List.mem_singleton] at hx
        rcases hx with hx | hx
        · exact h2 x hx
        · exact hE.1 x (by rw [hx])
    | dequeue i =>
      obtain ⟨_, thread, message, rest, _, ht, _, hm, hqueue, hq⟩ := Pool.step_dequeue p q i hs
      subst hq
      have hsum := sum_map_set (fun t : WorkerThread => if t.message.isSome then 1 else 0)
        p.threads i thread { message := some message, taken := thread.taken ++ [message] } ht
      simp only [hm, Option.isSome_none, Bool.false_eq_true, if_false, Option.isSome_some,
        if_true] at hsum
      rw [hqueue] at h1 h2
      refine ⟨?_, ?_, ?_, h4⟩
      · simp only [List.length_cons] at h1 ⊢
        omega
      · intro x hx
        exact h2 x (List.mem_cons_of_mem _ hx)
      · intro t htm x hx
        rcases mem_of_mem_set _ _ _ _ htm with htm | htm
        · exact h3 t htm x hx
        · rw [htm] at hx
          simp only [Option.some.injEq] at hx
          exact h2 x (by rw [← hx]; exact List.mem_cons_self _ _)
    | handle i now net =>
      obtain ⟨worker, thread, message, worker', sent, hw, ht, hm, hb, hq⟩ :=
        Pool.step_handle p q i now net hs
      subst hq
      have hwmem : worker ∈ p.consumer.workers_ := List.get?_mem hw
      have htmem : thread ∈ p.threads := List.get?_mem ht
      obtain ⟨m, hok⟩ := h3 thread htmem message hm
      obtain ⟨sent', hb'⟩ := BrokerWorker.body_success worker now message net m hok
        (fun hne => hE.2 i now net rfl (by rw [← h4 worker hwmem]; exact hne))
      rw [hb] at hb'
      simp only [Option.some.injEq, Prod.mk.injEq] at hb'
      obtain ⟨hw', _⟩ := hb'
      subst hw'
      have hsum1 := sum_map_set (fun w : BrokerWorker => w.number_of_processed_messages_)
        p.consumer.workers_ i worker
        { worker with
          number_of_processed_messages_ := worker.number_of_processed_messages_ + 1 } hw
      have hsum2 := sum_map_set (fun t : WorkerThread => if t.message.isSome then 1 else 0)
        p.threads i thread { thread with message := none } ht
      simp only [hm, Option.isSome_none, Bool.false_eq_true, if_false, Option.isSome_some,
        if_true] at hsum1 hsum2
      refine ⟨?_, h2, ?_, ?_⟩
      · simp only at h1 ⊢
        omega
      · intro t htm x hx
        rcases mem_of_mem_set _ _ _ _ htm with htm | htm
        · exact h3 t htm x hx
        · rw [htm] at hx
          simp at hx
      · intro w hwm
        rcases mem_of_mem_set _ _ _ _ hwm with hwm | hwm
        · exact h4 w hwm
        · rw [hwm]
          exact h4 worker hwmem
  · intro e he
    exact ⟨fun message hm => hext message (hm ▸ he),
      fun i now net hn => hpub i now net (hn ▸ he)⟩
  · refine ⟨?_, ?_, ?_, ?_⟩
    · have h0 := sum_map_eq_zero (fun w : BrokerWorker => w.number_of_processed_messages_)
        consumer.workers_ (fun w hw => (hfresh w hw).1)
      have h1 := sum_map_eq_zero (fun t : WorkerThread => if t.message.isSome then 1 else 0)
        (consumer.workers_.map fun _ => ({ message := none, taken := [] } : WorkerThread))
        (fun t ht => by
          simp only [List.mem_map] at ht
          obtain ⟨_, _, rfl⟩ := ht
          rfl)
      simp only [Pool.start, h0, h1, List.length_nil]
    · intro x hx
      simp [Pool.start] at hx
    · intro t ht x hx
      simp only [Pool.start, List.mem_map] at ht
      obtain ⟨_, _, rfl⟩ := ht
      simp at hx
    · intro w hw
      exact (hfresh w hw).2

/-- C15 at three workers and nine accepted payloads: after the drain the sum of the processed
counters is `9`. -/
theorem C15_processed_sum_after_drain_witness :
    ∃ p, (Pool.start threeWorkers).run nineEvents = some p
      ∧ p.consumer.GetNumberOfProcessedMessages = 9 := by
  have hsome : ((Pool.start threeWorkers).run nineEvents).isSome = true := by decide
  have hqueue : ((Pool.start threeWorkers).run nineEvents).map
      (fun p => p.consumer.message_queue_) = some [] := by decide
  have hthreads : ((Pool.start threeWorkers).run nineEvents).map
      (fun p => p.threads.map fun t => t.message) = some [none, none, none] := by decide
  cases hrun : (Pool.start threeWorkers).run nineEvents with
  | none => rw [hrun] at hsome; simp at hsome
  | some p =>
    rw [hrun] at hqueue hthreads
    simp only [Option.map_some', Option.some.injEq] at hqueue hthreads
    refine ⟨p, rfl, ?_⟩
    have h := C15_processed_sum_after_drain threeWorkers [] nineEvents p
      (by
        intro w hw
        simp only [threeWorkers, List.mem_cons, List.mem_singleton, List.not_mem_nil,
          or_false] at hw
        rcases hw with rfl | rfl | rfl <;> exact ⟨rfl, rfl⟩)
      (by
        intro message hm
        have : message = "\x7b\"message_id\": \"abc123\"\x7d".toList := by
          simp only [nineEvents, List.mem_cons, PoolEvent.push.injEq, List.mem_singleton,
            reduceCtorEq, or_false, false_or, or_self, List.not_mem_nil] at hm
          exact hm
        exact ⟨{ message_id := "abc123".toList }, by rw [this]; decide⟩)
      (fun _ _ _ _ hne => absurd rfl hne)
      hrun hqueue
      (by
        intro t ht
        have hmem : t.message ∈ p.threads.map fun t => t.message := List.mem_map_of_mem _ ht
        rw [hthreads] at hmem
        simpa using hmem)
    rw [h]
    rfl

/-- C16: `RedisBrokerConsumer::GetNumberOfProcessedMessages` returns the sum over the workers of
the pool of what each worker's `GetNumberOfProcessedMessages` returns, its own processed
counter; it is `0` without workers, it depends on nothing but the workers, and the workers'
error counters do not enter it. -/
theorem C16_pool_total_is_sum (self : RedisBrokerConsumer) :
    self.GetNumberOfProcessedMessages
        = (self.workers_.map fun w => w.GetNumberOfProcessedMessages).sum
      ∧ (∀ w : BrokerWorker, w.GetNumberOfProcessedMessages = w.number_of_processed_messages_)
      ∧ ({ self with workers_ := [] } : RedisBrokerConsumer).GetNumberOfProcessedMessages = 0
      ∧ (∀ other : RedisBrokerConsumer, other.workers_ = self.workers_ →
          other.GetNumberOfProcessedMessages = self.GetNumberOfProcessedMessages)
      ∧ ∀ errors : BrokerWorker → Nat,
          ({ self with
              workers_ := self.workers_.map fun w =>
                { w with number_of_processing_errors_ := errors w } } :
            RedisBrokerConsumer).GetNumberOfProcessedMessages
          = self.GetNumberOfProcessedMessages := by
  refine ⟨GetNumberOfProcessedMessages_eq_sum self, fun _ => rfl, rfl, ?_, ?_⟩
  · intro other h
    rw [GetNumberOfProcessedMessages_eq_sum, GetNumberOfProcessedMessages_eq_sum, h]
  · intro errors
    rw [GetNumberOfProcessedMessages_eq_sum, GetNumberOfProcessedMessages_eq_sum]
    simp only [List.map_map]
    rfl

/-- C16 at workers that processed `4`, `5` and `0` payloads (and met `7`, `0` and `2` errors):
the pool answers `9`. -/
theorem C16_pool_total_is_sum_witness : countedWorkers.GetNumberOfProcessedMessages = 9 :=
  (C16_pool_total_is_sum countedWorkers).1.trans (by decide)

/-! ## `ValidateConfiguration` -/

/-- The value extracted into the `unsigned short` is at most `65535`. -/
theorem extract_unsigned_short_le (s : Str) : (extract_unsigned_short s).2 ≤ 65535 := by
  unfold extract_unsigned_short
  simp only
  split_ifs <;> simp only [Nat.zero_le, le_refl] <;> omega

/-- When the loop over the numeric parameters ends with `true`, every parameter it visited is
present and its text is the decimal text of a number up to `65535`. -/
theorem ValidateConfiguration_loop_true (config : Config) : ∀ (params : List Str) (ok : Bool),
    ValidateConfiguration.loop config params ok = some true →
      ok = true ∧ ∀ parameter ∈ params,
        ∃ n, n ≤ 65535 ∧ config.find parameter = some (to_string n) := by
  intro params
  induction params with
  | nil =>
    intro ok h
    simp only [ValidateConfiguration.loop, Option.some.injEq] at h
    exact ⟨h, fun _ hp => by simp at hp⟩
  | cons parameter rest ih =>
    intro ok h
    rw [ValidateConfiguration.loop] at h
    cases hf : config.find parameter with
    | none => simp [hf] at h
    | some value =>
      simp only [hf] at h
      by_cases hbad : ((extract_unsigned_short value).1
          || value != to_string (extract_unsigned_short value).2) = true
      · rw [if_pos hbad] at h
        exact absurd (ih false h).1 (by simp)
      · rw [if_neg hbad] at h
        obtain ⟨hok, hrest⟩ := ih ok h
        refine ⟨hok, ?_⟩
        intro q hq
        rcases List.mem_cons.mp hq with rfl | hq
        · refine ⟨(extract_unsigned_short value).2, extract_unsigned_short_le value, ?_⟩
          simp only [Bool.or_eq_true, bne_iff_ne, ne_eq, not_or, Decidable.not_not] at hbad
          rw [hf, ← hbad.2]
        · exact hrest q hq

theorem to_string_eq_zero (n : Nat) (h : "0".toList = to_string n) : n = 0 := by
  by_cases hn : n < 10
  · rw [to_string_of_lt hn] at h
    interval_cases n <;> first | rfl | (exact absurd h (by decide))
  · exfalso
    rw [to_string_of_ge (Nat.le_of_not_lt hn)] at h
    have hl := congrArg List.length h
    have := to_string_ne_nil (n / 10)
    have : 0 < (to_string (n / 10)).length := List.length_pos.mpr this
    simp only [List.length_append, List.length_singleton] at hl
    have h1 : ("0".toList).length = 1 := rfl
    omega

/-- C17, as stated, fails: the default configuration with the group size `0` is accepted, and
`0` is not the text of a positive integer. -/
theorem C17_counterexample :
    ValidateConfiguration zeroGroupConfig = true
      ∧ zeroGroupConfig.find CFG_KEY_GROUP_SIZE = some "0".toList
      ∧ ¬ ∃ n, 1 ≤ n ∧ "0".toList = to_string n := by
  have t0 : to_string 0 = "0".toList := by rw [to_string_of_lt (by decide)]; rfl
  have t3 : to_string 3 = "3".toList := by rw [to_string_of_lt (by decide)]; rfl
  have t6379 : to_string 6379 = "6379".toList := by
    rw [to_string_of_ge (by decide), to_string_of_ge (by decide), to_string_of_ge (by decide),
      to_string_of_lt (by decide)]
    rfl
  have hm : ([CFG_KEY_HOST, CFG_KEY_PORT, CFG_KEY_GROUP_SIZE, CFG_KEY_SUB_CHANNEL,
      CFG_KEY_PROC_STREAM, CFG_KEY_MONITORING_INTERVAL].filter
        fun key => (zeroGroupConfig.find key).isNone).isEmpty = true := by decide
  have f1 : zeroGroupConfig.find CFG_KEY_PORT = some "6379".toList := by decide
  have f2 : zeroGroupConfig.find CFG_KEY_GROUP_SIZE = some "0".toList := by decide
  have f3 : zeroGroupConfig.find CFG_KEY_MONITORING_INTERVAL = some "3".toList := by decide
  have e1 : extract_unsigned_short "6379".toList = (false, 6379) := by decide
  have e2 : extract_unsigned_short "0".toList = (false, 0) := by decide
  have e3 : extract_unsigned_short "3".toList = (false, 3) := by decide
  have hl : ValidateConfiguration.loop zeroGroupConfig
      [CFG_KEY_PORT, CFG_KEY_GROUP_SIZE, CFG_KEY_MONITORING_INTERVAL] true = some true := by
    rw [ValidateConfiguration.loop, f1]
    simp only [e1, t6379, bne_self_eq_false, Bool.or_self, Bool.false_eq_true, if_false]
    rw [ValidateConfiguration.loop, f2]
    simp only [e2, t0, bne_self_eq_false, Bool.or_self, Bool.false_eq_true, if_false]
    rw [ValidateConfiguration.loop, f3]
    simp only [e3, t3, bne_self_eq_false, Bool.or_self, Bool.false_eq_true, if_false]
    rfl
  refine ⟨?_, f2, ?_⟩
  · unfold ValidateConfiguration
    simp only [hm, hl, Bool.not_true, Bool.false_eq_true, if_false]
  · rintro ⟨n, hn, h⟩
    have h0 : n = 0 := to_string_eq_zero n h
    rw [h0] at hn
    exact absurd hn (by decide)

/-- C17, amended: every configuration that `ValidateConfiguration` accepts has all six keys,
and the values of the port, of the group size and of the monitoring interval are each the
decimal text of an integer from `0` to `65535`; the group size `0` is among them. -/
theorem C17_accepted_configuration (config : Config)
    (h : ValidateConfiguration config = true) :
    (∀ key ∈ [CFG_KEY_HOST, CFG_KEY_PORT, CFG_KEY_GROUP_SIZE, CFG_KEY_SUB_CHANNEL,
        CFG_KEY_PROC_STREAM, CFG_KEY_MONITORING_INTERVAL], ∃ value, config.find key = some value)
      ∧ (∃ n, n ≤ 65535 ∧ config.find CFG_KEY_PORT = some (to_string n))
      ∧ (∃ n, n ≤ 65535 ∧ config.find CFG_KEY_GROUP_SIZE = some (to_string n))
      ∧ (∃ n, n ≤ 65535 ∧ config.find CFG_KEY_MONITORING_INTERVAL = some (to_string n)) := by
  unfold ValidateConfiguration at h
  simp only at h
  split_ifs at h with hmiss
  cases hl : ValidateConfiguration.loop config
      [CFG_KEY_PORT, CFG_KEY_GROUP_SIZE, CFG_KEY_MONITORING_INTERVAL] true with
  | none => simp [hl] at h
  | some b =>
    simp only [hl] at h
    subst h
    obtain ⟨_, hall⟩ := ValidateConfiguration_loop_true config _ _ hl
    refine ⟨?_, hall _ (by simp), hall _ (by simp), hall _ (by simp)⟩
    intro key hkey
    simp only [Bool.not_eq_true', List.isEmpty_eq_false, Bool.not_eq_true, ne_eq,
      Decidable.not_not] at hmiss
    cases hf : config.find key with
    | some value => exact ⟨value, rfl⟩
    | none =>
      exfalso
      have hmem : key ∈ ([CFG_KEY_HOST, CFG_KEY_PORT, CFG_KEY_GROUP_SIZE, CFG_KEY_SUB_CHANNEL,
          CFG_KEY_PROC_STREAM, CFG_KEY_MONITORING_INTERVAL].filter
            fun key => (config.find key).isNone) :=
        List.mem_filter.mpr ⟨hkey, by simp [hf]⟩
      rw [hmiss] at hmem
      simp at hmem

/-- C17, amended, at the default configuration, which is accepted. -/
theorem C17_accepted_configuration_witness :
    ValidateConfiguration defaultConfig = true
      ∧ (∃ n, n ≤ 65535 ∧ defaultConfig.find CFG_KEY_PORT = some (to_string n))
      ∧ (∃ n, n ≤ 65535 ∧ defaultConfig.find CFG_KEY_GROUP_SIZE = some (to_string n))
      ∧ (∃ n, n ≤ 65535
          ∧ defaultConfig.find CFG_KEY_MONITORING_INTERVAL = some (to_string n)) := by
  have t1 : to_string 1 = "1".toList := by rw [to_string_of_lt (by decide)]; rfl
  have t3 : to_string 3 = "3".toList := by rw [to_string_of_lt (by decide)]; rfl
  have t6379 : to_string 6379 = "6379".toList := by
    rw [to_string_of_ge (by decide), to_string_of_ge (by decide), to_string_of_ge (by decide),
      to_string_of_lt (by decide)]
    rfl
  have hm : ([CFG_KEY_HOST, CFG_KEY_PORT, CFG_KEY_GROUP_SIZE, CFG_KEY_SUB_CHANNEL,
      CFG_KEY_PROC_STREAM, CFG_KEY_MONITORING_INTERVAL].filter
        fun key => (defaultConfig.find key).isNone).isEmpty = true := by decide
  have f1 : defaultConfig.find CFG_KEY_PORT = some "6379".toList := by decide
  have f2 : defaultConfig.find CFG_KEY_GROUP_SIZE = some "1".toList := by decide
  have f3 : defaultConfig.find CFG_KEY_MONITORING_INTERVAL = some "3".toList := by decide
  have e1 : extract_unsigned_short "6379".toList = (false, 6379) := by decide
  have e2 : extract_unsigned_short "1".toList = (false, 1) := by decide
  have e3 : extract_unsigned_short "3".toList = (false, 3) := by decide
  have hl : ValidateConfiguration.loop defaultConfig
      [CFG_KEY_PORT, CFG_KEY_GROUP_SIZE, CFG_KEY_MONITORING_INTERVAL] true = some true := by
    rw [ValidateConfiguration.loop, f1]
    simp only [e1, t6379, bne_self_eq_false, Bool.or_self, Bool.false_eq_true, if_false]
    rw [ValidateConfiguration.loop, f2]
    simp only [e2, t1, bne_self_eq_false, Bool.or_self, Bool.false_eq_true, if_false]
    rw [ValidateConfiguration.loop, f3]
    simp only [e3, t3, bne_self_eq_false, Bool.or_self, Bool.false_eq_true, if_false]
    rfl
  have hv : ValidateConfiguration defaultConfig = true := by
    unfold ValidateConfiguration
    simp only [hm, hl, Bool.not_true, Bool.false_eq_true, if_false]
  exact ⟨hv, (C17_accepted_configuration defaultConfig hv).2⟩

/-! ## One payload through either path -/

theorem find_last_of_loop_lt (s : Str) (c : Char) : ∀ k,
    find_last_of.loop s c k = npos ∨ find_last_of.loop s c k < s.length := by
  intro k
  induction k with
  | zero => exact Or.inl rfl
  | succ k ih =>
    rw [find_last_of.loop]
    split_ifs with h
    · right
      rw [List.get?_eq_some] at h
      exact h.1
    · exact ih

/-- The extractor never throws: the position handed to `substr` is inside the payload. -/
theorem JsonMessageProcessorImpl.ProcessMessage_total (json : Str) :
    JsonMessageProcessorImpl.ProcessMessage json ≠ none := by
  by_cases h1 : find json "message_id".toList = npos
  · simp only [JsonMessageProcessorImpl.ProcessMessage, h1, if_true]
    exact Option.some_ne_none _
  by_cases h2 : find_last_of json '"' = npos
  · simp only [JsonMessageProcessorImpl.ProcessMessage, h1, h2, if_false, ne_eq,
      not_true_eq_false]
    exact Option.some_ne_none _
  by_cases h3 : find_last_of json '"' (size_t_sub (find_last_of json '"') 1) = npos
  · simp only [JsonMessageProcessorImpl.ProcessMessage, h1, h2, h3, if_false, ne_eq,
      not_true_eq_false, not_false_eq_true, if_true]
    exact Option.some_ne_none _
  · have hlt : find_last_of json '"' (size_t_sub (find_last_of json '"') 1) < json.length := by
      unfold find_last_of at h3 ⊢
      split_ifs at h3 ⊢ with h0
      · exact absurd rfl h3
      · rcases find_last_of_loop_lt json '"' _ with h | h
        · exact absurd h h3
        · exact h
    have hpos : ¬ size_t_add (find_last_of json '"' (size_t_sub (find_last_of json '"') 1)) 1
        > json.length := by
      unfold size_t_add
      have := Nat.mod_le
        (find_last_of json '"' (size_t_sub (find_last_of json '"') 1) + 1) (2 ^ 64)
      omega
    simp only [JsonMessageProcessorImpl.ProcessMessage, h1, h2, h3, if_false, ne_eq,
      not_false_eq_true, if_true, substr, hpos, Option.map_some']
    exact Option.some_ne_none _

/-- One payload through the single consumer: exactly one counter grows by one and nothing else
changes, whatever the payload, the stream setting and the outcome of the publish. -/
theorem RedisConsumer.ProcessMessage_counts (self : RedisConsumer) (now payload : Str)
    (net : Transport)
    (hinv : self.processing_stream_ ≠ [] → self.write_connection_established_ = true) :
    ∃ sent,
      self.ProcessMessage now net payload
          = some ({ self with
              number_of_processed_messages_ := self.number_of_processed_messages_ + 1 }, sent)
        ∨ self.ProcessMessage now net payload
          = some ({ self with
              number_of_processing_errors_ := self.number_of_processing_errors_ + 1 }, sent) := by
  cases hext : JsonMessageProcessorImpl.ProcessMessage payload with
  | none => exact absurd hext (JsonMessageProcessorImpl.ProcessMessage_total payload)
  | some result =>
    cases result with
    | none => exact ⟨[], Or.inr (by simp only [RedisConsumer.ProcessMessage, hext])⟩
    | some m =>
      by_cases hs : self.processing_stream_ = []
      · exact ⟨[], Or.inl (RedisConsumer.ProcessMessage_no_stream self now payload net m hs hext)⟩
      · have h := RedisConsumer.ProcessMessage_publish self now payload net m hs (hinv hs) hext
        cases hp : net.published with
        | true => exact ⟨_, Or.inl (by rw [h, hp]; rfl)⟩
        | false => exact ⟨_, Or.inr (by rw [h, hp]; rfl)⟩

/-- One payload through the body of a worker's loop: exactly one counter grows by one and
nothing else changes. -/
theorem BrokerWorker.body_counts (w : BrokerWorker) (now payload : Str) (net : Transport) :
    ∃ sent,
      BrokerWorker.ProcessMessages.body w now net payload
          = some ({ w with
              number_of_processed_messages_ := w.number_of_processed_messages_ + 1 }, sent)
        ∨ BrokerWorker.ProcessMessages.body w now net payload
          = some ({ w with
              number_of_processing_errors_ := w.number_of_processing_errors_ + 1 }, sent) := by
  cases hext : JsonMessageProcessorImpl.ProcessMessage payload with
  | none => exact absurd hext (JsonMessageProcessorImpl.ProcessMessage_total payload)
  | some result =>
    cases result with
    | none => exact ⟨[], Or.inr (by simp only [BrokerWorker.ProcessMessages.body, hext])⟩
    | some m =>
      by_cases hs : w.processing_stream_name_ = []
      · exact ⟨[], Or.inl (BrokerWorker.body_no_stream w now payload net m hs hext)⟩
      · have h := BrokerWorker.body_publish w now payload net m hs hext
        cases hp : net.published with
        | true => exact ⟨_, Or.inl (by rw [h, hp]; rfl)⟩
        | false => exact ⟨_, Or.inr (by rw [h, hp]; rfl)⟩

/-- C18: with no target stream configured, a payload the extractor accepts is counted as
processed, once, by the single consumer, by the body of a worker's loop and by the pass of the
loop that takes it from the queue, and nothing is handed to `send`; indeed no payload at all
makes either path send anything. -/
theorem C18_no_stream_no_publish (payload : Str) (m : Message)
    (hext : JsonMessageProcessorImpl.ProcessMessage payload = some (some m)) :
    (∀ (self : RedisConsumer) (now : Str) (net : Transport), self.processing_stream_ = [] →
        self.ProcessMessage now net payload
          = some ({ self with
              number_of_processed_messages_ := self.number_of_processed_messages_ + 1 }, []))
      ∧ (∀ (w : BrokerWorker) (now : Str) (net : Transport), w.processing_stream_name_ = [] →
        BrokerWorker.ProcessMessages.body w now net payload
          = some ({ w with
              number_of_processed_messages_ := w.number_of_processed_messages_ + 1 }, []))
      ∧ (∀ (w : BrokerWorker) (now : Str) (net : Transport) (rest : List Str),
        w.processing_stream_name_ = [] → w.stop_ = false →
        BrokerWorker.ProcessMessages.iteration w now net (payload :: rest)
          = .handled { w with
              number_of_processed_messages_ := w.number_of_processed_messages_ + 1 } rest [])
      ∧ (∀ (any : Str) (self : RedisConsumer) (now : Str) (net : Transport),
        self.processing_stream_ = [] →
        (self.ProcessMessage now net any).map Prod.snd = some [])
      ∧ ∀ (any : Str) (w : BrokerWorker) (now : Str) (net : Transport),
        w.processing_stream_name_ = [] →
        (BrokerWorker.ProcessMessages.body w now net any).map Prod.snd = some [] := by
  refine ⟨?_, ?_, ?_, ?_, ?_⟩
  · intro self now net hs
    exact RedisConsumer.ProcessMessage_no_stream self now payload net m hs hext
  · intro w now net hs
    exact BrokerWorker.body_no_stream w now payload net m hs hext
  · intro w now net rest hs hstop
    simp only [BrokerWorker.ProcessMessages.iteration, hstop, Bool.false_eq_true, if_false,
      BrokerWorker.body_no_stream w now payload net m hs hext]
  · intro any self now net hs
    cases hany : JsonMessageProcessorImpl.ProcessMessage any with
    | none => exact absurd hany (JsonMessageProcessorImpl.ProcessMessage_total any)
    | some result =>
      cases result with
      | none => simp only [RedisConsumer.ProcessMessage, hany, Option.map_some']
      | some m' =>
        rw [RedisConsumer.ProcessMessage_no_stream self now any net m' hs hany]
        rfl
  · intro any w now net hs
    cases hany : JsonMessageProcessorImpl.ProcessMessage any with
    | none => exact absurd hany (JsonMessageProcessorImpl.ProcessMessage_total any)
    | some result =>
      cases result with
      | none => simp only [BrokerWorker.ProcessMessages.body, hany, Option.map_some']
      | some m' =>
        rw [BrokerWorker.body_no_stream w now any net m' hs hany]
        rfl

/-- C18 at the payload `\x7b"message_id": "abc123"\x7d`: the consumer that has not been given
a stream ends with one processed payload, no error and nothing sent, whatever the transport
would answer. -/
theorem C18_no_stream_no_publish_witness :
    (sampleConsumer.ProcessMessage [] (replyTransport (.error "ERR".toList))
        "\x7b\"message_id\": \"abc123\"\x7d".toList).map
      (fun r => (r.1.number_of_processed_messages_, r.1.number_of_processing_errors_, r.2))
      = some (1, 0, []) := by
  rw [(C18_no_stream_no_publish "\x7b\"message_id\": \"abc123\"\x7d".toList
    { message_id := "abc123".toList } (by decide)).1 sampleConsumer []
    (replyTransport (.error "ERR".toList)) rfl]
  rfl

/-- The single consumer handles every list of payloads to its end, and its two counters
together grow by the number of payloads, none of them shrinking. -/
theorem RedisConsumer.handleAll_counts : ∀ (inputs : List (Str × Str × Transport))
    (self : RedisConsumer),
    (self.processing_stream_ ≠ [] → self.write_connection_established_ = true) →
    ∃ state, self.handleAll inputs = some state
      ∧ state.number_of_processed_messages_ + state.number_of_processing_errors_
          = self.number_of_processed_messages_ + self.number_of_processing_errors_
            + inputs.length
      ∧ self.number_of_processed_messages_ ≤ state.number_of_processed_messages_
      ∧ self.number_of_processing_errors_ ≤ state.number_of_processing_errors_ := by
  intro inputs
  induction inputs with
  | nil => intro self _; exact ⟨self, rfl, rfl, le_refl _, le_refl _⟩
  | cons input rest ih =>
    intro self hinv
    obtain ⟨payload, now, net⟩ := input
    obtain ⟨sent, h | h⟩ := RedisConsumer.ProcessMessage_counts self now payload net hinv
    · obtain ⟨state, h1, h2, h3, h4⟩ := ih
        { self with
          number_of_processed_messages_ := self.number_of_processed_messages_ + 1 } hinv
      refine ⟨state, by simp only [RedisConsumer.handleAll, h, h1], ?_, ?_, ?_⟩
      · simp only [List.length_cons] at h2 ⊢; omega
      · simp only at h3; omega
      · exact h4
    · obtain ⟨state, h1, h2, h3, h4⟩ := ih
        { self with
          number_of_processing_errors_ := self.number_of_processing_errors_ + 1 } hinv
      refine ⟨state, by simp only [RedisConsumer.handleAll, h, h1], ?_, ?_, ?_⟩
      · simp only [List.length_cons] at h2 ⊢; omega
      · exact h3
      · simp only at h4; omega

/-- A worker handles every list of payloads to its end, with the counters as in
`RedisConsumer.handleAll_counts`. -/
theorem BrokerWorker.worker_handleAll_counts : ∀ (inputs : List (Str × Str × Transport))
    (w : BrokerWorker),
    ∃ state, w.handleAll inputs = some state
      ∧ state.number_of_processed_messages_ + state.number_of_processing_errors_
          = w.number_of_processed_messages_ + w.number_of_processing_errors_ + inputs.length
      ∧ w.number_of_processed_messages_ ≤ state.number_of_processed_messages_
      ∧ w.number_of_processing_errors_ ≤ state.number_of_processing_errors_ := by
  intro inputs
  induction inputs with
  | nil => intro w; exact ⟨w, rfl, rfl, le_refl _, le_refl _⟩
  | cons input rest ih =>
    intro w
    obtain ⟨payload, now, net⟩ := input
    obtain ⟨sent, h | h⟩ := BrokerWorker.body_counts w now payload net
    · obtain ⟨state, h1, h2, h3, h4⟩ := ih
        { w with number_of_processed_messages_ := w.number_of_processed_messages_ + 1 }
      refine ⟨state, by simp only [BrokerWorker.handleAll, h, h1], ?_, ?_, ?_⟩
      · simp only [List.length_cons] at h2 ⊢; omega
      · simp only at h3; omega
      · exact h4
    · obtain ⟨state, h1, h2, h3, h4⟩ := ih
        { w with number_of_processing_errors_ := w.number_of_processing_errors_ + 1 }
      refine ⟨state, by simp only [BrokerWorker.handleAll, h, h1], ?_, ?_, ?_⟩
      · simp only [List.length_cons] at h2 ⊢; omega
      · exact h3
      · simp only at h4; omega

/-- When `send` returns, the body of the worker's loop does what it does on the outcomes of
the round trip. -/
theorem body_sending_returns (w : BrokerWorker) (now payload : Str) (net : Transport) :
    BrokerWorker.ProcessMessages.body.sending w now (.returns net) payload
      = BrokerWorker.ProcessMessages.body w now net payload := by
  unfold BrokerWorker.ProcessMessages.body.sending BrokerWorker.ProcessMessages.body
  cases JsonMessageProcessorImpl.ProcessMessage payload with
  | none => rfl
  | some result =>
    cases result with
    | none => rfl
    | some m =>
      simp only [BrokerWorker.AddDataToStream.sending]
      split_ifs
      · cases CreateWriteMessageToStreamCommand_Message w.processing_stream_name_
            { m with processor_id := w.id_, processing_date_time := now,
                     source_channel_name := w.source_channel_name_ } with
        | none => rfl
        | some command =>
          simp only
          rcases hr : w.AddDataToStream net command with ⟨ok, sent⟩
          cases ok <;> rfl
      · rfl

/-- When `send` returns, `RedisConsumer::ProcessMessage` does what it does on the outcomes of
the round trip. -/
theorem ProcessMessage_sending_returns (self : RedisConsumer) (now payload : Str)
    (net : Transport) :
    RedisConsumer.ProcessMessage.sending self now (.returns net) payload
      = self.ProcessMessage now net payload := by
  unfold RedisConsumer.ProcessMessage.sending RedisConsumer.ProcessMessage
  simp only [RedisConsumer.AddDataToStream.sending]

/-- When every `send` returns, handling a list of payloads is as on the outcomes of the round
trips. -/
theorem worker_handleAll_sending_returns : ∀ (inputs : List (Str × Str × Transport))
    (w : BrokerWorker),
    BrokerWorker.handleAll.sending w (inputs.map fun e => (e.1, e.2.1, Sending.returns e.2.2))
      = w.handleAll inputs := by
  intro inputs
  induction inputs with
  | nil => intro w; rfl
  | cons e rest ih =>
    intro w
    obtain ⟨payload, now, net⟩ := e
    simp only [List.map_cons, BrokerWorker.handleAll.sending, BrokerWorker.handleAll,
      body_sending_returns]
    cases BrokerWorker.ProcessMessages.body w now net payload with
    | none => rfl
    | some r => exact ih r.1

/-- The same for the single consumer. -/
theorem single_handleAll_sending_returns : ∀ (inputs : List (Str × Str × Transport))
    (self : RedisConsumer),
    RedisConsumer.handleAll.sending self
        (inputs.map fun e => (e.1, e.2.1, Sending.returns e.2.2))
      = self.handleAll inputs := by
  intro inputs
  induction inputs with
  | nil => intro self; rfl
  | cons e rest ih =>
    intro self
    obtain ⟨payload, now, net⟩ := e
    simp only [List.map_cons, RedisConsumer.handleAll.sending, RedisConsumer.handleAll,
      ProcessMessage_sending_returns]
    cases self.ProcessMessage now net payload with
    | none => rfl
    | some r => exact ih r.1

/-- A worker with a stream whose `send` raises SIGPIPE on a payload the extractor accepts: the
process ends in the body of the loop. -/
theorem body_sending_sigpipe (w : BrokerWorker) (now payload : Str) (m : Message)
    (hs : w.processing_stream_name_ ≠ [])
    (hext : JsonMessageProcessorImpl.ProcessMessage payload = some (some m)) :
    BrokerWorker.ProcessMessages.body.sending w now .sigpipe payload = none := by
  have h1 : w.processing_stream_name_.isEmpty = false := by
    cases h : w.processing_stream_name_ <;> simp_all
  simp only [BrokerWorker.ProcessMessages.body.sending, hext, h1, Bool.not_false, if_true,
    message_command_eq _ _ hs, BrokerWorker.AddDataToStream.sending]

/-- The same for the single consumer. -/
theorem ProcessMessage_sending_sigpipe (self : RedisConsumer) (now payload : Str) (m : Message)
    (hs : self.processing_stream_ ≠ [])
    (hext : JsonMessageProcessorImpl.ProcessMessage payload = some (some m)) :
    RedisConsumer.ProcessMessage.sending self now .sigpipe payload = none := by
  have h1 : self.processing_stream_.isEmpty = false := by
    cases h : self.processing_stream_ <;> simp_all
  simp only [RedisConsumer.ProcessMessage.sending, hext, h1, Bool.not_false, if_true,
    message_command_eq _ _ hs, RedisConsumer.AddDataToStream.sending]

/-- A worker with a stream does not reach the end of a list of payloads in which the `send` for
a payload the extractor accepts raises SIGPIPE, whatever was handled before it. -/
theorem worker_handleAll_sending_ends (payload now : Str) (m : Message)
    (hext : JsonMessageProcessorImpl.ProcessMessage payload = some (some m))
    (later : List (Str × Str × Sending)) : ∀ (before : List (Str × Str × Transport))
    (w : BrokerWorker), w.processing_stream_name_ ≠ [] →
    BrokerWorker.handleAll.sending w
        ((before.map fun e => (e.1, e.2.1, Sending.returns e.2.2))
          ++ (payload, now, Sending.sigpipe) :: later) = none := by
  intro before
  induction before with
  | nil =>
    intro w hs
    simp only [List.map_nil, List.nil_append, BrokerWorker.handleAll.sending,
      body_sending_sigpipe w now payload m hs hext]
  | cons e rest ih =>
    intro w hs
    obtain ⟨payload', now', net⟩ := e
    simp only [List.map_cons, List.cons_append, BrokerWorker.handleAll.sending,
      body_sending_returns]
    obtain ⟨sent, h | h⟩ := BrokerWorker.body_counts w now' payload' net
    · simp only [h]; exact ih _ hs
    · simp only [h]; exact ih _ hs

/-- The same for the single consumer, whose write connection is open when it has a stream. -/
theorem single_handleAll_sending_ends (payload now : Str) (m : Message)
    (hext : JsonMessageProcessorImpl.ProcessMessage payload = some (some m))
    (later : List (Str × Str × Sending)) : ∀ (before : List (Str × Str × Transport))
    (self : RedisConsumer), self.processing_stream_ ≠ [] →
    self.write_connection_established_ = true →
    RedisConsumer.handleAll.sending self
        ((before.map fun e => (e.1, e.2.1, Sending.returns e.2.2))
          ++ (payload, now, Sending.sigpipe) :: later) = none := by
  intro before
  induction before with
  | nil =>
    intro self hs _
    simp only [List.map_nil, List.nil_append, RedisConsumer.handleAll.sending,
      ProcessMessage_sending_sigpipe self now payload m hs hext]
  | cons e rest ih =>
    intro self hs hc
    obtain ⟨payload', now', net⟩ := e
    simp only [List.map_cons, List.cons_append, RedisConsumer.handleAll.sending,
      ProcessMessage_sending_returns]
    obtain ⟨sent, h | h⟩ := RedisConsumer.ProcessMessage_counts self now' payload' net
      (fun _ => hc)
    · simp only [h]; exact ih _ hs hc
    · simp only [h]; exact ih _ hs hc

/-- C19 does not hold for every publish outcome.  When the `send` of a publish raises SIGPIPE
(a worker or a consumer with a stream, a payload the extractor accepts, the connection closed
by the peer), the process ends there: neither counter is incremented, and the loop does not
reach the payloads that follow, whatever was handled before.  When every `send` returns, the
claim holds: handling one payload (any payload, any stream setting, any outcome of the round
trip) adds one to exactly one of the two counters and changes nothing else, and over any list
of payloads the loop reaches the end, neither counter shrinks, and processed plus errors grows
by the number of payloads. -/
theorem C19_sigpipe_ends_the_loop (payload now : Str) (m : Message)
    (hext : JsonMessageProcessorImpl.ProcessMessage payload = some (some m)) :
    (∀ w : BrokerWorker, w.processing_stream_name_ ≠ [] →
        BrokerWorker.ProcessMessages.body.sending w now .sigpipe payload = none
        ∧ ∀ (before : List (Str × Str × Transport)) (later : List (Str × Str × Sending)),
            BrokerWorker.handleAll.sending w
              ((before.map fun e => (e.1, e.2.1, Sending.returns e.2.2))
                ++ (payload, now, Sending.sigpipe) :: later) = none)
      ∧ (∀ self : RedisConsumer, self.processing_stream_ ≠ [] →
        self.write_connection_established_ = true →
        RedisConsumer.ProcessMessage.sending self now .sigpipe payload = none
        ∧ ∀ (before : List (Str × Str × Transport)) (later : List (Str × Str × Sending)),
            RedisConsumer.handleAll.sending self
              ((before.map fun e => (e.1, e.2.1, Sending.returns e.2.2))
                ++ (payload, now, Sending.sigpipe) :: later) = none)
      ∧ (∀ (w : BrokerWorker) (now' payload' : Str) (net : Transport)
          (inputs : List (Str × Str × Transport)),
        (∃ sent,
          BrokerWorker.ProcessMessages.body.sending w now' (.returns net) payload'
              = some ({ w with
                  number_of_processed_messages_ := w.number_of_processed_messages_ + 1 }, sent)
            ∨ BrokerWorker.ProcessMessages.body.sending w now' (.returns net) payload'
              = some ({ w with
                  number_of_processing_errors_ := w.number_of_processing_errors_ + 1 }, sent))
        ∧ ∃ state,
          BrokerWorker.handleAll.sending w
              (inputs.map fun e => (e.1, e.2.1, Sending.returns e.2.2)) = some state
          ∧ state.number_of_processed_messages_ + state.number_of_processing_errors_
              = w.number_of_processed_messages_ + w.number_of_processing_errors_
                + inputs.length
          ∧ w.number_of_processed_messages_ ≤ state.number_of_processed_messages_
          ∧ w.number_of_processing_errors_ ≤ state.number_of_processing_errors_)
      ∧ ∀ (self : RedisConsumer) (now' payload' : Str) (net : Transport)
          (inputs : List (Str × Str × Transport)),
        (self.processing_stream_ ≠ [] → self.write_connection_established_ = true) →
        (∃ sent,
          RedisConsumer.ProcessMessage.sending self now' (.returns net) payload'
              = some ({ self with
                  number_of_processed_messages_ := self.number_of_processed_messages_ + 1 },
                sent)
            ∨ RedisConsumer.ProcessMessage.sending self now' (.returns net) payload'
              = some ({ self with
                  number_of_processing_errors_ := self.number_of_processing_errors_ + 1 },
                sent))
        ∧ ∃ state,
          RedisConsumer.handleAll.sending self
              (inputs.map fun e => (e.1, e.2.1, Sending.returns e.2.2)) = some state
          ∧ state.number_of_processed_messages_ + state.number_of_processing_errors_
              = self.number_of_processed_messages_ + self.number_of_processing_errors_
                + inputs.length
          ∧ self.number_of_processed_messages_ ≤ state.number_of_processed_messages_
          ∧ self.number_of_processing_errors_ ≤ state.number_of_processing_errors_ := by
  refine ⟨?_, ?_, ?_, ?_⟩
  · intro w hs
    exact ⟨body_sending_sigpipe w now payload m hs hext,
      fun before later => worker_handleAll_sending_ends payload now m hext later before w hs⟩
  · intro self hs hc
    exact ⟨ProcessMessage_sending_sigpipe self now payload m hs hext,
      fun before later =>
        single_handleAll_sending_ends payload now m hext later before self hs hc⟩
  · intro w now' payload' net inputs
    rw [body_sending_returns, worker_handleAll_sending_returns]
    exact ⟨BrokerWorker.body_counts w now' payload' net,
      BrokerWorker.worker_handleAll_counts inputs w⟩
  · intro self now' payload' net inputs hinv
    rw [ProcessMessage_sending_returns, single_handleAll_sending_returns]
    exact ⟨RedisConsumer.ProcessMessage_counts self now' payload' net hinv,
      RedisConsumer.handleAll_counts inputs self hinv⟩

/-- C19 at `sampleWorker` and two payloads `{"message_id": "abc123"}` on a connection the peer
has closed: on the first the `send` returns and `recv` reads no bytes, which counts one error;
on the second the `send` raises SIGPIPE and the process ends, so the worker does not reach the
end of the list. -/
theorem C19_sigpipe_ends_the_loop_witness :
    BrokerWorker.handleAll.sending sampleWorker
        [("\x7b\"message_id\": \"abc123\"\x7d".toList, [], .returns closedTransport),
         ("\x7b\"message_id\": \"abc123\"\x7d".toList, [], .sigpipe)] = none
      ∧ BrokerWorker.ProcessMessages.body.sending sampleWorker [] .sigpipe
          "\x7b\"message_id\": \"abc123\"\x7d".toList = none :=
  ⟨((C19_sigpipe_ends_the_loop "\x7b\"message_id\": \"abc123\"\x7d".toList []
      { message_id := "abc123".toList } (by decide)).1 sampleWorker (by decide)).2
      [("\x7b\"message_id\": \"abc123\"\x7d".toList, [], closedTransport)] [],
   ((C19_sigpipe_ends_the_loop "\x7b\"message_id\": \"abc123\"\x7d".toList []
      { message_id := "abc123".toList } (by decide)).1 sampleWorker (by decide)).1⟩

/-- C20: on the same payload, with the same subscribed channel, target stream, time, processor
id and transport outcomes, `RedisConsumer::ProcessMessage` (its write connection open whenever
it has a stream) and the body of `BrokerWorker::ProcessMessages` hand the same buffers to
`send` (the same publish command, or none) and add the same amounts to their processed and
error counters, changing nothing else. -/
theorem C20_single_and_worker_agree (self : RedisConsumer) (w : BrokerWorker)
    (now payload : Str) (net : Transport) (hid : self.id_ = w.id_)
    (hchannel : self.subsciption_channel_ = w.source_channel_name_)
    (hstream : self.processing_stream_ = w.processing_stream_name_)
    (hinv : self.processing_stream_ ≠ [] → self.write_connection_established_ = true) :
    ∃ (processed errors : Nat) (sent : List Str),
      self.ProcessMessage now net payload
          = some ({ self with
              number_of_processed_messages_ := self.number_of_processed_messages_ + processed
              number_of_processing_errors_ := self.number_of_processing_errors_ + errors },
            sent)
        ∧ BrokerWorker.ProcessMessages.body w now net payload
          = some ({ w with
              number_of_processed_messages_ := w.number_of_processed_messages_ + processed
              number_of_processing_errors_ := w.number_of_processing_errors_ + errors },
            sent) := by
  cases hext : JsonMessageProcessorImpl.ProcessMessage payload with
  | none => exact absurd hext (JsonMessageProcessorImpl.ProcessMessage_total payload)
  | some result =>
    cases result with
    | none =>
      exact ⟨0, 1, [], by simp only [RedisConsumer.ProcessMessage, hext, Nat.add_zero],
        by simp only [BrokerWorker.ProcessMessages.body, hext, Nat.add_zero]⟩
    | some m =>
      by_cases hs : self.processing_stream_ = []
      · exact ⟨1, 0, [],
          by rw [RedisConsumer.ProcessMessage_no_stream self now payload net m hs hext]; rfl,
          by rw [BrokerWorker.body_no_stream w now payload net m (hstream ▸ hs) hext]; rfl⟩
      · have h1 := RedisConsumer.ProcessMessage_publish self now payload net m hs (hinv hs) hext
        have h2 := BrokerWorker.body_publish w now payload net m (hstream ▸ hs) hext
        have hL : [respArray ["XADD".toList, self.processing_stream_, "*".toList,
              "Processor_id".toList, to_string_int self.id_,
              "Processing_date_time".toList, now,
              "Source_channel_name".toList, self.subsciption_channel_,
              "Message_id".toList, m.message_id]]
            = [respArray ["XADD".toList, w.processing_stream_name_, "*".toList,
              "Processor_id".toList, to_string_int w.id_,
              "Processing_date_time".toList, now,
              "Source_channel_name".toList, w.source_channel_name_,
              "Message_id".toList, m.message_id]] := by
          rw [hid, hchannel, hstream]
        rw [hL] at h1
        cases hp : net.published with
        | true => exact ⟨1, 0, _, by rw [h1, hp]; rfl, by rw [h2, hp]; rfl⟩
        | false => exact ⟨0, 1, _, by rw [h1, hp]; rfl, by rw [h2, hp]; rfl⟩

/-- C20 at the consumer subscribed to `messages:published` with the stream
`messages:processed` and the worker `sampleWorker` of the same settings. -/
theorem C20_single_and_worker_agree_witness :
    ∃ (processed errors : Nat) (sent : List Str),
      (RedisConsumer.SubscribeToChannel.setup sampleConsumer "messages:published".toList
            "messages:processed".toList).ProcessMessage [] (okTransport [])
            "\x7b\"message_id\": \"abc123\"\x7d".toList
          = some ({ RedisConsumer.SubscribeToChannel.setup sampleConsumer
                "messages:published".toList "messages:processed".toList with
              number_of_processed_messages_ := 0 + processed
              number_of_processing_errors_ := 0 + errors }, sent)
        ∧ BrokerWorker.ProcessMessages.body sampleWorker [] (okTransport [])
            "\x7b\"message_id\": \"abc123\"\x7d".toList
          = some ({ sampleWorker with
              number_of_processed_messages_ := 0 + processed
              number_of_processing_errors_ := 0 + errors }, sent) :=
  C20_single_and_worker_agree
    (RedisConsumer.SubscribeToChannel.setup sampleConsumer "messages:published".toList
      "messages:processed".toList) sampleWorker [] "\x7b\"message_id\": \"abc123\"\x7d".toList
    (okTransport []) rfl rfl rfl (fun _ => rfl)

/-! ## Stopping a worker -/

/-- A worker that has left its loop stays out of it. -/
theorem advanceAll_exited (t : WorkerLoop) (h : t.point = .exited) :
    ∀ envs, BrokerWorker.ProcessMessages.advanceAll t envs = some t := by
  intro envs
  induction envs with
  | nil => rfl
  | cons e envs ih =>
    obtain ⟨q, now, net⟩ := e
    rw [BrokerWorker.ProcessMessages.advanceAll]
    simp only [BrokerWorker.ProcessMessages.advance, h]
    exact ih

/-- A stopped worker at the loop test leaves the loop, whatever the queue holds. -/
theorem advanceAll_test (t : WorkerLoop) (hstop : t.worker.stop_ = true) (h : t.point = .test)
    (e : List Str × Str × Transport) (envs : List (List Str × Str × Transport)) :
    BrokerWorker.ProcessMessages.advanceAll t (e :: envs) = some { t with point := .exited } := by
  obtain ⟨q, now, net⟩ := e
  rw [BrokerWorker.ProcessMessages.advanceAll]
  simp only [BrokerWorker.ProcessMessages.advance, h, hstop, if_true]
  exact advanceAll_exited _ rfl envs

/-- A stopped worker that holds a payload finishes the iteration on it, counts it, and leaves
the loop at the test that follows. -/
theorem advanceAll_holding (t : WorkerLoop) (hstop : t.worker.stop_ = true) (message : Str)
    (h : t.point = .holding message) (e1 e2 : List Str × Str × Transport)
    (envs : List (List Str × Str × Transport)) :
    ∃ worker : BrokerWorker,
      (worker = { t.worker with
          number_of_processed_messages_ := t.worker.number_of_processed_messages_ + 1 }
        ∨ worker = { t.worker with
          number_of_processing_errors_ := t.worker.number_of_processing_errors_ + 1 })
      ∧ BrokerWorker.ProcessMessages.advanceAll t (e1 :: e2 :: envs)
        = some { worker := worker, point := .exited, handled := t.handled ++ [message] } := by
  obtain ⟨q1, now1, net1⟩ := e1
  obtain ⟨sent, hb⟩ := BrokerWorker.body_counts t.worker now1 message net1
  rcases hb with hb | hb
  · refine ⟨_, Or.inl rfl, ?_⟩
    rw [BrokerWorker.ProcessMessages.advanceAll]
    simp only [BrokerWorker.ProcessMessages.advance, h, hb]
    refine advanceAll_test _ ?_ ?_ e2 envs
    · exact hstop
    · rfl
  · refine ⟨_, Or.inr rfl, ?_⟩
    rw [BrokerWorker.ProcessMessages.advanceAll]
    simp only [BrokerWorker.ProcessMessages.advance, h, hb]
    refine advanceAll_test _ ?_ ?_ e2 envs
    · exact hstop
    · rfl

/-- A stopped worker in its critical section that meets an empty queue leaves the loop. -/
theorem advanceAll_critical_empty (t : WorkerLoop) (hstop : t.worker.stop_ = true)
    (h : t.point = .critical) (now : Str) (net : Transport)
    (envs : List (List Str × Str × Transport)) :
    BrokerWorker.ProcessMessages.advanceAll t (([], now, net) :: envs)
      = some { t with point := .exited } := by
  rw [BrokerWorker.ProcessMessages.advanceAll]
  simp only [BrokerWorker.ProcessMessages.advance, h, BrokerWorker.ProcessMessages.dequeue, hstop,
    if_true]
  exact advanceAll_exited _ rfl envs

/-- A stopped worker in its critical section that meets a payload takes it, finishes the
iteration on it, and leaves the loop at the test that follows. -/
theorem advanceAll_critical_cons (t : WorkerLoop) (hstop : t.worker.stop_ = true)
    (h : t.point = .critical) (message : Str) (rest : List Str) (now : Str) (net : Transport)
    (e2 e3 : List Str × Str × Transport) (envs : List (List Str × Str × Transport)) :
    ∃ worker : BrokerWorker,
      (worker = { t.worker with
          number_of_processed_messages_ := t.worker.number_of_processed_messages_ + 1 }
        ∨ worker = { t.worker with
          number_of_processing_errors_ := t.worker.number_of_processing_errors_ + 1 })
      ∧ BrokerWorker.ProcessMessages.advanceAll t ((message :: rest, now, net) :: e2 :: e3 :: envs)
        = some { worker := worker, point := .exited, handled := t.handled ++ [message] } := by
  obtain ⟨worker, hw, hrun⟩ :=
    advanceAll_holding { t with point := .holding message } hstop message rfl e2 e3 envs
  refine ⟨worker, hw, ?_⟩
  rw [BrokerWorker.ProcessMessages.advanceAll]
  simp only [BrokerWorker.ProcessMessages.advance, h, BrokerWorker.ProcessMessages.dequeue]
  exact hrun

/-- One action of a stopped worker: the flag stays set, the queue loses at most its front, and
only a worker past its loop test that holds no payload takes one. -/
theorem advance_stopped (t t' : WorkerLoop) (queue queue' : List Str) (now : Str)
    (net : Transport) (hstop : t.worker.stop_ = true)
    (h : BrokerWorker.ProcessMessages.advance t queue now net = some (t', queue')) :
    t'.worker.stop_ = true
      ∧ ∃ taken, queue = taken ++ queue'
          ∧ taken.length + t'.point.canTake ≤ t.point.canTake := by
  cases hp : t.point with
  | test =>
    simp only [BrokerWorker.ProcessMessages.advance, hp, hstop, if_true, Option.some.injEq,
      Prod.mk.injEq] at h
    obtain ⟨h1, h2⟩ := h
    subst h1 h2
    exact ⟨hstop, [], rfl, by simp [LoopPoint.canTake]⟩
  | critical =>
    cases queue with
    | nil =>
      simp only [BrokerWorker.ProcessMessages.advance, hp, BrokerWorker.ProcessMessages.dequeue,
        hstop, if_true, Option.some.injEq, Prod.mk.injEq] at h
      obtain ⟨h1, h2⟩ := h
      subst h1 h2
      exact ⟨hstop, [], rfl, by simp [LoopPoint.canTake]⟩
    | cons m rest =>
      simp only [BrokerWorker.ProcessMessages.advance, hp, BrokerWorker.ProcessMessages.dequeue,
        Option.some.injEq, Prod.mk.injEq] at h
      obtain ⟨h1, h2⟩ := h
      subst h1 h2
      exact ⟨hstop, [m], rfl, by simp [LoopPoint.canTake]⟩
  | blocking =>
    simp only [BrokerWorker.ProcessMessages.advance, hp, Option.some.injEq, Prod.mk.injEq] at h
    obtain ⟨h1, h2⟩ := h
    subst h1 h2
    exact ⟨hstop, [], rfl, by simp [LoopPoint.canTake]⟩
  | blocked =>
    simp only [BrokerWorker.ProcessMessages.advance, hp, Option.some.injEq, Prod.mk.injEq] at h
    obtain ⟨h1, h2⟩ := h
    subst h1 h2
    exact ⟨hstop, [], rfl, by simp [LoopPoint.canTake, hp]⟩
  | holding m =>
    obtain ⟨sent, hb⟩ := BrokerWorker.body_counts t.worker now m net
    rcases hb with hb | hb
    all_goals
      simp only [BrokerWorker.ProcessMessages.advance, hp, hb, Option.some.injEq,
        Prod.mk.injEq] at h
      obtain ⟨h1, h2⟩ := h
      subst h1 h2
      exact ⟨hstop, [], rfl, by simp [LoopPoint.canTake]⟩
  | exited =>
    simp only [BrokerWorker.ProcessMessages.advance, hp, Option.some.injEq, Prod.mk.injEq] at h
    obtain ⟨h1, h2⟩ := h
    subst h1 h2
    exact ⟨hstop, [], rfl, by simp [LoopPoint.canTake, hp]⟩

/-- One step of a pool whose workers are all stopped: they stay stopped, the queue loses at
most its front, and what it loses is paid by a worker that was past its loop test. -/
theorem StoppingPool.step_stopped (p q : StoppingPool) (e : StopEvent)
    (hstop : ∀ t ∈ p.threads, t.worker.stop_ = true) (h : p.step e = some q) :
    (∀ t ∈ q.threads, t.worker.stop_ = true)
      ∧ ∃ taken, p.message_queue_ = taken ++ q.message_queue_
          ∧ taken.length + (q.threads.map fun t => t.point.canTake).sum
              ≤ (p.threads.map fun t => t.point.canTake).sum := by
  cases e with
  | stop i =>
    cases ht : p.threads.get? i with
    | none => simp only [StoppingPool.step, ht] at h; exact absurd h (by simp)
    | some t =>
      simp only [StoppingPool.step, ht, Option.some.injEq] at h
      subst h
      refine ⟨?_, [], rfl, ?_⟩
      · intro u hu
        rcases mem_of_mem_set _ _ _ _ hu with hu | hu
        · exact hstop u hu
        · subst hu; rfl
      · have hs := sum_map_set (fun t : WorkerLoop => t.point.canTake) p.threads i t
          { t with worker := t.worker.Stop } ht
        simp only at hs
        show 0 + (List.map (fun t : WorkerLoop => t.point.canTake)
            (p.threads.set i { t with worker := t.worker.Stop })).sum ≤ _
        have he : ({ t with worker := t.worker.Stop } : WorkerLoop).point.canTake
            = t.point.canTake := rfl
        omega
  | notify_all =>
    simp only [StoppingPool.step, Option.some.injEq] at h
    subst h
    refine ⟨?_, [], rfl, ?_⟩
    · intro u hu
      simp only [List.mem_map] at hu
      obtain ⟨t, ht, rfl⟩ := hu
      have := hstop t ht
      unfold WorkerLoop.notified
      split <;> exact this
    · have hm : (List.map (fun t : WorkerLoop => t.point.canTake)
            (List.map WorkerLoop.notified p.threads))
          = List.map (fun t : WorkerLoop => t.point.canTake) p.threads := by
        rw [List.map_map]
        apply List.map_congr_left
        intro t _
        simp only [Function.comp, WorkerLoop.notified]
        split
        · rename_i hb; simp [hb, LoopPoint.canTake]
        · rfl
      simp only [List.length_nil, Nat.zero_add, hm, Nat.le_refl]
  | act i now net =>
    cases ht : p.threads.get? i with
    | none => simp only [StoppingPool.step, ht] at h; exact absurd h (by simp)
    | some t =>
      cases ha : BrokerWorker.ProcessMessages.advance t p.message_queue_ now net with
      | none => simp only [StoppingPool.step, ht, ha] at h; exact absurd h (by simp)
      | some r =>
        obtain ⟨t', queue'⟩ := r
        simp only [StoppingPool.step, ht, ha, Option.some.injEq] at h
        subst h
        have htm : t ∈ p.threads := List.get?_mem ht
        obtain ⟨hs', taken, hq, hc⟩ :=
          advance_stopped t t' p.message_queue_ queue' now net (hstop t htm) ha
        refine ⟨?_, taken, hq, ?_⟩
        · intro u hu
          rcases mem_of_mem_set _ _ _ _ hu with hu | hu
          · exact hstop u hu
          · subst hu; exact hs'
        · have hs := sum_map_set (fun t : WorkerLoop => t.point.canTake) p.threads i t t' ht
          simp only at hs
          show taken.length
              + (List.map (fun t : WorkerLoop => t.point.canTake) (p.threads.set i t')).sum ≤ _
          omega

/-- A run of a pool whose workers are all stopped takes off the queue at most one payload for
every worker that was past its loop test, and leaves the rest of the queue as it was. -/
theorem StoppingPool.run_stopped : ∀ (events : List StopEvent) (p q : StoppingPool),
    (∀ t ∈ p.threads, t.worker.stop_ = true) → p.run events = some q →
    ∃ taken, p.message_queue_ = taken ++ q.message_queue_
      ∧ taken.length + (q.threads.map fun t => t.point.canTake).sum
          ≤ (p.threads.map fun t => t.point.canTake).sum := by
  intro events
  induction events with
  | nil =>
    intro p q _ h
    simp only [StoppingPool.run, Option.some.injEq] at h
    subst h
    exact ⟨[], rfl, by simp⟩
  | cons e es ih =>
    intro p q hstop h
    cases hs : p.step e with
    | none => simp only [StoppingPool.run, hs] at h; exact absurd h (by simp)
    | some r =>
      simp only [StoppingPool.run, hs] at h
      obtain ⟨hr, taken1, hq1, hc1⟩ := StoppingPool.step_stopped p r e hstop hs
      obtain ⟨taken2, hq2, hc2⟩ := ih r q hr h
      refine ⟨taken1 ++ taken2, ?_, ?_⟩
      · rw [hq1, hq2, List.append_assoc]
      · rw [List.length_append]; omega

/-- Every worker counts for at most one in `canTake`. -/
theorem canTake_sum_le (threads : List WorkerLoop) :
    (threads.map fun t => t.point.canTake).sum ≤ threads.length := by
  induction threads with
  | nil => simp
  | cons t ts ih =>
    simp only [List.map_cons, List.sum_cons, List.length_cons]
    have : t.point.canTake ≤ 1 := by
      cases t.point <;> simp [LoopPoint.canTake]
    omega

/-- The steps of a pool one list after the other. -/
theorem StoppingPool.run_append : ∀ (a b : List StopEvent) (p : StoppingPool),
    p.run (a ++ b) = (p.run a).bind fun q => q.run b := by
  intro a
  induction a with
  | nil => intro b p; rfl
  | cons e es ih =>
    intro b p
    cases hs : p.step e with
    | none => simp only [List.cons_append, StoppingPool.run, hs, Option.bind]
    | some r => simp only [List.cons_append, StoppingPool.run, hs]; exact ih b r

/-- A worker in the wait stays there through any number of its own actions: without a
notification nothing takes it out. -/
theorem blocked_stays (queue : List Str) (t : WorkerLoop) (h : t.point = .blocked) :
    ∀ later : List (Str × Transport),
      StoppingPool.run { message_queue_ := queue, threads := [t] }
          (later.map fun e => StopEvent.act 0 e.1 e.2)
        = some { message_queue_ := queue, threads := [t] } := by
  intro later
  induction later with
  | nil => rfl
  | cons e es ih =>
    simp only [List.map_cons, StoppingPool.run, StoppingPool.step, List.get?_cons_zero,
      BrokerWorker.ProcessMessages.advance, h, List.set_cons_zero]
    exact ih

/-- C21 does not hold: the worker of `inFlightPool` holds the payload with the id `1` while the
payload with the id `2` is in the queue; it is stopped, finishes the payload it holds and
leaves its loop at the loop test, and the payload with the id `2` is still in the queue. -/
theorem C21_counterexample :
    (inFlightPool.run inFlightStop).map
        (fun q => (q.message_queue_, q.threads.map fun t => (t.point, t.handled)))
      = some (["\x7b\"message_id\": \"2\"\x7d".toList],
          [(.exited, ["\x7b\"message_id\": \"1\"\x7d".toList])]) := by
  decide

/-- C21, amended: once all stop flags are set, a worker at its loop test leaves the loop
whatever the queue holds, and the steps of the pool take off the queue at most one payload
for every worker that was past its loop test without a payload; the queue at the end is the
queue at the stop without these first payloads. -/
theorem C21_stopped_pool_leaves_the_rest (p q : StoppingPool) (events : List StopEvent)
    (hstop : ∀ t ∈ p.threads, t.worker.stop_ = true) (hrun : p.run events = some q) :
    (∀ t ∈ p.threads, t.point = .test → ∀ (queue : List Str) (now : Str) (net : Transport),
        BrokerWorker.ProcessMessages.advance t queue now net
          = some ({ t with point := .exited }, queue))
      ∧ ∃ taken, p.message_queue_ = taken ++ q.message_queue_
          ∧ taken.length ≤ (p.threads.map fun t => t.point.canTake).sum
          ∧ taken.length ≤ p.threads.length := by
  refine ⟨?_, ?_⟩
  · intro t ht hp queue now net
    simp only [BrokerWorker.ProcessMessages.advance, hp, hstop t ht, if_true]
  · obtain ⟨taken, hq, hc⟩ := StoppingPool.run_stopped events p q hstop hrun
    have := canTake_sum_le p.threads
    exact ⟨taken, hq, by omega, by omega⟩

/-- C21, amended, at `stoppedPool`: of the two payloads queued the stopped worker takes the
first, and the second is in the queue when the worker has left its loop. -/
theorem C21_stopped_pool_leaves_the_rest_witness :
    (∀ t ∈ stoppedPool.threads, t.point = .test →
        ∀ (queue : List Str) (now : Str) (net : Transport),
        BrokerWorker.ProcessMessages.advance t queue now net
          = some ({ t with point := .exited }, queue))
      ∧ ∃ taken, stoppedPool.message_queue_ = taken ++ stoppedPoolEnd.message_queue_
          ∧ taken.length ≤ (stoppedPool.threads.map fun t => t.point.canTake).sum
          ∧ taken.length ≤ stoppedPool.threads.length :=
  C21_stopped_pool_leaves_the_rest stoppedPool stoppedPoolEnd
    [.act 0 [] (okTransport []), .act 0 [] (okTransport []), .act 0 [] (okTransport [])]
    (by
      intro t ht
      simp only [stoppedPool, List.mem_singleton] at ht
      subst ht
      rfl)
    rfl

/-- C22 does not hold: the worker of `startedPool` passes its loop test and finds the
predicate of the wait false on the empty queue; `Stop` then sets the flag and notifies, while
the worker is not in the wait yet; the worker enters the wait, and none of its later actions
takes it out: its stop flag is set and it never leaves the loop. -/
theorem C22_lost_wakeup (later : List (Str × Transport)) :
    (startedPool.run (lostWakeup ++ later.map fun e => StopEvent.act 0 e.1 e.2)).map
        (fun q => q.threads.map fun t => (t.worker.stop_, t.point, t.handled))
      = some [(true, .blocked, [])] := by
  have h : startedPool.run lostWakeup
      = some { message_queue_ := []
               threads := [{ worker := { sampleWorker with stop_ := true }
                             point := .blocked
                             handled := [] }] } := rfl
  rw [StoppingPool.run_append, h, Option.bind, blocked_stays [] _ rfl later]
  rfl

/-! ## The receive loops over the chunks read -/

/-- C23 does not hold: one `recv` returns the 62 bytes of `twoPushes`, two complete pushes for
the subscribed channel `c`.  When the loop has handled the chunk and is about to call `recv`
again, the pool has routed the payload `a` only, and the single consumer has handled one
payload only; the push of `b` is whole in the buffer of the reader, not routed. -/
theorem C23_second_push_left_behind :
    twoPushes.length = 62
      ∧ decodeReply 9 twoPushes
          = .done (.array [.string "message".toList, .string "c".toList, .string "a".toList])
              pushB
      ∧ decodeReply 9 pushB
          = .done (.array [.string "message".toList, .string "c".toList, .string "b".toList])
              []
      ∧ RedisBrokerConsumer.SubscribeToChannel.receive
            { sampleBroker with subsciption_channel_ := "c".toList } "c".toList
            (redisReaderCreate 9) [.data twoPushes]
          = .running
              { sampleBroker with
                subsciption_channel_ := "c".toList, message_queue_ := ["a".toList] }
              { buf := pushB, err := false, nesting := 9 } []
      ∧ RedisConsumer.SubscribeToChannel.receive
            { sampleConsumer with subsciption_channel_ := "c".toList } "c".toList
            (redisReaderCreate 9) [(.data twoPushes, [], okTransport [])]
          = .running
              { sampleConsumer with
                subsciption_channel_ := "c".toList, number_of_processing_errors_ := 1 }
              { buf := pushB, err := false, nesting := 9 } [] := by
  refine ⟨by decide, rfl, rfl, rfl, rfl⟩

/-- A reader without error whose buffer holds no complete reply, fed no bytes, is as it was. -/
theorem feed_nothing (reader : redisReader) (herr : reader.err = false) :
    redisReaderFeed reader [] = (true, reader) := by
  cases reader
  simp only at herr
  simp only [redisReaderFeed, herr, Bool.false_eq_true, if_false, List.append_nil]

/-- A pass of the pool's receive loop on a read of no bytes, the reader being without error and
holding no complete reply: the state and the reader are as before and the loop goes on. -/
theorem pool_iteration_nothing (self : RedisBrokerConsumer) (channel_name : Str)
    (reader : redisReader) (herr : reader.err = false)
    (hnone : decodeReply reader.nesting reader.buf = .needMoreData) :
    RedisBrokerConsumer.SubscribeToChannel.iteration self channel_name reader (.data [])
      = .running self reader [] := by
  have hget : redisReaderGetReply reader = (true, none, reader) := by
    simp only [redisReaderGetReply, herr, hnone, Bool.false_eq_true, if_false]
  simp only [RedisBrokerConsumer.SubscribeToChannel.iteration, feed_nothing reader herr, hget,
    Bool.not_true, Bool.false_eq_true, if_false,
    RedisBrokerConsumer.SubscribeToChannel.dispatch]

/-- The same pass of the receive loop of the single consumer. -/
theorem single_iteration_nothing (self : RedisConsumer) (channel_name : Str)
    (reader : redisReader) (now : Str) (net : Transport) (herr : reader.err = false)
    (hnone : decodeReply reader.nesting reader.buf = .needMoreData) :
    RedisConsumer.SubscribeToChannel.iteration self channel_name reader (.data []) now net
      = .running self reader [] := by
  have hget : redisReaderGetReply reader = (true, none, reader) := by
    simp only [redisReaderGetReply, herr, hnone, Bool.false_eq_true, if_false]
  simp only [RedisConsumer.SubscribeToChannel.iteration, feed_nothing reader herr, hget,
    Bool.not_true, Bool.false_eq_true, if_false, RedisConsumer.SubscribeToChannel.dispatch]

/-- C30: in both receive loops a negative result of `recv` ends the loop, and a read of no
bytes does not: when the reader is without error and holds no complete reply, the pass leaves
the consumer (queue, workers, counters) and the reader as they were, sends nothing, and goes
on to the next `recv`; so after any number of reads of no bytes the loop is still running, in
the same state, and not closed. -/
theorem C30_read_of_no_bytes_keeps_the_loop (reader : redisReader) (channel_name : Str)
    (herr : reader.err = false)
    (hnone : decodeReply reader.nesting reader.buf = .needMoreData) :
    (∀ self : RedisBrokerConsumer,
        RedisBrokerConsumer.SubscribeToChannel.iteration self channel_name reader .error
          = .closed)
      ∧ (∀ (self : RedisConsumer) (now : Str) (net : Transport),
        RedisConsumer.SubscribeToChannel.iteration self channel_name reader .error now net
          = .closed)
      ∧ (∀ self : RedisBrokerConsumer,
        RedisBrokerConsumer.SubscribeToChannel.iteration self channel_name reader (.data [])
          = .running self reader [])
      ∧ (∀ (self : RedisConsumer) (now : Str) (net : Transport),
        RedisConsumer.SubscribeToChannel.iteration self channel_name reader (.data []) now net
          = .running self reader [])
      ∧ (∀ (self : RedisBrokerConsumer) (n : Nat),
        RedisBrokerConsumer.SubscribeToChannel.receive self channel_name reader
            (List.replicate n (.data []))
          = .running self reader [])
      ∧ (∀ (self : RedisConsumer) (later : List (Str × Transport)),
        RedisConsumer.SubscribeToChannel.receive self channel_name reader
            (later.map fun e => (.data [], e.1, e.2))
          = .running self reader []) := by
  refine ⟨fun _ => rfl, fun _ _ _ => rfl,
    fun self => pool_iteration_nothing self channel_name reader herr hnone,
    fun self now net => single_iteration_nothing self channel_name reader now net herr hnone,
    ?_, ?_⟩
  · intro self n
    induction n with
    | zero => rfl
    | succ n ih =>
      simp only [List.replicate_succ, RedisBrokerConsumer.SubscribeToChannel.receive,
        pool_iteration_nothing self channel_name reader herr hnone]
      exact ih
  · intro self later
    induction later with
    | nil => rfl
    | cons e es ih =>
      simp only [List.map_cons, RedisConsumer.SubscribeToChannel.receive,
        single_iteration_nothing self channel_name reader e.1 e.2 herr hnone]
      simp only [List.map] at ih
      simp only [ih, List.append_nil]

/-- C30 at a fresh reader and the channel `news`. -/
theorem C30_read_of_no_bytes_keeps_the_loop_witness :
    (∀ self : RedisBrokerConsumer,
        RedisBrokerConsumer.SubscribeToChannel.iteration self "news".toList
          (redisReaderCreate 9) .error = .closed)
      ∧ (∀ (self : RedisConsumer) (now : Str) (net : Transport),
        RedisConsumer.SubscribeToChannel.iteration self "news".toList (redisReaderCreate 9)
          .error now net = .closed)
      ∧ (∀ self : RedisBrokerConsumer,
        RedisBrokerConsumer.SubscribeToChannel.iteration self "news".toList
          (redisReaderCreate 9) (.data []) = .running self (redisReaderCreate 9) [])
      ∧ (∀ (self : RedisConsumer) (now : Str) (net : Transport),
        RedisConsumer.SubscribeToChannel.iteration self "news".toList (redisReaderCreate 9)
          (.data []) now net = .running self (redisReaderCreate 9) [])
      ∧ (∀ (self : RedisBrokerConsumer) (n : Nat),
        RedisBrokerConsumer.SubscribeToChannel.receive self "news".toList
            (redisReaderCreate 9) (List.replicate n (.data []))
          = .running self (redisReaderCreate 9) [])
      ∧ (∀ (self : RedisConsumer) (later : List (Str × Transport)),
        RedisConsumer.SubscribeToChannel.receive self "news".toList (redisReaderCreate 9)
            (later.map fun e => (.data [], e.1, e.2))
          = .running self (redisReaderCreate 9) []) :=
  C30_read_of_no_bytes_keeps_the_loop (redisReaderCreate 9) "news".toList rfl rfl

/-! ## The workers `SubscribeToChannel` creates -/

/-- The loop that creates the workers when its test fails. -/
theorem createWorkers_done (self : RedisBrokerConsumer) (processing_stream : Str)
    (socket : Int → Int) (next_id_ i : Int) (h : ¬ i < self.number_of_workers_) :
    RedisBrokerConsumer.SubscribeToChannel.createWorkers self processing_stream socket next_id_ i
      = (self, next_id_, []) := by
  rw [RedisBrokerConsumer.SubscribeToChannel.createWorkers]
  simp only [h, if_false]

/-- The loop that creates the workers adds one worker for every index from `i` up to
`number_of_workers_`, leaves the other members as they are, and its effects are all effects of
workers. -/
theorem createWorkers_spec (processing_stream : Str) (socket : Int → Int) :
    ∀ (k : Nat) (self : RedisBrokerConsumer) (next_id_ i : Int),
      (self.number_of_workers_ - i).toNat = k →
      ((RedisBrokerConsumer.SubscribeToChannel.createWorkers self processing_stream socket
          next_id_ i).1.workers_.length = self.workers_.length + k)
        ∧ (RedisBrokerConsumer.SubscribeToChannel.createWorkers self processing_stream socket
          next_id_ i).1.message_queue_ = self.message_queue_
        ∧ (∀ e ∈ (RedisBrokerConsumer.SubscribeToChannel.createWorkers self processing_stream
          socket next_id_ i).2.2, e.ofWorker = true) := by
  intro k
  induction k with
  | zero =>
    intro self next_id_ i hk
    have h : ¬ i < self.number_of_workers_ := by omega
    rw [createWorkers_done self processing_stream socket next_id_ i h]
    exact ⟨rfl, rfl, by intro e he; simp at he⟩
  | succ k ih =>
    intro self next_id_ i hk
    have h : i < self.number_of_workers_ := by omega
    rw [RedisBrokerConsumer.SubscribeToChannel.createWorkers]
    simp only [h, if_true]
    obtain ⟨h1, h2, h3⟩ := ih
      { self with workers_ := self.workers_ ++
        [if (!processing_stream.isEmpty) = true then
          (BrokerWorker.construct next_id_ self.subsciption_channel_ processing_stream
            self.verbose_outputs_).SetWritingSocketFileDescriptor (socket i)
        else BrokerWorker.construct next_id_ self.subsciption_channel_ processing_stream
            self.verbose_outputs_] }
      (next_id_ + 1) (i + 1) (by simp only; omega)
    refine ⟨?_, ?_, ?_⟩
    · rw [h1]; simp only [List.length_append, List.length_singleton]; omega
    · rw [h2]
    · intro e he
      simp only [List.mem_append, List.mem_singleton, List.mem_cons, List.not_mem_nil,
        or_false] at he
      rcases he with ((he | he) | he) | he
      · subst he; rfl
      · split at he
        · simp only [List.mem_singleton, List.mem_cons, List.not_mem_nil, or_false] at he
          subst he; rfl
        · simp at he
      · subst he; rfl
      · exact h3 e he

/-- C25 does not hold for a count below one: the constructor leaves the member
`number_of_workers_` as it was given, and `SubscribeToChannel` then creates as many workers as
the loop `for (int i = 0; i < number_of_workers_; ++i)` has passes: the given count of them
when it is at least one, and none when it is below one. -/
theorem C25_workers_created (verbose_outputs : Bool) (number_of_workers : Int)
    (channel_name processing_stream : Str) (socket : Int → Int) (next_id_ : Int) :
    (RedisBrokerConsumer.construct verbose_outputs number_of_workers).number_of_workers_
        = number_of_workers
      ∧ ((RedisBrokerConsumer.SubscribeToChannel.createWorkers
            { RedisBrokerConsumer.construct verbose_outputs number_of_workers with
              subsciption_channel_ := channel_name }
            processing_stream socket next_id_ 0).1.workers_.length : Int)
          = if number_of_workers < 1 then 0 else number_of_workers := by
  refine ⟨rfl, ?_⟩
  have h := (createWorkers_spec processing_stream socket (number_of_workers - 0).toNat
    { RedisBrokerConsumer.construct verbose_outputs number_of_workers with
      subsciption_channel_ := channel_name } next_id_ 0 rfl).1
  rw [h]
  simp only [RedisBrokerConsumer.construct, List.length_nil, Nat.zero_add, Int.sub_zero]
  split <;> omega

/-- C25 at the count `0`: the member stays `0` and the loop creates no worker. -/
theorem C25_workers_created_witness :
    (RedisBrokerConsumer.construct false 0).number_of_workers_ = 0
      ∧ ((RedisBrokerConsumer.SubscribeToChannel.createWorkers
            { RedisBrokerConsumer.construct false 0 with subsciption_channel_ := "news".toList }
            [] (fun _ => 4) 1 0).1.workers_.length : Int) = 0 := by
  have h := C25_workers_created false 0 "news".toList [] (fun _ => 4) 1
  simpa using h

/-- No effect of the receive loop is an effect of a worker. -/
theorem receiveEffects_not_worker (channel_name : Str) :
    ∀ (reads : List Recv) (self : RedisBrokerConsumer) (reader : redisReader),
      ∀ e ∈ RedisBrokerConsumer.SubscribeToChannel.receiveEffects self channel_name reader reads,
        e.ofWorker = false := by
  intro reads
  induction reads with
  | nil => intro self reader e he; simp [RedisBrokerConsumer.SubscribeToChannel.receiveEffects] at he
  | cons recv rest ih =>
    intro self reader e he
    simp only [RedisBrokerConsumer.SubscribeToChannel.receiveEffects, List.mem_append,
      List.mem_cons, List.not_mem_nil, or_false] at he
    rcases he with (he | he) | he
    · subst he; rfl
    · split at he
      · simp only [List.mem_cons, List.not_mem_nil, or_false] at he; subst he; rfl
      · simp at he
    · split at he
      · simp only [List.mem_cons, List.not_mem_nil, or_false] at he; subst he; rfl
      · simp at he
      · exact ih _ _ e he

/-- C24 does not hold: the consumer with one worker subscribes to `news` without a processing
stream and the first `recv` returns the acknowledgement.  The worker is constructed and started
right after the `send` of the subscribe command, before the reader exists; the acknowledgement
is read and decoded after that. -/
theorem C24_counterexample :
    (RedisBrokerConsumer.SubscribeToChannel (RedisBrokerConsumer.construct false 1) true
        "news".toList [] 31 (fun _ => 4) 1 true 9 [.data subscribeAck]).map Prod.fst
      = some
          [.send (CreateSubscriptionCommand "news".toList),
           .workerCreated 1,
           .workerStarted 1,
           .readerCreated,
           .recv (.data subscribeAck),
           .reply (.array [.string "subscribe".toList, .string "news".toList, .integer 1])] := by
  have hc : RedisBrokerConsumer.SubscribeToChannel.createWorkers
        { RedisBrokerConsumer.construct false 1 with subsciption_channel_ := "news".toList }
        [] (fun _ => 4) 1 0
      = ({ RedisBrokerConsumer.construct false 1 with
            subsciption_channel_ := "news".toList
            workers_ := [BrokerWorker.construct 1 "news".toList [] false] },
          2, [.workerCreated 1, .workerStarted 1]) := by
    rw [RedisBrokerConsumer.SubscribeToChannel.createWorkers]
    rw [if_pos (by decide)]
    simp only
    rw [createWorkers_done _ _ _ _ _ (by decide)]
    rfl
  simp only [RedisBrokerConsumer.SubscribeToChannel, hc, Bool.not_true, Bool.false_eq_true,
    if_false, Option.map]
  rw [if_neg (by decide)]
  rfl

/-- C24, amended: when the call does not end the process, the effects of
`RedisBrokerConsumer::SubscribeToChannel` are, in order: the `send` of the subscribe command;
then effects of workers only (construction, connection, start); then the creation of the
reader; then effects of the receive loop, none of which is an effect of a worker.  So every
worker is created and started after the subscribe command was sent and before anything is read
or decoded, the acknowledgement included. -/
theorem C24_workers_between_send_and_reader (self : RedisBrokerConsumer)
    (channel_name processing_stream : Str) (bytes_sent : Int) (socket : Int → Int)
    (next_id_ : Int) (nesting : Nat) (reads : List Recv) (hsent : 0 ≤ bytes_sent) :
    ∃ (workers loop : List Effect) (outcome : Receive RedisBrokerConsumer),
      RedisBrokerConsumer.SubscribeToChannel self true channel_name processing_stream bytes_sent
          socket next_id_ true nesting reads
        = some (Effect.send (CreateSubscriptionCommand channel_name)
            :: (workers ++ Effect.readerCreated :: loop), outcome)
      ∧ (∀ e ∈ workers, e.ofWorker = true)
      ∧ (∀ e ∈ loop, e.ofWorker = false) := by
  have hneg : ¬ bytes_sent < 0 := by omega
  refine ⟨(RedisBrokerConsumer.SubscribeToChannel.createWorkers
      { self with subsciption_channel_ := channel_name } processing_stream socket next_id_ 0).2.2,
    RedisBrokerConsumer.SubscribeToChannel.receiveEffects
      (RedisBrokerConsumer.SubscribeToChannel.createWorkers
        { self with subsciption_channel_ := channel_name } processing_stream socket
        next_id_ 0).1 channel_name (redisReaderCreate nesting) reads,
    RedisBrokerConsumer.SubscribeToChannel.receive
      (RedisBrokerConsumer.SubscribeToChannel.createWorkers
        { self with subsciption_channel_ := channel_name } processing_stream socket
        next_id_ 0).1 channel_name (redisReaderCreate nesting) reads, ?_, ?_, ?_⟩
  · simp only [RedisBrokerConsumer.SubscribeToChannel, Bool.not_true, Bool.false_eq_true,
      if_false, hneg, List.singleton_append, List.cons_append, List.append_assoc,
      List.nil_append]
  · exact (createWorkers_spec processing_stream socket _ _ next_id_ 0 rfl).2.2
  · exact receiveEffects_not_worker channel_name reads _ _

/-- C24, amended, at a consumer with two workers, the channel `news` and the stream
`messages:processed`. -/
theorem C24_workers_between_send_and_reader_witness :
    ∃ (workers loop : List Effect) (outcome : Receive RedisBrokerConsumer),
      RedisBrokerConsumer.SubscribeToChannel (RedisBrokerConsumer.construct false 2) true
          "news".toList "messages:processed".toList 31 (fun i => 4 + i) 1 true 9
          [.data subscribeAck]
        = some (Effect.send (CreateSubscriptionCommand "news".toList)
            :: (workers ++ Effect.readerCreated :: loop), outcome)
      ∧ (∀ e ∈ workers, e.ofWorker = true)
      ∧ (∀ e ∈ loop, e.ofWorker = false) :=
  C24_workers_between_send_and_reader (RedisBrokerConsumer.construct false 2) "news".toList
    "messages:processed".toList 31 (fun i => 4 + i) 1 9 [.data subscribeAck] (by decide)

/-! ## The extractor and the double quotes of the payload -/

/-- The backward scan finds nothing when the character is at none of the indices it looks
at. -/
theorem find_last_of_loop_none (s : Str) (c : Char) : ∀ k,
    (∀ j, j < k → s.get? j ≠ some c) → find_last_of.loop s c k = npos := by
  intro k
  induction k with
  | zero => intro _; rfl
  | succ k ih =>
    intro h
    rw [find_last_of.loop, if_neg (h k (Nat.lt_succ_self k))]
    exact ih fun j hj => h j (Nat.lt_succ_of_lt hj)

/-- A character that is not in the string is at none of its indices. -/
theorem get_ne_of_not_mem (s : Str) (c : Char) (h : c ∉ s) (j : Nat) : s.get? j ≠ some c := by
  intro hj
  exact h (List.get?_mem hj)

/-- A string that holds the character splits at its last occurrence. -/
theorem split_last (c : Char) : ∀ l : Str, c ∈ l → ∃ A C, l = A ++ c :: C ∧ c ∉ C := by
  intro l
  induction l with
  | nil => intro h; simp at h
  | cons x xs ih =>
    intro h
    by_cases hx : c ∈ xs
    · obtain ⟨A, C, hl, hC⟩ := ih hx
      exact ⟨x :: A, C, by rw [hl]; rfl, hC⟩
    · have hcx : c = x := by
        rcases List.mem_cons.mp h with h | h
        · exact h
        · exact absurd h hx
      exact ⟨[], xs, by rw [hcx]; rfl, hx⟩

/-- A string that holds the character twice splits at its last two occurrences. -/
theorem split_last_two (c : Char) (l : Str) (h : 2 ≤ l.count c) :
    ∃ A B C, l = A ++ c :: (B ++ c :: C) ∧ c ∉ B ∧ c ∉ C := by
  have hmem : c ∈ l := List.count_pos_iff.mp (by omega)
  obtain ⟨A', C, hl, hC⟩ := split_last c l hmem
  have hcount : l.count c = A'.count c + 1 := by
    rw [hl, List.count_append, List.count_cons_self, List.count_eq_zero_of_not_mem hC]
  have hA' : c ∈ A' := List.count_pos_iff.mp (by omega)
  obtain ⟨A, B, hA, hB⟩ := split_last c A' hA'
  exact ⟨A, B, C, by rw [hl, hA]; simp, hB, hC⟩

/-- A payload that holds the key, and is a `std::string`, is one in which `find` finds it. -/
theorem find_of_key (json pre post : Str) (hlen : json.length < npos)
    (hkey : json = pre ++ "message_id".toList ++ post) :
    find json "message_id".toList ≠ npos := by
  have h := find_loop_le "message_id".toList post pre 0
  rw [← hkey] at h
  have hl : pre.length ≤ json.length := by rw [hkey]; simp
  rw [find]
  omega

/-- The extractor on a payload that holds the key and two double quotes: the id is what stands
between the last two of them. -/
theorem ProcessMessage_last_two (A B C : Str) (hB : '"' ∉ B) (hC : '"' ∉ C)
    (hlen : (A ++ '"' :: (B ++ '"' :: C)).length < npos)
    (hfind : find (A ++ '"' :: (B ++ '"' :: C)) "message_id".toList ≠ npos) :
    JsonMessageProcessorImpl.ProcessMessage (A ++ '"' :: (B ++ '"' :: C))
      = some (some { message_id := B }) := by
  have hl : A.length + B.length + C.length + 2 < 18446744073709551615 := by
    rw [npos_eq] at hlen
    simp only [List.length_append, List.length_cons] at hlen
    omega
  have hend : find_last_of (A ++ '"' :: (B ++ '"' :: C)) '"' npos = A.length + 1 + B.length := by
    have h := find_last_of_eq (A ++ '"' :: B) C [] '"' npos hC
      (by simp [npos_eq]; omega)
    have e : (A ++ '"' :: B) ++ '"' :: (C ++ []) = A ++ '"' :: (B ++ '"' :: C) := by simp
    rw [e] at h
    rw [h]
    simp only [List.length_append, List.length_cons]
    omega
  have hstart : find_last_of (A ++ '"' :: (B ++ '"' :: C)) '"' (A.length + B.length)
      = A.length :=
    find_last_of_eq A B ('"' :: C) '"' (A.length + B.length) hB (by simp)
  have hsub1 : size_t_sub (A.length + 1 + B.length) 1 = A.length + B.length := by
    unfold size_t_sub; omega
  have hsub2 : size_t_sub (size_t_sub (A.length + 1 + B.length) A.length) 1 = B.length := by
    unfold size_t_sub; omega
  have hadd : size_t_add A.length 1 = A.length + 1 := by
    unfold size_t_add; omega
  have hne1 : A.length + 1 + B.length ≠ npos := by rw [npos_eq]; omega
  have hne2 : A.length ≠ npos := by rw [npos_eq]; omega
  have hsubstr : substr (A ++ '"' :: (B ++ '"' :: C)) (A.length + 1) B.length = some B := by
    have e : A ++ '"' :: (B ++ '"' :: C) = (A ++ ['"']) ++ (B ++ '"' :: C) := by simp
    have hl1 : (A ++ ['"']).length = A.length + 1 := by simp
    rw [substr, if_neg (by simp), e, ← hl1, List.drop_left, List.take_left]
  simp only [JsonMessageProcessorImpl.ProcessMessage, hfind, if_false]
  rw [hend]
  simp only [hne1, ne_eq, not_false_eq_true, if_true, hsub1, hstart, hne2, hadd, hsub2,
    hsubstr, Option.map_some']

/-- C27: a payload (a `std::string`) that holds `message_id` and at least two double quotes
splits at its last two double quotes, and the extractor returns a message whose id is the
characters between these two, whichever key they belong to; this id holds no double quote. -/
theorem C27_id_between_last_two_quotes (json : Str) (hlen : json.length < npos)
    (hkey : ∃ pre post, json = pre ++ "message_id".toList ++ post)
    (hquotes : 2 ≤ json.count '"') :
    (∃ A B C, json = A ++ '"' :: (B ++ '"' :: C) ∧ '"' ∉ B ∧ '"' ∉ C)
      ∧ (∀ A B C, json = A ++ '"' :: (B ++ '"' :: C) → '"' ∉ B → '"' ∉ C →
          JsonMessageProcessorImpl.ProcessMessage json = some (some { message_id := B }))
      ∧ ∃ m : Message, JsonMessageProcessorImpl.ProcessMessage json = some (some m)
          ∧ '"' ∉ m.message_id := by
  obtain ⟨pre, post, hk⟩ := hkey
  have hfind := find_of_key json pre post hlen hk
  have hall : ∀ A B C, json = A ++ '"' :: (B ++ '"' :: C) → '"' ∉ B → '"' ∉ C →
      JsonMessageProcessorImpl.ProcessMessage json = some (some { message_id := B }) := by
    intro A B C hj hB hC
    subst hj
    exact ProcessMessage_last_two A B C hB hC hlen hfind
  obtain ⟨A, B, C, hj, hB, hC⟩ := split_last_two '"' json hquotes
  exact ⟨⟨A, B, C, hj, hB, hC⟩, hall, ⟨{ message_id := B }, hall A B C hj hB hC, hB⟩⟩

/-- C27 at the payload `{"message_id": "1", "x": "y"}`: the id is `y`. -/
theorem C27_id_between_last_two_quotes_witness :
    JsonMessageProcessorImpl.ProcessMessage
        "\x7b\"message_id\": \"1\", \"x\": \"y\"\x7d".toList
      = some (some { message_id := "y".toList }) :=
  (C27_id_between_last_two_quotes "\x7b\"message_id\": \"1\", \"x\": \"y\"\x7d".toList
    (by simp [npos_eq])
    ⟨"\x7b\"".toList, "\": \"1\", \"x\": \"y\"\x7d".toList, by decide⟩
    (by decide)).2.1
    "\x7b\"message_id\": \"1\", \"x\": ".toList "y".toList "\x7d".toList (by decide)
    (by decide) (by decide)

/-- The search backwards from `pos` finds nothing when the character is not in the string. -/
theorem find_last_of_absent (s : Str) (c : Char) (pos : Nat) (h : c ∉ s) :
    find_last_of s c pos = npos := by
  unfold find_last_of
  split
  · rfl
  · exact find_last_of_loop_none s c _ fun j _ => get_ne_of_not_mem s c h j

/-- The search backwards from an index before the only occurrence finds nothing. -/
theorem find_last_of_before (A C : Str) (c : Char) (hA : c ∉ A) (pos : Nat)
    (hpos : pos < A.length) : find_last_of (A ++ c :: C) c pos = npos := by
  have hlen : (A ++ c :: C).length ≠ 0 := by simp
  rw [find_last_of, if_neg hlen]
  apply find_last_of_loop_none
  intro j hj
  have hjA : j < A.length := by
    have : min ((A ++ c :: C).length - 1) pos ≤ pos := Nat.min_le_right _ _
    omega
  rw [List.get?_eq_getElem?, List.getElem?_append_left hjA, ← List.get?_eq_getElem?]
  exact get_ne_of_not_mem A c hA j

/-- C28: for a payload (a `std::string`) that holds `message_id`: with exactly one double
quote, at an index above `0`, the extractor returns the empty optional; with exactly one
double quote, at index `0`, the position `end - 1` wraps to `npos`, the search from it finds
the same quote, and the extractor returns a message whose id is all that follows the quote;
without a double quote it returns the empty optional. -/
theorem C28_single_quote (json : Str) (hlen : json.length < npos)
    (hkey : ∃ pre post, json = pre ++ "message_id".toList ++ post) :
    (∀ A C, json = A ++ '"' :: C → '"' ∉ A → '"' ∉ C → A ≠ [] →
        JsonMessageProcessorImpl.ProcessMessage json = some none)
      ∧ (∀ C, json = '"' :: C → '"' ∉ C →
          find_last_of json '"' = 0
            ∧ size_t_sub 0 1 = npos
            ∧ find_last_of json '"' (size_t_sub 0 1) = 0
            ∧ JsonMessageProcessorImpl.ProcessMessage json = some (some { message_id := C }))
      ∧ ('"' ∉ json → JsonMessageProcessorImpl.ProcessMessage json = some none) := by
  obtain ⟨pre, post, hk⟩ := hkey
  have hfind := find_of_key json pre post hlen hk
  refine ⟨?_, ?_, ?_⟩
  · intro A C hj hA hC hne
    subst hj
    have hl : A.length + C.length + 1 < 18446744073709551615 := by
      rw [npos_eq] at hlen
      simp only [List.length_append, List.length_cons] at hlen
      omega
    have hpos : 0 < A.length := List.length_pos.mpr hne
    have hend : find_last_of (A ++ '"' :: C) '"' npos = A.length := by
      have h := find_last_of_eq A C [] '"' npos hC (by simp [npos_eq]; omega)
      rwa [List.append_nil] at h
    have hsub : size_t_sub A.length 1 = A.length - 1 := by
      unfold size_t_sub; omega
    have hstart : find_last_of (A ++ '"' :: C) '"' (A.length - 1) = npos :=
      find_last_of_before A C '"' hA _ (by omega)
    have hne1 : A.length ≠ npos := by rw [npos_eq]; omega
    simp only [JsonMessageProcessorImpl.ProcessMessage, hfind, if_false]
    rw [hend]
    simp only [hne1, ne_eq, not_false_eq_true, if_true, hsub, hstart, not_true_eq_false,
      if_false]
  · intro C hj hC
    subst hj
    have hl : C.length + 1 < 18446744073709551615 := by
      rw [npos_eq] at hlen
      simp only [List.length_cons] at hlen
      omega
    have hend : find_last_of ('"' :: C) '"' npos = 0 := by
      have h := find_last_of_eq [] C [] '"' npos hC (by simp [npos_eq]; omega)
      simpa using h
    have hwrap : size_t_sub 0 1 = npos := by decide
    have hsub2 : size_t_sub (size_t_sub 0 0) 1 = npos := by decide
    have hadd : size_t_add 0 1 = 1 := by decide
    have hne : (0 : Nat) ≠ npos := by decide
    have hsubstr : substr ('"' :: C) 1 npos = some C := by
      rw [substr, if_neg (by simp)]
      simp only [List.drop_succ_cons, List.drop_zero]
      rw [List.take_of_length_le (by rw [npos_eq]; omega)]
    refine ⟨hend, hwrap, by rw [hwrap]; exact hend, ?_⟩
    simp only [JsonMessageProcessorImpl.ProcessMessage, hfind, if_false]
    rw [hend]
    simp only [hne, ne_eq, not_false_eq_true, if_true, hwrap, hend, hadd, hsub2, hsubstr,
      Option.map_some']
  · intro hno
    have hend : find_last_of json '"' npos = npos := find_last_of_absent json '"' npos hno
    simp only [JsonMessageProcessorImpl.ProcessMessage, hfind, if_false]
    rw [hend]
    simp only [ne_eq, not_true_eq_false, if_false]

/-- C28 at the payload `"message_id` (a quote and the key): the id is `message_id`; and at the
payload `message_id"`, whose only quote is at index `10`: the empty optional. -/
theorem C28_single_quote_witness :
    JsonMessageProcessorImpl.ProcessMessage "\"message_id".toList
        = some (some { message_id := "message_id".toList })
      ∧ JsonMessageProcessorImpl.ProcessMessage "message_id\"".toList = some none :=
  ⟨((C28_single_quote "\"message_id".toList (by simp [npos_eq])
      ⟨"\"".toList, [], by decide⟩).2.1 "message_id".toList (by decide) (by decide)).2.2.2,
   (C28_single_quote "message_id\"".toList (by simp [npos_eq])
      ⟨[], "\"".toList, by decide⟩).1 "message_id".toList [] (by decide) (by decide)
      (by decide) (by decide)⟩

/-! ## The encoders are injective -/

/-- Equal arrays have equal elements: the reference decoder reads them back. -/
theorem respArray_injective (xs ys : List Str) (h : respArray xs = respArray ys) : xs = ys := by
  have hx := refDecodeArray_respArray xs
  rw [h, refDecodeArray_respArray ys] at hx
  simp only [Option.some.injEq, Prod.mk.injEq, and_true] at hx
  exact hx.symm

/-- The generated fields determine the values. -/
theorem xaddFields_injective : ∀ (vs vs' : List Str) (i : Nat),
    xaddFields i vs = xaddFields i vs' → vs = vs' := by
  intro vs
  induction vs with
  | nil =>
    intro vs' i h
    cases vs' with
    | nil => rfl
    | cons v' vs' => simp [xaddFields] at h
  | cons v vs ih =>
    intro vs' i h
    cases vs' with
    | nil => simp [xaddFields] at h
    | cons v' vs' =>
      simp only [xaddFields, List.cons.injEq, true_and] at h
      rw [h.1, ih vs' (i + 1) h.2]

/-- The subscribe command is the array of `SUBSCRIBE` and the channel name. -/
theorem CreateSubscriptionCommand_eq (c : Str) :
    CreateSubscriptionCommand c = respArray ["SUBSCRIBE".toList, c] := by
  simp [CreateSubscriptionCommand, StringToRespProtocolFormat, respArray, to_string_of_lt]
  decide

/-- C29: on non-empty stream names and non-empty lists of values, two calls of
`CreateWriteMessageToStreamCommand` give the same bytes only for the same stream name and the
same values (in number and one by one), whatever bytes the names and values hold; and two calls
of `CreateSubscriptionCommand` give the same bytes only for the same channel name. -/
theorem C29_encoders_injective (stream_name stream_name' : Str) (values values' : List Str)
    (channel_name channel_name' : Str)
    (hs : stream_name ≠ []) (hs' : stream_name' ≠ []) (hv : values ≠ []) (hv' : values' ≠ []) :
    (CreateWriteMessageToStreamCommand stream_name values
          = CreateWriteMessageToStreamCommand stream_name' values'
        ↔ stream_name = stream_name' ∧ values = values')
      ∧ (CreateSubscriptionCommand channel_name = CreateSubscriptionCommand channel_name'
        ↔ channel_name = channel_name') := by
  constructor
  · constructor
    · intro h
      rw [CreateWriteMessageToStreamCommand_eq stream_name values hs hv,
        CreateWriteMessageToStreamCommand_eq stream_name' values' hs' hv'] at h
      have he := respArray_injective _ _ h
      simp only [xaddElements, List.cons.injEq, true_and] at he
      exact ⟨he.1, xaddFields_injective values values' 0 he.2⟩
    · rintro ⟨h1, h2⟩
      rw [h1, h2]
  · constructor
    · intro h
      rw [CreateSubscriptionCommand_eq, CreateSubscriptionCommand_eq] at h
      have he := respArray_injective _ _ h
      simp only [List.cons.injEq, true_and, and_true] at he
      exact he
    · intro h
      rw [h]

/-- C29 at names and values that hold `\r\n`, `$` and digits: moving the bytes `\r\n$1\r\nc`
from one value to the next, or from the channel name into nothing, changes the command. -/
theorem C29_encoders_injective_witness :
    CreateWriteMessageToStreamCommand "s".toList ["b\r\n$1\r\nc".toList, "d".toList]
        ≠ CreateWriteMessageToStreamCommand "s".toList ["b".toList, "c\r\n$1\r\nd".toList]
      ∧ CreateSubscriptionCommand "news\r\n$1\r\n1".toList
        ≠ CreateSubscriptionCommand "news".toList :=
  ⟨fun h => absurd
      ((C29_encoders_injective "s".toList "s".toList
        ["b\r\n$1\r\nc".toList, "d".toList] ["b".toList, "c\r\n$1\r\nd".toList]
        "news\r\n$1\r\n1".toList "news".toList
        (by decide) (by decide) (by decide) (by decide)).1.mp h).2 (by decide),
   fun h => absurd
      ((C29_encoders_injective "s".toList "s".toList
        ["b\r\n$1\r\nc".toList, "d".toList] ["b".toList, "c\r\n$1\r\nd".toList]
        "news\r\n$1\r\n1".toList "news".toList
        (by decide) (by decide) (by decide) (by decide)).2.mp h) (by decide)⟩

/-! ## `ValidateConfiguration`, both directions -/

/-- The extraction reads back the number that `to_string` wrote, when it fits. -/
theorem extract_to_string (n : Nat) (hn : n ≤ 65535) :
    extract_unsigned_short (to_string n) = (false, n) := by
  obtain ⟨c, t, hct, hc⟩ := to_string_head_digit n
  obtain ⟨hsp, hminus, hplus⟩ := digit_plain c hc
  have hall : ∀ x ∈ c :: t, (refDigit x).isSome = true := by
    rw [← hct]
    exact to_string_all_digits n
  have hdrop : (c :: t).dropWhile isspace = c :: t := by
    rw [List.dropWhile_cons_of_neg (by simp [hsp])]
  have htake : (c :: t).takeWhile (fun x => (refDigit x).isSome) = c :: t :=
    List.takeWhile_eq_self_iff.mpr hall
  have hval : refDigits 0 (c :: t) = (n, []) := by
    have h := refDigits_to_string n 0 []
    rw [List.append_nil, hct] at h
    rw [h]
    simp [refDigits]
  have hsigned : (match c :: t with
      | '-' :: u => (true, u)
      | '+' :: u => (false, u)
      | _ => (false, c :: t)) = (false, c :: t) := by
    split
    · rename_i heq
      simp only [List.cons.injEq] at heq
      exact absurd heq.1 hminus
    · rename_i heq
      simp only [List.cons.injEq] at heq
      exact absurd heq.1 hplus
    · rfl
  unfold extract_unsigned_short
  rw [hct]
  simp only [hdrop, hsigned, htake, hval, List.isEmpty_cons, Bool.false_eq_true, if_false]
  rw [if_neg (by omega)]

/-- The loop over the numeric parameters keeps `ok` when the value of every parameter is the
decimal text of a number up to `65535`. -/
theorem loop_of_canonical (config : Config) : ∀ (params : List Str) (ok : Bool),
    (∀ parameter ∈ params, ∃ n, n ≤ 65535 ∧ config.find parameter = some (to_string n)) →
    ValidateConfiguration.loop config params ok = some ok := by
  intro params
  induction params with
  | nil => intro ok _; rfl
  | cons parameter rest ih =>
    intro ok h
    obtain ⟨n, hn, hf⟩ := h parameter (List.mem_cons_self _ _)
    rw [ValidateConfiguration.loop, hf]
    simp only [extract_to_string n hn, bne_self_eq_false, Bool.or_self, Bool.false_eq_true,
      if_false]
    exact ih ok fun q hq => h q (List.mem_cons_of_mem _ hq)

/-- `ValidateConfiguration` answers `true` exactly for the configurations that hold the six
keys and whose three numeric values are decimal texts of numbers up to `65535`. -/
theorem ValidateConfiguration_iff (config : Config) :
    ValidateConfiguration config = true ↔
      (∀ key ∈ [CFG_KEY_HOST, CFG_KEY_PORT, CFG_KEY_GROUP_SIZE, CFG_KEY_SUB_CHANNEL,
          CFG_KEY_PROC_STREAM, CFG_KEY_MONITORING_INTERVAL], (config.find key).isSome = true)
        ∧ ∀ parameter ∈ [CFG_KEY_PORT, CFG_KEY_GROUP_SIZE, CFG_KEY_MONITORING_INTERVAL],
            ∃ n, n ≤ 65535 ∧ config.find parameter = some (to_string n) := by
  constructor
  · intro h
    unfold ValidateConfiguration at h
    simp only at h
    split_ifs at h with hmiss
    cases hl : ValidateConfiguration.loop config
        [CFG_KEY_PORT, CFG_KEY_GROUP_SIZE, CFG_KEY_MONITORING_INTERVAL] true with
    | none => simp [hl] at h
    | some b =>
      simp only [hl] at h
      subst h
      obtain ⟨_, hall⟩ := ValidateConfiguration_loop_true config _ _ hl
      refine ⟨?_, hall⟩
      intro key hkey
      simp only [Bool.not_eq_true', List.isEmpty_eq_false, Bool.not_eq_true, ne_eq,
        Decidable.not_not] at hmiss
      cases hf : config.find key with
      | some value => rfl
      | none =>
        have : key ∈ List.filter (fun key => (config.find key).isNone)
            [CFG_KEY_HOST, CFG_KEY_PORT, CFG_KEY_GROUP_SIZE, CFG_KEY_SUB_CHANNEL,
              CFG_KEY_PROC_STREAM, CFG_KEY_MONITORING_INTERVAL] :=
          List.mem_filter.mpr ⟨hkey, by rw [hf]; rfl⟩
        rw [hmiss] at this
        exact absurd this (List.not_mem_nil _)
  · rintro ⟨hkeys, hnum⟩
    have hm : ([CFG_KEY_HOST, CFG_KEY_PORT, CFG_KEY_GROUP_SIZE, CFG_KEY_SUB_CHANNEL,
        CFG_KEY_PROC_STREAM, CFG_KEY_MONITORING_INTERVAL].filter
          fun key => (config.find key).isNone).isEmpty = true := by
      rw [List.isEmpty_iff, List.filter_eq_nil_iff]
      intro key hkey
      have := hkeys key hkey
      cases hf : config.find key with
      | none => rw [hf] at this; exact absurd this (by simp)
      | some value => simp
    have hl := loop_of_canonical config
      [CFG_KEY_PORT, CFG_KEY_GROUP_SIZE, CFG_KEY_MONITORING_INTERVAL] true hnum
    unfold ValidateConfiguration
    simp only [hm, hl, Bool.not_true, Bool.false_eq_true, if_false]

/-- C26: `ValidateConfiguration` returns `true` if and only if the six required keys are present
and the values of the port, of the group size and of the monitoring interval are each the
decimal text `to_string n` of a number `n` from `0` to `65535`; such a text is not empty, holds
decimal digits only, and has no leading zero.  The answer depends on nothing else: two
configurations that agree on these three values and on which of the host, the channel and the
stream are present get the same answer. -/
theorem C26_validate_iff (config : Config) :
    (ValidateConfiguration config = true ↔
        (∀ key ∈ [CFG_KEY_HOST, CFG_KEY_PORT, CFG_KEY_GROUP_SIZE, CFG_KEY_SUB_CHANNEL,
            CFG_KEY_PROC_STREAM, CFG_KEY_MONITORING_INTERVAL], ∃ value, config.find key = some value)
          ∧ ∀ parameter ∈ [CFG_KEY_PORT, CFG_KEY_GROUP_SIZE, CFG_KEY_MONITORING_INTERVAL],
              ∃ n, n ≤ 65535 ∧ config.find parameter = some (to_string n))
      ∧ (∀ n, to_string n ≠ []
          ∧ (∀ c ∈ to_string n, 48 ≤ c.toNat ∧ c.toNat ≤ 57)
          ∧ ∀ t, to_string n = '0' :: t → t = [])
      ∧ ∀ config' : Config,
          (∀ key ∈ [CFG_KEY_HOST, CFG_KEY_SUB_CHANNEL, CFG_KEY_PROC_STREAM],
            (config'.find key).isSome = (config.find key).isSome) →
          (∀ parameter ∈ [CFG_KEY_PORT, CFG_KEY_GROUP_SIZE, CFG_KEY_MONITORING_INTERVAL],
            config'.find parameter = config.find parameter) →
          ValidateConfiguration config' = ValidateConfiguration config := by
  refine ⟨?_, ?_, ?_⟩
  · rw [ValidateConfiguration_iff]
    simp only [Option.isSome_iff_exists]
  · intro n
    refine ⟨to_string_ne_nil n, ?_, to_string_no_leading_zero n⟩
    intro c hc
    have h := to_string_all_digits n c hc
    unfold refDigit at h
    split_ifs at h with hr
    · exact hr
    · simp at h
  · intro config' hsome hnum
    rw [Bool.eq_iff_iff, ValidateConfiguration_iff, ValidateConfiguration_iff]
    have e1 := hsome CFG_KEY_HOST (by simp)
    have e2 := hsome CFG_KEY_SUB_CHANNEL (by simp)
    have e3 := hsome CFG_KEY_PROC_STREAM (by simp)
    have n1 := hnum CFG_KEY_PORT (by simp)
    have n2 := hnum CFG_KEY_GROUP_SIZE (by simp)
    have n3 := hnum CFG_KEY_MONITORING_INTERVAL (by simp)
    simp only [List.mem_cons, List.mem_singleton, List.not_mem_nil, or_false, forall_eq_or_imp,
      forall_eq, e1, e2, e3, n1, n2, n3]

/-- C26 at the default configuration, which is accepted, and at the same configuration with the
port written `+6379`, which is not. -/
theorem C26_validate_iff_witness :
    ValidateConfiguration defaultConfig = true
      ∧ ValidateConfiguration signedPortConfig = false := by
  have t1 : to_string 1 = "1".toList := by rw [to_string_of_lt (by decide)]; rfl
  have t3 : to_string 3 = "3".toList := by rw [to_string_of_lt (by decide)]; rfl
  have t6379 : to_string 6379 = "6379".toList := by
    rw [to_string_of_ge (by decide), to_string_of_ge (by decide), to_string_of_ge (by decide),
      to_string_of_lt (by decide)]
    rfl
  constructor
  · refine (C26_validate_iff defaultConfig).1.mpr ⟨?_, ?_⟩
    · intro key hkey
      simp only [List.mem_cons, List.mem_singleton, List.not_mem_nil, or_false] at hkey
      rcases hkey with h | h | h | h | h | h <;> subst h <;>
        exact Option.isSome_iff_exists.mp (by decide)
    · intro parameter hp
      simp only [List.mem_cons, List.mem_singleton, List.not_mem_nil, or_false] at hp
      rcases hp with h | h | h <;> subst h
      · exact ⟨6379, by decide, by rw [t6379]; decide⟩
      · exact ⟨1, by decide, by rw [t1]; decide⟩
      · exact ⟨3, by decide, by rw [t3]; decide⟩
  · cases h : ValidateConfiguration signedPortConfig with
    | false => rfl
    | true =>
      exfalso
      obtain ⟨n, _, hn⟩ := ((C26_validate_iff signedPortConfig).1.mp h).2 CFG_KEY_PORT (by simp)
      have hf : signedPortConfig.find CFG_KEY_PORT = some "+6379".toList := by decide
      rw [hf, Option.some.injEq] at hn
      have hd := ((C26_validate_iff signedPortConfig).2.1 n).2.1 '+' (by rw [← hn]; decide)
      exact absurd hd.1 (by decide)

end SimpleRedisClient

